import Mathlib

/-!
# Twisted Edwards curve arithmetic (`curve.go`)

A shallow embedding of the Go package `edwards`: the curve bundle, the six
registered curves, the curve-membership test, projective addition, the
fixed-pattern scalar ladder, the affine conversion and key generation.

`*big.Int` values are Lean integers.  `big.Int.Mod` is the Euclidean modulus
(the result is never negative) and aborts on a zero modulus; the aborts of
the Go run time are the `none` results of the functions below.
-/

namespace Edwards

/-- The struct `Curve`: a Twisted Edwards curve over the integers modulo `P`. -/
structure Curve where
  P : Int
  A : Int
  D : Int
  N : Int
  Gx : Int
  Gy : Int
  BitSize : Int
  deriving DecidableEq, Repr

/-- The struct `point`: a point in projective coordinates. -/
structure point where
  X : Int
  Y : Int
  Z : Int
  deriving DecidableEq, Repr

/-! ## The registered curves -/

/-- The bundle built by `initE222`. -/
def E222 : Curve where
  P := 2 ^ 222 - 117
  A := 1
  D := 160102
  Gx := 2705691079882681090389589001251962954446177367541711474502428610129
  Gy := 28
  N := 1684996666696914987166688442938726735569737456760058294185521417407
  BitSize := 222

/-- The bundle built by `initE382`. -/
def E382 : Curve where
  P := 2 ^ 382 - 105
  A := 1
  D := -67254
  Gx := 3914921414754292646847594472454013487047137431784830634731377862923477302047857640522480241298429278603678181725699
  Gy := 17
  N := 2462625387274654950767440006258975862817483704404090416745738034557663054564649171262659326683244604346084081047321
  BitSize := 382

/-- The bundle built by `initE448`. -/
def Ed448Goldilocks : Curve where
  P := 2 ^ 448 - 2 ^ 224 - 1
  A := 1
  D := -39081
  Gx := 117812161263436946737282484343310064665180535357016373416879082147939404277809514858788439644911793978499419995990477371552926308078495
  Gy := 19
  N := 181709681073901722637330951972001133588410340171829515070372549795146003961539585716195755291692375963310293709091662304773755859649779
  BitSize := 448

/-- The bundle built by `initE521`. -/
def E521 : Curve where
  P := 2 ^ 521 - 1
  A := 1
  D := -376014
  Gx := 1571054894184995387535939749894317568645297350402905821437625181152304994381188529632591196067604100772673927915114267193389905003276673749012051148356041324
  Gy := 12
  N := 1716199415032652428745475199770348304317358825035826352348615864796385795849413675475876651663657849636693659065234142604319282948702542317993421293670108523
  BitSize := 521

/-- The bundle built by `initC1174`. -/
def Curve1174 : Curve where
  P := 2 ^ 251 - 9
  A := 1
  D := -1174
  Gx := 1582619097725911541954547006453739763381091388846394833492296309729998839514
  Gy := 3037538013604154504764115728651437646519513534305223422754827055689195992590
  N := 904625697166532776746648320380374280092339035279495474023489261773642975601
  BitSize := 251

/-- The bundle built by `initC41417`. -/
def Curve41417 : Curve where
  P := 2 ^ 414 - 17
  A := 1
  D := 3617
  Gx := 17319886477121189177719202498822615443556957307604340815256226171904769976866975908866528699294134494857887698432266169206165
  Gy := 34
  N := 5288447750321988791615322464262168318627237463714249754277190328831105466135348245791335989419337099796002495788978276839289
  BitSize := 414

/-- The curves of `testCurves`, in registry order. -/
def registered : List Curve :=
  [E222, E382, Ed448Goldilocks, E521, Curve1174, Curve41417]

/-- A small complete curve for worked examples: `x^2 + y^2 = 1 + 2*x^2*y^2`
over the integers modulo 13 (2 is not a square there), with the point
`(1, 0)` of order four as generator. -/
def toyCurve : Curve where
  P := 13
  A := 1
  D := 2
  Gx := 1
  Gy := 0
  N := 4
  BitSize := 4

/-! ## `math/big` primitives used by the package -/

/-- Extended Euclid on remainders `r0, r1` with the coefficients `s0, s1` of
`g` carried along (`r ≡ s * g` modulo the modulus); returns the last non-zero
remainder and its coefficient. -/
def xgcdLoop : Nat → Int → Int → Int → Int → Int × Int
  | 0, r0, _, s0, _ => (r0, s0)
  | fuel + 1, r0, r1, s0, s1 =>
    if r1 = 0 then (r0, s0)
    else xgcdLoop fuel r1 (r0 % r1) s1 (s0 - (r0 / r1) * s1)

/-- `big.Int.ModInverse(g, n)`: the inverse of `g` in the ring of integers
modulo `|n|`, in the range `[0, |n|)`; `none` when `g` and `n` are not
relatively prime (Go returns a nil pointer, and the caller's next use of it
aborts).  For `n = 0` the result is `none` as well, although Go returns `1`
for `g = 1`: the only caller, `affineFromProjective`, reduces modulo the same
`n` next and aborts there on zero whatever the inverse was. -/
def modInverse (g n : Int) : Option Int :=
  if n = 0 then none
  else
    let m : Int := n.natAbs
    let r := xgcdLoop (n.natAbs + 1) m (g % m) 0 1
    if r.1 = 1 then some (r.2 % m) else none

/-- `big.Int.Bytes()`: the big-endian bytes of `|n|`, without leading zero
bytes (the empty list for zero).  `bytesLoop` peels the low byte `fuel`
times at most. -/
def bytesLoop : Nat → Nat → List Nat → List Nat
  | 0, _, acc => acc
  | fuel + 1, n, acc =>
    if n = 0 then acc else bytesLoop fuel (n / 256) (n % 256 :: acc)

/-- `big.Int.Bytes()`. -/
def bigBytes (n : Int) : List Nat :=
  bytesLoop n.natAbs n.natAbs []

/-! ## Point arithmetic -/

/-- `Curve.IsOnCurve`: `a*x^2 + y^2 = 1 + d*x^2*y^2` with both sides reduced
modulo `P`. -/
def Curve.IsOnCurve (crv : Curve) (x y : Int) : Option Bool :=
  if crv.P = 0 then none
  else
    let xx := x * x
    let yy := y * y
    let l := (crv.A * xx + yy) % crv.P
    let r := (crv.D * xx * yy + 1) % crv.P
    some (decide (l = r))

/-- `projectiveFromAffine`. -/
def projectiveFromAffine (x y : Int) : point :=
  { X := x, Y := y, Z := 1 }

/-- `Curve.projectiveAdd`.  The first `Mod` is reached on every path, so a
zero modulus aborts the call. -/
def Curve.projectiveAdd (crv : Curve) (l r : point) : Option point :=
  if crv.P = 0 then none
  else
    let a := (l.Z * r.Z) % crv.P
    let c := (l.X * r.X) % crv.P
    let d := (l.Y * r.Y) % crv.P
    let b := (a * a) % crv.P
    let e := (c * d * crv.D) % crv.P
    let f := b - e
    let g := b + e
    let x1y1 := (l.X + l.Y) % crv.P
    let x2y2 := (r.X + r.Y) % crv.P
    let x3 := ((x1y1 * x2y2 - c - d) * f * a) % crv.P
    let ac := (crv.A * c) % crv.P
    let y3 := ((d - ac) * g * a) % crv.P
    let z3 := (f * g) % crv.P
    some { X := x3, Y := y3, Z := z3 }

/-- `Curve.affineFromProjective`: `(0, 0)` when `Z` is zero, otherwise `X`
and `Y` times the inverse of `Z`, reduced modulo `P`. -/
def Curve.affineFromProjective (crv : Curve) (p : point) : Option (Int × Int) :=
  if p.Z = 0 then some (0, 0)
  else
    match modInverse p.Z crv.P with
    | none => none
    | some zinv => some ((p.X * zinv) % crv.P, (p.Y * zinv) % crv.P)

/-- `Curve.Add`. -/
def Curve.Add (crv : Curve) (Lx Ly Rx Ry : Int) : Option (Int × Int) :=
  (crv.projectiveAdd (projectiveFromAffine Lx Ly) (projectiveFromAffine Rx Ry)).bind
    crv.affineFromProjective

/-- The body of the inner loop of `Curve.ScalarMult` for the byte `b`: the
branch on `b&0x80 == 0x80`. -/
def Curve.ladderStep (crv : Curve) (b : Nat) (r0 r1 : point) : Option (point × point) :=
  if b &&& 0x80 = 0x80 then
    (crv.projectiveAdd r0 r1).bind fun r0' =>
    (crv.projectiveAdd r1 r1).bind fun r1' =>
    some (r0', r1')
  else
    (crv.projectiveAdd r0 r1).bind fun r1' =>
    (crv.projectiveAdd r0 r0).bind fun r0' =>
    some (r0', r1')

/-- The inner loop `for n := 0; n < 8; n++`, with `cnt` iterations left;
`b <<= 1` on a byte drops the bit shifted out. -/
def Curve.ladderByte (crv : Curve) : Nat → Nat → point → point → Option (point × point)
  | 0, _, r0, r1 => some (r0, r1)
  | cnt + 1, b, r0, r1 =>
    (crv.ladderStep b r0 r1).bind fun s =>
    crv.ladderByte cnt ((b <<< 1) % 256) s.1 s.2

/-- The outer loop `for _, b := range k`. -/
def Curve.ladder (crv : Curve) : List Nat → point → point → Option (point × point)
  | [], r0, r1 => some (r0, r1)
  | b :: k, r0, r1 =>
    (crv.ladderByte 8 b r0 r1).bind fun s => crv.ladder k s.1 s.2

/-- `Curve.ScalarMult`. -/
def Curve.ScalarMult (crv : Curve) (Bx By : Int) (k : List Nat) : Option (Int × Int) :=
  (crv.ladder k (projectiveFromAffine 0 1) (projectiveFromAffine Bx By)).bind fun s =>
  crv.affineFromProjective s.1

/-- `Curve.ScalarBaseMult`. -/
def Curve.ScalarBaseMult (crv : Curve) (k : List Nat) : Option (Int × Int) :=
  crv.ScalarMult crv.Gx crv.Gy k

/-! ## Key generation -/

/-- Go's `int` arithmetic on a 64-bit target: the value wrapped into the
two's complement range. -/
def wrapInt64 (v : Int) : Int :=
  (v + 2 ^ 63) % 2 ^ 64 - 2 ^ 63

/-- The length `(crv.BitSize+7)>>3` of the private key buffer. -/
def Curve.keyLen (crv : Curve) : Int :=
  wrapInt64 (crv.BitSize + 7) >>> 3

/-- The byte `0xFF >> uint((8-crv.BitSize)%8)`: Go's `%` on `int` truncates
toward zero (the remainder has the sign of the dividend), the conversion to
`uint` wraps modulo `2^64`, and a byte shifted by eight or more is zero. -/
def Curve.keyMask (crv : Curve) : Nat :=
  let r := Int.tmod (wrapInt64 (8 - crv.BitSize)) 8
  let s := (r % 2 ^ 64).toNat
  if s < 8 then 0xFF >>> s else 0

/-- The statement `priv[0] &= 0xFF >> uint((8-crv.BitSize)%8)`; `none` when
the buffer is empty (index out of range). -/
def Curve.maskPriv (crv : Curve) : List Nat → Option (List Nat)
  | [] => none
  | b :: bs => some ((b &&& crv.keyMask) :: bs)

/-- How a call of `Curve.GenerateKey` ends. -/
inductive KeyResult (ε : Type) where
  /-- The call returns `priv, x, y` and a nil error. -/
  | key (priv : List Nat) (x y : Int)
  /-- The call returns the error of the random source. -/
  | failed (err : ε)
  /-- The call aborts with a run-time panic. -/
  | aborted
  deriving DecidableEq, Repr

/-- One call `io.ReadFull(rand, priv)`: from the number of bytes asked for,
an error or the bytes read. -/
abbrev Draw (ε : Type) := Nat → Except ε (List Nat)

/-- The `for` loop of `Curve.GenerateKey` over the successive results of
`io.ReadFull`; `none` when the listed draws are used up with the loop still
running. -/
def Curve.keyLoop {ε : Type} (crv : Curve) (n : Nat) : List (Draw ε) → Option (KeyResult ε)
  | [] => none
  | draw :: rest =>
    match draw n with
    | .error e => some (.failed e)
    | .ok buf =>
      match crv.maskPriv buf with
      | none => some .aborted
      | some priv =>
        match crv.ScalarBaseMult priv with
        | none => some .aborted
        | some (x, y) =>
          if x ≠ 0 ∧ y ≠ 1 then some (.key priv x y)
          else crv.keyLoop n rest

/-- The largest length that `make([]byte, n)` accepts on a 64-bit Linux
target (`maxAlloc` of the Go runtime, `2^48`); beyond it `makeslice` panics
with "len out of range". -/
def maxAlloc : Nat := 2 ^ 48

/-- `Curve.GenerateKey` on a machine that can supply a buffer of at most
`avail` bytes.  `make` aborts on a negative length, on a length above
`maxAlloc`, and the runtime dies when the memory is not there; for length
zero `io.ReadFull` reads nothing and `priv[0]` is out of range. -/
def Curve.GenerateKeyWith {ε : Type} (crv : Curve) (avail : Nat) (rand : List (Draw ε)) :
    Option (KeyResult ε) :=
  if crv.keyLen ≤ 0 ∨ (maxAlloc : Int) < crv.keyLen ∨ (avail : Int) < crv.keyLen then
    some .aborted
  else crv.keyLoop crv.keyLen.toNat rand

/-- `Curve.GenerateKey`, on a machine with memory for every length that
`make` accepts. -/
def Curve.GenerateKey {ε : Type} (crv : Curve) (rand : List (Draw ε)) : Option (KeyResult ε) :=
  crv.GenerateKeyWith maxAlloc rand

/-! ## Scalars as numbers -/

/-- A byte sequence read as a big-endian number. -/
def beValue (k : List Nat) : Nat :=
  k.foldl (fun acc b => acc * 256 + b) 0

/-- The `n`-fold sum of `(Bx, By)` under `Curve.Add`, starting from the
neutral element `(0, 1)`. -/
def Curve.nfold (crv : Curve) (Bx By : Int) : Nat → Option (Int × Int)
  | 0 => some (0, 1)
  | n + 1 => (crv.nfold Bx By n).bind fun s => crv.Add s.1 s.2 Bx By

/-! ## The addition law over a field

The curve `a*x^2 + y^2 = 1 + d*x^2*y^2` and its unified addition law over an
arbitrary field; the code is related to it over the integers modulo `P`. -/

/-- The curve equation at an affine point. -/
def onCurve {F : Type} [Field F] (a d : F) (p : F × F) : Prop :=
  a * p.1 ^ 2 + p.2 ^ 2 = 1 + d * p.1 ^ 2 * p.2 ^ 2

/-- The unified Twisted Edwards addition law on affine points. -/
def eadd {F : Type} [Field F] (a d : F) (p q : F × F) : F × F :=
  ((p.1 * q.2 + p.2 * q.1) / (1 + d * p.1 * q.1 * p.2 * q.2),
    (p.2 * q.2 - a * p.1 * q.1) / (1 - d * p.1 * q.1 * p.2 * q.2))

/-- The `n`-fold sum of `p` under `eadd`, from the neutral element `(0, 1)`. -/
def emul {F : Type} [Field F] (a d : F) (p : F × F) : Nat → F × F
  | 0 => (0, 1)
  | n + 1 => eadd a d (emul a d p n) p

/-- A projective point of the code represents the affine point `q` over the
integers modulo `n`. -/
def Rep (n : Nat) (pt : point) (q : ZMod n × ZMod n) : Prop :=
  (pt.Z : ZMod n) ≠ 0 ∧ (pt.X : ZMod n) = q.1 * pt.Z ∧ (pt.Y : ZMod n) = q.2 * pt.Z

/-- A projective point of the code satisfies the homogeneous curve equation
`a*X^2*Z^2 + Y^2*Z^2 = Z^4 + d*X^2*Y^2` modulo `n`. -/
def projOn (n : Nat) (crv : Curve) (pt : point) : Prop :=
  (crv.A : ZMod n) * (pt.X : ZMod n) ^ 2 * (pt.Z : ZMod n) ^ 2 +
      (pt.Y : ZMod n) ^ 2 * (pt.Z : ZMod n) ^ 2 =
    (pt.Z : ZMod n) ^ 4 + (crv.D : ZMod n) * (pt.X : ZMod n) ^ 2 * (pt.Y : ZMod n) ^ 2

/-! ## The ladder with its log of operations -/

/-- A call of `projectiveAdd` in the ladder, by its operands: `mixed` is
`projectiveAdd(r0, r1)`, `self` is one accumulator added to itself. -/
inductive LadderOp where
  | mixed
  | self
  deriving DecidableEq, Repr

/-- One bit-step of the ladder as executed: the outcome of the test
`b&0x80 == 0x80` and the calls of `projectiveAdd` begun in the step, in
order. -/
structure BitStep where
  bit : Bool
  ops : List LadderOp
  deriving DecidableEq, Repr

/-- `Curve.ladderStep` together with the step it logs; a call that aborts is
the last one logged. -/
def Curve.ladderStepTrace (crv : Curve) (b : Nat) (r0 r1 : point) :
    BitStep × Option (point × point) :=
  if b &&& 0x80 = 0x80 then
    match crv.projectiveAdd r0 r1 with
    | none => ({ bit := true, ops := [LadderOp.mixed] }, none)
    | some r0' =>
      match crv.projectiveAdd r1 r1 with
      | none => ({ bit := true, ops := [LadderOp.mixed, LadderOp.self] }, none)
      | some r1' => ({ bit := true, ops := [LadderOp.mixed, LadderOp.self] }, some (r0', r1'))
  else
    match crv.projectiveAdd r0 r1 with
    | none => ({ bit := false, ops := [LadderOp.mixed] }, none)
    | some r1' =>
      match crv.projectiveAdd r0 r0 with
      | none => ({ bit := false, ops := [LadderOp.mixed, LadderOp.self] }, none)
      | some r0' => ({ bit := false, ops := [LadderOp.mixed, LadderOp.self] }, some (r0', r1'))

/-- `Curve.ladderByte` together with the steps it logs. -/
def Curve.ladderByteTrace (crv : Curve) :
    Nat → Nat → point → point → List BitStep × Option (point × point)
  | 0, _, r0, r1 => ([], some (r0, r1))
  | cnt + 1, b, r0, r1 =>
    match crv.ladderStepTrace b r0 r1 with
    | (st, none) => ([st], none)
    | (st, some s) =>
      (st :: (crv.ladderByteTrace cnt ((b <<< 1) % 256) s.1 s.2).1,
        (crv.ladderByteTrace cnt ((b <<< 1) % 256) s.1 s.2).2)

/-- `Curve.ladder` together with the steps it logs. -/
def Curve.ladderTrace (crv : Curve) :
    List Nat → point → point → List BitStep × Option (point × point)
  | [], r0, r1 => ([], some (r0, r1))
  | b :: k, r0, r1 =>
    match crv.ladderByteTrace 8 b r0 r1 with
    | (t, none) => (t, none)
    | (t, some s) => (t ++ (crv.ladderTrace k s.1 s.2).1, (crv.ladderTrace k s.1 s.2).2)

/-- `Curve.ScalarMult` together with the bit-steps its loop logs. -/
def Curve.ScalarMultTrace (crv : Curve) (Bx By : Int) (k : List Nat) :
    List BitStep × Option (Int × Int) :=
  ((crv.ladderTrace k (projectiveFromAffine 0 1) (projectiveFromAffine Bx By)).1,
    (crv.ladderTrace k (projectiveFromAffine 0 1) (projectiveFromAffine Bx By)).2.bind fun s =>
      crv.affineFromProjective s.1)

/-- The bits of a byte sequence, most-significant byte first and
most-significant bit first. -/
def bitsMSB : List Nat → List Bool
  | [] => []
  | b :: k =>
    [b.testBit 7, b.testBit 6, b.testBit 5, b.testBit 4, b.testBit 3, b.testBit 2,
      b.testBit 1, b.testBit 0] ++ bitsMSB k

/-- The bits tested by the inner loop over `cnt` iterations from the byte
`b`. -/
def testedBits : Nat → Nat → List Bool
  | 0, _ => []
  | cnt + 1, b => decide (b &&& 0x80 = 0x80) :: testedBits cnt ((b <<< 1) % 256)

/-! ## Certificates of primality

The group law behind the ladder needs the modulus of each registered curve to
be a prime and `D` a non-square; both are checked by modular exponentiation. -/

/-- The power `a ^ e` modulo `n` by repeated squaring, over at most `fuel`
bits of `e`. -/
def powModAux (n : Nat) : Nat → Nat → Nat → Nat
  | 0, _, _ => 1 % n
  | fuel + 1, a, e =>
    if e = 0 then 1 % n
    else if e % 2 = 1 then a * powModAux n fuel (a * a % n) (e / 2) % n
    else powModAux n fuel (a * a % n) (e / 2)

/-- The power `a ^ e` modulo `n`. -/
def powMod (a e n : Nat) : Nat :=
  powModAux n e a e

/-- The product `(x1 + y1*s) * (x2 + y2*s)` modulo `n`, where `s * s = d`. -/
def qmul (n d : Nat) (p q : Nat × Nat) : Nat × Nat :=
  ((p.1 * q.1 + d * (p.2 * q.2)) % n, (p.1 * q.2 + p.2 * q.1) % n)

/-- The power `w ^ e` modulo `n` in the pairs `x + y*s` with `s * s = d`, by
repeated squaring over at most `fuel` bits of `e`. -/
def qpowAux (n d : Nat) : Nat → Nat × Nat → Nat → Nat × Nat
  | 0, _, _ => (1 % n, 0)
  | fuel + 1, w, e =>
    if e = 0 then (1 % n, 0)
    else if e % 2 = 1 then qmul n d w (qpowAux n d fuel (qmul n d w w) (e / 2))
    else qpowAux n d fuel (qmul n d w w) (e / 2)

/-- The power `w ^ e` modulo `n` in the pairs `x + y*s` with `s * s = d`. -/
def qpow (n d : Nat) (w : Nat × Nat) (e : Nat) : Nat × Nat :=
  qpowAux n d e w e

/-- The product of a list of prime powers `(q, e)`. -/
def factorProd (qs : List (Nat × Nat)) : Nat :=
  (qs.map fun qe => qe.1 ^ qe.2).prod

/-- The check of a certificate `(a, qs)` for `n`: with `F` the product of the
prime powers `qs`, `n < F * F`, `a ^ F = 1` modulo `n`, and for each `q` in
`qs` the number `a ^ (F / q) - 1` is coprime to `n`. -/
def linearCheck (n a : Nat) (qs : List (Nat × Nat)) : Bool :=
  decide (1 < n) && decide (n < factorProd qs * factorProd qs) &&
    decide (powMod a (factorProd qs) n = 1) &&
    qs.all fun qe => decide (Nat.gcd (powMod a (factorProd qs / qe.1) n + n - 1) n = 1)

/-- The check of a certificate `(d, w, qs)` for `n` in the pairs `x + y*s`
with `s * s = d`: with `F` the product of the prime powers `qs`, `n < F`,
`w ^ F = 1` modulo `n`, and for each `q` in `qs` the difference
`w ^ (F / q) - 1` has no common factor with `n` in both coordinates. -/
def quadraticCheck (n d : Nat) (w : Nat × Nat) (qs : List (Nat × Nat)) : Bool :=
  decide (1 < n) && decide (n < factorProd qs) &&
    decide (qpow n d w (factorProd qs) = (1, 0)) &&
    qs.all fun qe =>
      decide (Nat.gcd (Nat.gcd ((qpow n d w (factorProd qs / qe.1)).1 + n - 1)
        (qpow n d w (factorProd qs / qe.1)).2) n = 1)

/-- The pairs `re + im*s` over the integers modulo `l`, where `s * s = d`. -/
@[ext]
structure QExt (l d : Nat) where
  re : ZMod l
  im : ZMod l

instance QExt.instMul (l d : Nat) : Mul (QExt l d) :=
  ⟨fun p q => ⟨p.re * q.re + (d : ZMod l) * (p.im * q.im), p.re * q.im + p.im * q.re⟩⟩

instance QExt.instOne (l d : Nat) : One (QExt l d) :=
  ⟨⟨1, 0⟩⟩

instance QExt.instMonoid (l d : Nat) : Monoid (QExt l d) where
  mul_assoc p q r := by
    apply QExt.ext
    · show (p.re * q.re + (d : ZMod l) * (p.im * q.im)) * r.re +
          (d : ZMod l) * ((p.re * q.im + p.im * q.re) * r.im) =
        p.re * (q.re * r.re + (d : ZMod l) * (q.im * r.im)) +
          (d : ZMod l) * (p.im * (q.re * r.im + q.im * r.re))
      ring
    · show (p.re * q.re + (d : ZMod l) * (p.im * q.im)) * r.im +
          (p.re * q.im + p.im * q.re) * r.re =
        p.re * (q.re * r.im + q.im * r.re) +
          p.im * (q.re * r.re + (d : ZMod l) * (q.im * r.im))
      ring
  one_mul p := by
    apply QExt.ext
    · show 1 * p.re + (d : ZMod l) * (0 * p.im) = p.re
      ring
    · show 1 * p.im + 0 * p.re = p.im
      ring
  mul_one p := by
    apply QExt.ext
    · show p.re * 1 + (d : ZMod l) * (p.im * 0) = p.re
      ring
    · show p.re * 0 + p.im * 1 = p.im
      ring

/-- The pairs as a product type. -/
def QExt.equivProd (l d : Nat) : QExt l d ≃ ZMod l × ZMod l where
  toFun p := (p.re, p.im)
  invFun p := ⟨p.1, p.2⟩
  left_inv _ := rfl
  right_inv _ := rfl

/-- The pair of residues of a pair of numbers. -/
def QExt.ofNat (l d : Nat) (p : Nat × Nat) : QExt l d :=
  ⟨(p.1 : ZMod l), (p.2 : ZMod l)⟩

/-! ## The `math/big` model -/

theorem gcd_emod_step (a b : Int) : Int.gcd b (a % b) = Int.gcd a b := by
  have key : a % b = a - b * (a / b) := Int.emod_def a b
  apply Nat.dvd_antisymm
  · have h1 : (Int.gcd b (a % b) : Int) ∣ b := Int.gcd_dvd_left
    have h2 : (Int.gcd b (a % b) : Int) ∣ a % b := Int.gcd_dvd_right
    have h3 : (Int.gcd b (a % b) : Int) ∣ a := by
      have h4 := dvd_add h2 (Dvd.dvd.mul_right h1 (a / b))
      rwa [Int.emod_add_ediv] at h4
    exact Int.natCast_dvd_natCast.mp (Int.dvd_gcd h3 h1)
  · have h1 : (Int.gcd a b : Int) ∣ a := Int.gcd_dvd_left
    have h2 : (Int.gcd a b : Int) ∣ b := Int.gcd_dvd_right
    have h3 : (Int.gcd a b : Int) ∣ a % b := by
      rw [key]
      exact dvd_sub h1 (Dvd.dvd.mul_right h2 _)
    exact Int.natCast_dvd_natCast.mp (Int.dvd_gcd h2 h3)

/-- The loop of the extended Euclidean algorithm returns the greatest common
divisor together with a coefficient of `g` for it. -/
theorem xgcdLoop_spec (m g : Int) : ∀ (fuel : Nat) (r0 r1 s0 s1 : Int),
    0 ≤ r0 → 0 ≤ r1 → r1 < fuel → r0 ≡ s0 * g [ZMOD m] → r1 ≡ s1 * g [ZMOD m] →
    (xgcdLoop fuel r0 r1 s0 s1).1 = Int.gcd r0 r1 ∧
    (xgcdLoop fuel r0 r1 s0 s1).1 ≡ (xgcdLoop fuel r0 r1 s0 s1).2 * g [ZMOD m] := by
  intro fuel
  induction fuel with
  | zero =>
    intro r0 r1 s0 s1 _ h1 hf _ _
    exfalso
    simp only [Nat.cast_zero] at hf
    omega
  | succ fuel ih =>
    intro r0 r1 s0 s1 h0 h1 hf c0 c1
    by_cases hz : r1 = 0
    · subst hz
      simp only [xgcdLoop, if_true]
      refine ⟨?_, c0⟩
      rw [Int.gcd_zero_right]
      exact (Int.natAbs_of_nonneg h0).symm
    · have hpos : 0 < r1 := lt_of_le_of_ne h1 (Ne.symm hz)
      have hlt : r0 % r1 < r1 := Int.emod_lt_of_pos r0 hpos
      have hnn : 0 ≤ r0 % r1 := Int.emod_nonneg r0 hz
      have hf2 : r0 % r1 < (fuel : Int) := by
        push_cast at hf
        omega
      have c2 : r0 % r1 ≡ (s0 - r0 / r1 * s1) * g [ZMOD m] := by
        have e1 : r0 % r1 = r0 - r0 / r1 * r1 := by rw [Int.emod_def]; ring
        have e2 : (s0 - r0 / r1 * s1) * g = s0 * g - r0 / r1 * (s1 * g) := by ring
        rw [e1, e2]
        exact Int.ModEq.sub c0 (Int.ModEq.mul_left _ c1)
      have := ih r1 (r0 % r1) s1 (s0 - r0 / r1 * s1) h1 hnn hf2 c1 c2
      simp only [xgcdLoop, if_neg hz]
      rw [gcd_emod_step] at this
      exact this

/-- What `modInverse` returns: nothing on a zero modulus or when `g` and `n`
have a common factor, otherwise the inverse of `g` in `[0, |n|)`. -/
theorem modInverse_spec (g n : Int) :
    (n = 0 ∨ Int.gcd g n ≠ 1 → modInverse g n = none) ∧
    (n ≠ 0 → Int.gcd g n = 1 →
      ∃ z, modInverse g n = some z ∧ 0 ≤ z ∧ z < |n| ∧ z * g ≡ 1 [ZMOD n]) := by
  by_cases hn : n = 0
  · refine ⟨fun _ => by simp [modInverse, hn], fun h => absurd hn h⟩
  have hm : (0 : Int) < (n.natAbs : Int) := by
    have := Int.natAbs_pos.mpr hn
    exact_mod_cast this
  have habs : ((n.natAbs : Nat) : Int) = |n| := Int.natCast_natAbs n
  have hr1 : g % (n.natAbs : Int) < ((n.natAbs + 1 : Nat) : Int) := by
    have := Int.emod_lt_of_pos g hm
    rw [Nat.cast_succ]
    omega
  have c0 : ((n.natAbs : Nat) : Int) ≡ 0 * g [ZMOD (n.natAbs : Int)] := by
    rw [zero_mul]
    show _ % _ = _ % _
    simp
  have c1 : g % (n.natAbs : Int) ≡ 1 * g [ZMOD (n.natAbs : Int)] := by
    rw [one_mul]
    exact Int.mod_modEq g _
  obtain ⟨hd, hc⟩ := xgcdLoop_spec (n.natAbs : Int) g (n.natAbs + 1) (n.natAbs : Int)
    (g % (n.natAbs : Int)) 0 1 hm.le (Int.emod_nonneg g hm.ne') hr1 c0 c1
  have hgcd : Int.gcd (n.natAbs : Int) (g % (n.natAbs : Int)) = Int.gcd g n := by
    rw [gcd_emod_step, Int.gcd_def, Int.gcd_def, Int.natAbs_ofNat]
  rw [hgcd] at hd
  constructor
  · rintro (h | h)
    · exact absurd h hn
    · simp only [modInverse, if_neg hn]
      rw [if_neg]
      rw [hd]
      exact_mod_cast h
  · intro _ h1
    refine ⟨(xgcdLoop (n.natAbs + 1) (n.natAbs : Int) (g % (n.natAbs : Int)) 0 1).2 %
      (n.natAbs : Int), ?_, Int.emod_nonneg _ hm.ne', ?_, ?_⟩
    · simp only [modInverse, if_neg hn]
      rw [if_pos]
      rw [hd, h1]
      rfl
    · rw [← habs]
      exact Int.emod_lt_of_pos _ hm
    · rw [hd, h1] at hc
      have hc2 : (xgcdLoop (n.natAbs + 1) (n.natAbs : Int) (g % (n.natAbs : Int)) 0 1).2 %
          (n.natAbs : Int) * g ≡ 1 [ZMOD (n.natAbs : Int)] :=
        ((Int.mod_modEq _ _).mul_right g).trans (by exact_mod_cast hc.symm)
      have hdvd : n ∣ ((n.natAbs : Nat) : Int) := by
        rw [habs]
        exact (dvd_abs n n).mpr (dvd_refl n)
      exact Int.ModEq.of_dvd hdvd hc2

theorem one_emod {P : Int} (hP : 1 < P) : (1 : Int) % P = 1 :=
  Int.emod_eq_of_lt (by omega) hP

theorem modInverse_one {P : Int} (hP : 1 < P) : modInverse 1 P = some 1 := by
  obtain ⟨z, hz, h0, h1, h2⟩ := (modInverse_spec 1 P).2 (by omega) (by simp)
  rw [hz]
  have habs : |P| = P := abs_of_pos (by omega)
  rw [habs] at h1
  rw [mul_one] at h2
  have h3 : z % P = 1 % P := h2
  rw [Int.emod_eq_of_lt h0 h1, one_emod hP] at h3
  rw [h3]

/-! ## Polynomial identities of the addition law -/

theorem closure_poly {F : Type*} [CommRing F] (a d x1 y1 x2 y2 : F)
    (h1 : a * x1 ^ 2 + y1 ^ 2 = 1 + d * x1 ^ 2 * y1 ^ 2)
    (h2 : a * x2 ^ 2 + y2 ^ 2 = 1 + d * x2 ^ 2 * y2 ^ 2) :
    a * (x1 * y2 + y1 * x2) ^ 2 * (1 - d * x1 * x2 * y1 * y2) ^ 2 +
      (y1 * y2 - a * x1 * x2) ^ 2 * (1 + d * x1 * x2 * y1 * y2) ^ 2 =
    (1 + d * x1 * x2 * y1 * y2) ^ 2 * (1 - d * x1 * x2 * y1 * y2) ^ 2 +
      d * (x1 * y2 + y1 * x2) ^ 2 * (y1 * y2 - a * x1 * x2) ^ 2 := by
  linear_combination
    (a^2*x2^4 - a*d*x1^2*x2^2*y2^2 - a*d*x2^4*y2^2 + 2*a*x2^2*y2^2 + d^3*x1^2*y1^2*x2^4*y2^4 -
      d*y1^2*x2^2*y2^2 - d*x2^2*y2^4 - d*x2^2*y2^2 + y2^4) * h1 +
    (-a^2*x1^2*x2^2 + a*d^2*x1^4*y1^2*x2^2*y2^2 - a*x1^2*y2^2 - a*y1^2*x2^2 + a*x2^2 +
      d^2*x1^2*y1^4*x2^2*y2^2 - d^2*x1^2*y1^2*x2^2*y2^2 - y1^2*y2^2 + y2^2 + 1) * h2

theorem assoc_x_poly {F : Type*} [CommRing F] (a d x1 y1 x2 y2 x3 y3 : F)
    (h1 : a * x1 ^ 2 + y1 ^ 2 = 1 + d * x1 ^ 2 * y1 ^ 2)
    (h2 : a * x2 ^ 2 + y2 ^ 2 = 1 + d * x2 ^ 2 * y2 ^ 2)
    (h3 : a * x3 ^ 2 + y3 ^ 2 = 1 + d * x3 ^ 2 * y3 ^ 2) :
    ((x1 * y2 + y1 * x2) * (1 - d * x1 * x2 * y1 * y2) * y3 + (y1 * y2 - a * x1 * x2) * (1 + d * x1
        * x2 * y1 * y2) * x3) *
      ((1 + d * x2 * x3 * y2 * y3) * (1 - d * x2 * x3 * y2 * y3) + d * x1 * y1 * (x2 * y3 + y2 * x3) *
        (y2 * y3 - a * x2 * x3)) =
    (x1 * (y2 * y3 - a * x2 * x3) * (1 + d * x2 * x3 * y2 * y3) + y1 * (x2 * y3 + y2 * x3) * (1 - d
        * x2 * x3 * y2 * y3)) *
      ((1 + d * x1 * x2 * y1 * y2) * (1 - d * x1 * x2 * y1 * y2) + d * (x1 * y2 + y1 * x2) * (y1 * y2
        - a * x1 * x2) * x3 * y3) := by
  linear_combination
    (-a^2*d*x1*x2^4*y2*x3^2*y3 - a^2*d*x1*x2^3*y2^2*x3^3 + a*d^2*x1*x2^4*y2^3*x3^2*y3 +
      a*d*x1*x2^3*y2^2*x3 - a*d*y1*x2^4*y2*x3*y3^2 + a*d*y1*x2^2*y2^3*x3^3 - d^2*x1*x2^3*y2^4*x3*y3^2
      + d^2*y1*x2^4*y2^3*x3*y3^2 + d^2*y1*x2^3*y2^4*x3^2*y3 + d*x1*x2^2*y2^3*y3^3 - d*x1*x2^2*y2^3*y3
      + d*x1*x2*y2^4*x3*y3^2 + d*y1*x2^3*y2^2*y3^3 - d*y1*x2^3*y2^2*y3 - d*y1*x2^2*y2^3*x3 -
      d*y1*x2*y2^4*x3^2*y3) * h1 +
    (a^2*d*x1^3*x2^2*y2*x3^2*y3 - a^2*d*x1^2*y1*x2^2*y2*x3^3 - a*d*x1^3*x2*y2^2*x3*y3^2 +
      a*d*x1^2*y1*x2^2*y2*x3 + a*d*x1*y1^2*x2*y2^2*x3^3 - a*d*x1*x2^2*y2*x3^2*y3 -
      d*x1^2*y1*x2*y2^2*y3^3 + d*x1^2*y1*x2*y2^2*y3 - d*x1*y1^2*x2^2*y2*y3^3 + d*x1*y1^2*x2^2*y2*y3 -
      d*x1*y1^2*x2*y2^2*x3 + d*x1*x2*y2^2*x3*y3^2 + d*y1^3*x2^2*y2*x3*y3^2 + d*y1^3*x2*y2^2*x3^2*y3 -
      d*y1*x2^2*y2*x3*y3^2 - d*y1*x2*y2^2*x3^2*y3) * h2 +
    (a^2*d*x1^3*x2^3*y2^2*x3 + a^2*d*x1^2*y1*x2^4*y2*x3 - a*d^2*x1^2*y1*x2^4*y2^3*x3 -
      a*d*x1^3*x2^2*y2^3*y3 + a*d*x1*y1^2*x2^4*y2*y3 - a*d*x1*x2^3*y2^2*x3 - d^2*x1^2*y1*x2^3*y2^4*y3
      - d^2*x1*y1^2*x2^4*y2^3*y3 + d^2*x1*y1^2*x2^3*y2^4*x3 + d*x1^2*y1*x2*y2^4*y3 -
      d*x1*y1^2*x2*y2^4*x3 + d*x1*x2^2*y2^3*y3 - d*y1^3*x2^3*y2^2*y3 - d*y1^3*x2^2*y2^3*x3 +
      d*y1*x2^3*y2^2*y3 + d*y1*x2^2*y2^3*x3) * h3

theorem assoc_y_poly {F : Type*} [CommRing F] (a d x1 y1 x2 y2 x3 y3 : F)
    (h1 : a * x1 ^ 2 + y1 ^ 2 = 1 + d * x1 ^ 2 * y1 ^ 2)
    (h2 : a * x2 ^ 2 + y2 ^ 2 = 1 + d * x2 ^ 2 * y2 ^ 2)
    (h3 : a * x3 ^ 2 + y3 ^ 2 = 1 + d * x3 ^ 2 * y3 ^ 2) :
    ((y1 * y2 - a * x1 * x2) * (1 + d * x1 * x2 * y1 * y2) * y3 - a * (x1 * y2 + y1 * x2) * (1 - d *
        x1 * x2 * y1 * y2) * x3) *
      ((1 + d * x2 * x3 * y2 * y3) * (1 - d * x2 * x3 * y2 * y3) - d * x1 * y1 * (x2 * y3 + y2 * x3) *
        (y2 * y3 - a * x2 * x3)) =
    (y1 * (y2 * y3 - a * x2 * x3) * (1 + d * x2 * x3 * y2 * y3) - a * x1 * (x2 * y3 + y2 * x3) * (1
        - d * x2 * x3 * y2 * y3)) *
      ((1 + d * x1 * x2 * y1 * y2) * (1 - d * x1 * x2 * y1 * y2) - d * (x1 * y2 + y1 * x2) * (y1 * y2
        - a * x1 * x2) * x3 * y3) := by
  linear_combination
    (a^2*d*x1*x2^4*y2*x3*y3^2 - a^2*d*x1*x2^2*y2^3*x3^3 - a^2*d*y1*x2^4*y2*x3^2*y3 -
      a^2*d*y1*x2^3*y2^2*x3^3 - a*d^2*x1*x2^4*y2^3*x3*y3^2 - a*d^2*x1*x2^3*y2^4*x3^2*y3 +
      a*d^2*y1*x2^4*y2^3*x3^2*y3 - a*d*x1*x2^3*y2^2*y3^3 + a*d*x1*x2^3*y2^2*y3 + a*d*x1*x2^2*y2^3*x3 +
      a*d*x1*x2*y2^4*x3^2*y3 + a*d*y1*x2^3*y2^2*x3 - d^2*y1*x2^3*y2^4*x3*y3^2 + d*y1*x2^2*y2^3*y3^3 -
      d*y1*x2^2*y2^3*y3 + d*y1*x2*y2^4*x3*y3^2) * h1 +
    (-a^2*d*x1^3*x2^2*y2*x3*y3^2 - a^2*d*x1^3*x2*y2^2*x3^2*y3 + a^2*d*x1^2*y1*x2*y2^2*x3^3 +
      a^2*d*x1*y1^2*x2^2*y2*x3^3 - a*d*x1^2*y1*x2^2*y2*y3^3 + a*d*x1^2*y1*x2^2*y2*y3 -
      a*d*x1^2*y1*x2*y2^2*x3 - a*d*x1*y1^2*x2^2*y2*x3 + a*d*x1*x2^2*y2*x3*y3^2 +
      a*d*x1*x2*y2^2*x3^2*y3 + a*d*y1^3*x2^2*y2*x3^2*y3 - a*d*y1*x2^2*y2*x3^2*y3 +
      d*x1*y1^2*x2*y2^2*y3^3 - d*x1*y1^2*x2*y2^2*y3 - d*y1^3*x2*y2^2*x3*y3^2 + d*y1*x2*y2^2*x3*y3^2) * h2 +
    (a^2*d*x1^3*x2^3*y2^2*y3 + a^2*d*x1^3*x2^2*y2^3*x3 + a^2*d*x1^2*y1*x2^4*y2*y3 -
      a^2*d*x1*y1^2*x2^4*y2*x3 - a*d^2*x1^2*y1*x2^4*y2^3*y3 + a*d^2*x1^2*y1*x2^3*y2^4*x3 +
      a*d^2*x1*y1^2*x2^4*y2^3*x3 - a*d*x1^2*y1*x2*y2^4*x3 - a*d*x1*x2^3*y2^2*y3 - a*d*x1*x2^2*y2^3*x3
      + a*d*y1^3*x2^3*y2^2*x3 - a*d*y1*x2^3*y2^2*x3 + d^2*x1*y1^2*x2^3*y2^4*y3 - d*x1*y1^2*x2*y2^4*y3
      - d*y1^3*x2^2*y2^3*y3 + d*y1*x2^2*y2^3*y3) * h3

/-! ## The group law over a field -/

theorem onCurve_neutral {F : Type} [Field F] (a d : F) : onCurve a d ((0, 1) : F × F) := by
  simp [onCurve]

theorem eadd_neutral_right {F : Type} [Field F] (a d : F) (p : F × F) :
    eadd a d p (0, 1) = p := by
  simp [eadd]

theorem eadd_neutral_left {F : Type} [Field F] (a d : F) (p : F × F) :
    eadd a d (0, 1) p = p := by
  simp [eadd]

theorem eadd_comm {F : Type} [Field F] (a d : F) (p q : F × F) :
    eadd a d p q = eadd a d q p := by
  simp only [eadd]
  refine Prod.ext ?_ ?_
  · show _ / _ = _ / _
    congr 1 <;> ring
  · show _ / _ = _ / _
    congr 1 <;> ring

/-- The heart of completeness: on a curve with `a` a square and `d` not a
square, no two points have `(d*x1*x2*y1*y2)^2 = 1`. -/
theorem no_unit_product {F : Type} [Field F] (s d x1 y1 x2 y2 : F) (h2 : (2 : F) ≠ 0)
    (hd : ¬ IsSquare d)
    (h1 : s * s * x1 ^ 2 + y1 ^ 2 = 1 + d * x1 ^ 2 * y1 ^ 2)
    (hq : s * s * x2 ^ 2 + y2 ^ 2 = 1 + d * x2 ^ 2 * y2 ^ 2)
    (he : (d * x1 * x2 * y1 * y2) ^ 2 = 1) : False := by
  have hx1 : x1 ≠ 0 := by
    rintro rfl
    simp at he
  have hy1 : y1 ≠ 0 := by
    rintro rfl
    simp at he
  have hy2 : y2 ≠ 0 := by
    rintro rfl
    simp at he
  have hA : (s * x1 + d * x1 * x2 * y1 * y2 * y1) ^ 2 =
      d * (x1 * y1 * (s * x2 + y2)) ^ 2 := by
    linear_combination (y1 ^ 2 - 1) * he + h1 - d * x1 ^ 2 * y1 ^ 2 * hq
  have hB : (s * x1 - d * x1 * x2 * y1 * y2 * y1) ^ 2 =
      d * (x1 * y1 * (s * x2 - y2)) ^ 2 := by
    linear_combination (y1 ^ 2 - 1) * he + h1 - d * x1 ^ 2 * y1 ^ 2 * hq
  by_cases hp : s * x2 + y2 = 0
  · by_cases hm : s * x2 - y2 = 0
    · have : 2 * y2 = 0 := by linear_combination hp - hm
      rcases mul_eq_zero.mp this with h | h
      · exact h2 h
      · exact hy2 h
    · apply hd
      have hne : x1 * y1 * (s * x2 - y2) ≠ 0 := mul_ne_zero (mul_ne_zero hx1 hy1) hm
      refine ⟨(s * x1 - d * x1 * x2 * y1 * y2 * y1) / (x1 * y1 * (s * x2 - y2)), ?_⟩
      rw [div_mul_div_comm, eq_div_iff (mul_ne_zero hne hne)]
      linear_combination -hB
  · apply hd
    have hne : x1 * y1 * (s * x2 + y2) ≠ 0 := mul_ne_zero (mul_ne_zero hx1 hy1) hp
    refine ⟨(s * x1 + d * x1 * x2 * y1 * y2 * y1) / (x1 * y1 * (s * x2 + y2)), ?_⟩
    rw [div_mul_div_comm, eq_div_iff (mul_ne_zero hne hne)]
    linear_combination -hA

/-- Completeness: both denominators of the addition law are non-zero on
points of the curve. -/
theorem denominators_ne_zero {F : Type} [Field F] {a d : F} (h2 : (2 : F) ≠ 0)
    (ha : IsSquare a) (hd : ¬ IsSquare d) {p q : F × F}
    (hp : onCurve a d p) (hq : onCurve a d q) :
    1 + d * p.1 * q.1 * p.2 * q.2 ≠ 0 ∧ 1 - d * p.1 * q.1 * p.2 * q.2 ≠ 0 := by
  obtain ⟨s, rfl⟩ := ha
  constructor
  · intro h
    refine no_unit_product s d p.1 p.2 q.1 q.2 h2 hd hp hq ?_
    linear_combination (d * p.1 * q.1 * p.2 * q.2 - 1) * h
  · intro h
    refine no_unit_product s d p.1 p.2 q.1 q.2 h2 hd hp hq ?_
    linear_combination (-1 - d * p.1 * q.1 * p.2 * q.2) * h

/-- Closure in implicit form: if `x3`, `y3` satisfy the defining equations
of the sum, the sum is on the curve. -/
theorem closure_implicit {F : Type} [Field F] (a d x1 y1 x2 y2 x3 y3 : F)
    (h1 : a * x1 ^ 2 + y1 ^ 2 = 1 + d * x1 ^ 2 * y1 ^ 2)
    (h2 : a * x2 ^ 2 + y2 ^ 2 = 1 + d * x2 ^ 2 * y2 ^ 2)
    (hp : 1 + d * x1 * x2 * y1 * y2 ≠ 0) (hm : 1 - d * x1 * x2 * y1 * y2 ≠ 0)
    (hx : x3 * (1 + d * x1 * x2 * y1 * y2) = x1 * y2 + y1 * x2)
    (hy : y3 * (1 - d * x1 * x2 * y1 * y2) = y1 * y2 - a * x1 * x2) :
    a * x3 ^ 2 + y3 ^ 2 = 1 + d * x3 ^ 2 * y3 ^ 2 := by
  have key := closure_poly a d x1 y1 x2 y2 h1 h2
  rw [← hx, ← hy] at key
  have hne : (1 + d * x1 * x2 * y1 * y2) ^ 2 * (1 - d * x1 * x2 * y1 * y2) ^ 2 ≠ 0 :=
    mul_ne_zero (pow_ne_zero 2 hp) (pow_ne_zero 2 hm)
  apply mul_right_cancel₀ hne
  linear_combination key

theorem eadd_fst_mul {F : Type} [Field F] (a d : F) (p q : F × F)
    (hp : 1 + d * p.1 * q.1 * p.2 * q.2 ≠ 0) :
    (eadd a d p q).1 * (1 + d * p.1 * q.1 * p.2 * q.2) = p.1 * q.2 + p.2 * q.1 := by
  simp only [eadd]
  exact div_mul_cancel₀ _ hp

theorem eadd_snd_mul {F : Type} [Field F] (a d : F) (p q : F × F)
    (hm : 1 - d * p.1 * q.1 * p.2 * q.2 ≠ 0) :
    (eadd a d p q).2 * (1 - d * p.1 * q.1 * p.2 * q.2) = p.2 * q.2 - a * p.1 * q.1 := by
  simp only [eadd]
  exact div_mul_cancel₀ _ hm

/-- Closure: the sum of two points of a complete curve is on the curve. -/
theorem onCurve_eadd {F : Type} [Field F] {a d : F} (h2 : (2 : F) ≠ 0)
    (ha : IsSquare a) (hd : ¬ IsSquare d) {p q : F × F}
    (hp : onCurve a d p) (hq : onCurve a d q) : onCurve a d (eadd a d p q) := by
  obtain ⟨n1, n2⟩ := denominators_ne_zero h2 ha hd hp hq
  exact closure_implicit a d p.1 p.2 q.1 q.2 _ _ hp hq n1 n2
    (eadd_fst_mul a d p q n1) (eadd_snd_mul a d p q n2)

/-- Associativity on a complete curve. -/
theorem eadd_assoc {F : Type} [Field F] {a d : F} (h2 : (2 : F) ≠ 0)
    (ha : IsSquare a) (hd : ¬ IsSquare d) {p q r : F × F}
    (hp : onCurve a d p) (hq : onCurve a d q) (hr : onCurve a d r) :
    eadd a d (eadd a d p q) r = eadd a d p (eadd a d q r) := by
  have hpq := onCurve_eadd h2 ha hd hp hq
  have hqr := onCurve_eadd h2 ha hd hq hr
  obtain ⟨n1, n2⟩ := denominators_ne_zero h2 ha hd hp hq
  obtain ⟨n3, n4⟩ := denominators_ne_zero h2 ha hd hq hr
  obtain ⟨n5, n6⟩ := denominators_ne_zero h2 ha hd hpq hr
  obtain ⟨n7, n8⟩ := denominators_ne_zero h2 ha hd hp hqr
  have e1 := eadd_fst_mul a d p q n1
  have e2 := eadd_snd_mul a d p q n2
  have e3 := eadd_fst_mul a d q r n3
  have e4 := eadd_snd_mul a d q r n4
  have kx := assoc_x_poly a d p.1 p.2 q.1 q.2 r.1 r.2 hp hq hr
  have ky := assoc_y_poly a d p.1 p.2 q.1 q.2 r.1 r.2 hp hq hr
  rw [← e1, ← e2, ← e3, ← e4] at kx ky
  have hne : (1 + d * p.1 * q.1 * p.2 * q.2) * (1 - d * p.1 * q.1 * p.2 * q.2) *
      ((1 + d * q.1 * r.1 * q.2 * r.2) * (1 - d * q.1 * r.1 * q.2 * r.2)) ≠ 0 :=
    mul_ne_zero (mul_ne_zero n1 n2) (mul_ne_zero n3 n4)
  refine Prod.ext ?_ ?_
  · show ((eadd a d p q).1 * r.2 + (eadd a d p q).2 * r.1) /
        (1 + d * (eadd a d p q).1 * r.1 * (eadd a d p q).2 * r.2) =
      (p.1 * (eadd a d q r).2 + p.2 * (eadd a d q r).1) /
        (1 + d * p.1 * (eadd a d q r).1 * p.2 * (eadd a d q r).2)
    rw [div_eq_div_iff n5 n7]
    apply mul_right_cancel₀ hne
    linear_combination kx
  · show ((eadd a d p q).2 * r.2 - a * (eadd a d p q).1 * r.1) /
        (1 - d * (eadd a d p q).1 * r.1 * (eadd a d p q).2 * r.2) =
      (p.2 * (eadd a d q r).2 - a * p.1 * (eadd a d q r).1) /
        (1 - d * p.1 * (eadd a d q r).1 * p.2 * (eadd a d q r).2)
    rw [div_eq_div_iff n6 n8]
    apply mul_right_cancel₀ hne
    linear_combination ky

theorem onCurve_emul {F : Type} [Field F] {a d : F} (h2 : (2 : F) ≠ 0)
    (ha : IsSquare a) (hd : ¬ IsSquare d) {p : F × F} (hp : onCurve a d p) (n : Nat) :
    onCurve a d (emul a d p n) := by
  induction n with
  | zero => exact onCurve_neutral a d
  | succ n ih => exact onCurve_eadd h2 ha hd ih hp

/-- Multiples add up: `(m + n)·p = m·p + n·p`. -/
theorem emul_add {F : Type} [Field F] {a d : F} (h2 : (2 : F) ≠ 0)
    (ha : IsSquare a) (hd : ¬ IsSquare d) {p : F × F} (hp : onCurve a d p) (m n : Nat) :
    emul a d p (m + n) = eadd a d (emul a d p m) (emul a d p n) := by
  induction n with
  | zero => simp [emul, eadd_neutral_right]
  | succ n ih =>
    show eadd a d (emul a d p (m + n)) p = eadd a d (emul a d p m) (eadd a d (emul a d p n) p)
    rw [ih, eadd_assoc h2 ha hd (onCurve_emul h2 ha hd hp m) (onCurve_emul h2 ha hd hp n) hp]

/-! ## Elementary facts about the embedded functions -/

theorem projectiveAdd_some (crv : Curve) (hP : crv.P ≠ 0) (l r : point) :
    ∃ q, crv.projectiveAdd l r = some q := by
  simp [Curve.projectiveAdd, hP]

theorem projectiveAdd_neutral (crv : Curve) (hP : 1 < crv.P) :
    crv.projectiveAdd (projectiveFromAffine 0 1) (projectiveFromAffine 0 1) =
      some (projectiveFromAffine 0 1) := by
  have h0 : crv.P ≠ 0 := by omega
  simp [Curve.projectiveAdd, projectiveFromAffine, h0, one_emod hP]

theorem projectiveAdd_neutral_left (crv : Curve) (hP : 1 < crv.P) (x y : Int)
    (hx : 0 ≤ x ∧ x < crv.P) (hy : 0 ≤ y ∧ y < crv.P) :
    crv.projectiveAdd (projectiveFromAffine 0 1) (projectiveFromAffine x y) =
      some (projectiveFromAffine x y) := by
  have h0 : crv.P ≠ 0 := by omega
  have ex : x % crv.P = x := Int.emod_eq_of_lt hx.1 hx.2
  have ey : y % crv.P = y := Int.emod_eq_of_lt hy.1 hy.2
  have exy : ((x + y) % crv.P - y) % crv.P = x := by
    rw [Int.sub_emod, Int.emod_emod, ← Int.sub_emod, add_sub_cancel_right, ex]
  simp [Curve.projectiveAdd, projectiveFromAffine, h0, one_emod hP, ex, ey, exy]

theorem affineFromProjective_affine (crv : Curve) (hP : 1 < crv.P) (x y : Int)
    (hx : 0 ≤ x ∧ x < crv.P) (hy : 0 ≤ y ∧ y < crv.P) :
    crv.affineFromProjective (projectiveFromAffine x y) = some (x, y) := by
  have ex : x % crv.P = x := Int.emod_eq_of_lt hx.1 hx.2
  have ey : y % crv.P = y := Int.emod_eq_of_lt hy.1 hy.2
  simp [Curve.affineFromProjective, projectiveFromAffine, modInverse_one hP, ex, ey]

theorem ladderStep_zero (crv : Curve) (hP : 1 < crv.P) (r1 : point) :
    ∃ q, crv.ladderStep 0 (projectiveFromAffine 0 1) r1 = some (projectiveFromAffine 0 1, q) := by
  obtain ⟨q, hq⟩ := projectiveAdd_some crv (by omega) (projectiveFromAffine 0 1) r1
  exact ⟨q, by simp [Curve.ladderStep, hq, projectiveAdd_neutral crv hP]⟩

theorem ladderByte_zero (crv : Curve) (hP : 1 < crv.P) : ∀ (cnt : Nat) (r1 : point),
    ∃ q, crv.ladderByte cnt 0 (projectiveFromAffine 0 1) r1 =
      some (projectiveFromAffine 0 1, q) := by
  intro cnt
  induction cnt with
  | zero => intro r1; exact ⟨r1, rfl⟩
  | succ cnt ih =>
    intro r1
    obtain ⟨q, hq⟩ := ladderStep_zero crv hP r1
    obtain ⟨q2, hq2⟩ := ih q
    exact ⟨q2, by simp [Curve.ladderByte, hq, hq2]⟩

theorem ladder_zero (crv : Curve) (hP : 1 < crv.P) : ∀ (n : Nat) (r1 : point),
    ∃ q, crv.ladder (List.replicate n 0) (projectiveFromAffine 0 1) r1 =
      some (projectiveFromAffine 0 1, q) := by
  intro n
  induction n with
  | zero => intro r1; exact ⟨r1, rfl⟩
  | succ n ih =>
    intro r1
    obtain ⟨q, hq⟩ := ladderByte_zero crv hP 8 r1
    obtain ⟨q2, hq2⟩ := ih q
    exact ⟨q2, by simp [List.replicate, Curve.ladder, hq, hq2]⟩

theorem ladderByte_one (crv : Curve) (hP : 1 < crv.P) (x y : Int)
    (hx : 0 ≤ x ∧ x < crv.P) (hy : 0 ≤ y ∧ y < crv.P) :
    ∃ q, crv.ladderByte 8 1 (projectiveFromAffine 0 1) (projectiveFromAffine x y) =
      some (projectiveFromAffine x y, q) := by
  obtain ⟨q, hq⟩ := projectiveAdd_some crv (by omega) (projectiveFromAffine x y)
    (projectiveFromAffine x y)
  have hl := projectiveAdd_neutral_left crv hP x y hx hy
  have hn := projectiveAdd_neutral crv hP
  have b1 : (1 : Nat) &&& 128 ≠ 128 := by decide
  have b2 : (2 : Nat) &&& 128 ≠ 128 := by decide
  have b4 : (4 : Nat) &&& 128 ≠ 128 := by decide
  have b8 : (8 : Nat) &&& 128 ≠ 128 := by decide
  have b16 : (16 : Nat) &&& 128 ≠ 128 := by decide
  have b32 : (32 : Nat) &&& 128 ≠ 128 := by decide
  have b64 : (64 : Nat) &&& 128 ≠ 128 := by decide
  have b128 : (128 : Nat) &&& 128 = 128 := by decide
  refine ⟨q, ?_⟩
  simp [Curve.ladderByte, Curve.ladderStep, hq, hl, hn, b1, b2, b4, b8, b16, b32, b64, b128]

/-- `IsOnCurve` decides divisibility of the curve polynomial by `P`. -/
theorem isOnCurve_eq_decide (crv : Curve) (x y : Int) (hP : 0 < crv.P) :
    crv.IsOnCurve x y =
      some (decide (crv.P ∣ crv.A * x ^ 2 + y ^ 2 - 1 - crv.D * x ^ 2 * y ^ 2)) := by
  have h0 : crv.P ≠ 0 := by omega
  have e : crv.A * x ^ 2 + y ^ 2 - 1 - crv.D * x ^ 2 * y ^ 2 =
      crv.A * (x * x) + y * y - (crv.D * (x * x) * (y * y) + 1) := by ring
  simp only [Curve.IsOnCurve, if_neg h0, Option.some.injEq, decide_eq_decide]
  rw [e]
  constructor
  · intro h
    exact Int.modEq_iff_dvd.mp (Eq.symm h)
  · intro h
    exact Eq.symm (Int.modEq_iff_dvd.mpr h)

/-! ## The code over the integers modulo a prime -/

theorem cast_emod (n : Nat) (P : Int) (hP : P = n) (v : Int) :
    ((v % P : Int) : ZMod n) = v := by
  subst hP
  exact ZMod.intCast_mod v n

/-- The coordinates computed by `projectiveAdd`, read modulo `P`. -/
theorem projectiveAdd_cast (crv : Curve) (n : Nat) (hn : n ≠ 0) (hP : crv.P = n)
    (l r : point) :
    ∃ q, crv.projectiveAdd l r = some q ∧
      (q.X : ZMod n) = ((l.X + l.Y) * (r.X + r.Y) - l.X * r.X - l.Y * r.Y) *
        ((l.Z * r.Z) ^ 2 - crv.D * l.X * r.X * l.Y * r.Y) * (l.Z * r.Z) ∧
      (q.Y : ZMod n) = (l.Y * r.Y - crv.A * l.X * r.X) *
        ((l.Z * r.Z) ^ 2 + crv.D * l.X * r.X * l.Y * r.Y) * (l.Z * r.Z) ∧
      (q.Z : ZMod n) = ((l.Z * r.Z) ^ 2 - crv.D * l.X * r.X * l.Y * r.Y) *
        ((l.Z * r.Z) ^ 2 + crv.D * l.X * r.X * l.Y * r.Y) := by
  have h0 : crv.P ≠ 0 := by
    rw [hP]
    exact_mod_cast hn
  refine ⟨_, by rw [Curve.projectiveAdd, if_neg h0], ?_, ?_, ?_⟩
  · simp only [cast_emod n crv.P hP, Int.cast_mul, Int.cast_sub, Int.cast_add]
    ring
  · simp only [cast_emod n crv.P hP, Int.cast_mul, Int.cast_sub, Int.cast_add]
    ring
  · simp only [cast_emod n crv.P hP, Int.cast_mul, Int.cast_sub, Int.cast_add]
    ring

/-- A call of `projectiveAdd` on representatives of `p1` and `p2` whose
denominators in the addition law do not vanish returns a representative of
the sum. -/
theorem projectiveAdd_rep (crv : Curve) (n : Nat) [Fact n.Prime] (hP : crv.P = n)
    (l r : point) (p1 p2 : ZMod n × ZMod n) (hl : Rep n l p1) (hr : Rep n r p2)
    (hp : 1 + (crv.D : ZMod n) * p1.1 * p2.1 * p1.2 * p2.2 ≠ 0)
    (hm : 1 - (crv.D : ZMod n) * p1.1 * p2.1 * p1.2 * p2.2 ≠ 0) :
    ∃ q, crv.projectiveAdd l r = some q ∧ Rep n q (eadd (crv.A : ZMod n) crv.D p1 p2) := by
  obtain ⟨q, hq, hX, hY, hZ⟩ := projectiveAdd_cast crv n (Fact.out : n.Prime).ne_zero hP l r
  obtain ⟨lz, lx, ly⟩ := hl
  obtain ⟨rz, rx, ry⟩ := hr
  have e1 := eadd_fst_mul (crv.A : ZMod n) crv.D p1 p2 hp
  have e2 := eadd_snd_mul (crv.A : ZMod n) crv.D p1 p2 hm
  have hZ2 : (q.Z : ZMod n) = (l.Z : ZMod n) ^ 4 * (r.Z : ZMod n) ^ 4 *
      ((1 - (crv.D : ZMod n) * p1.1 * p2.1 * p1.2 * p2.2) *
        (1 + (crv.D : ZMod n) * p1.1 * p2.1 * p1.2 * p2.2)) := by
    rw [hZ, lx, ly, rx, ry]
    ring
  refine ⟨q, hq, ?_, ?_, ?_⟩
  · rw [hZ2]
    exact mul_ne_zero (mul_ne_zero (pow_ne_zero 4 lz) (pow_ne_zero 4 rz)) (mul_ne_zero hm hp)
  · rw [hZ2, hX, lx, ly, rx, ry]
    linear_combination (-(1 - (crv.D : ZMod n) * p1.1 * p2.1 * p1.2 * p2.2) *
      (l.Z : ZMod n) ^ 4 * (r.Z : ZMod n) ^ 4) * e1
  · rw [hZ2, hY, lx, ly, rx, ry]
    linear_combination (-(1 + (crv.D : ZMod n) * p1.1 * p2.1 * p1.2 * p2.2) *
      (l.Z : ZMod n) ^ 4 * (r.Z : ZMod n) ^ 4) * e2

theorem gcd_eq_one_of_cast_ne_zero (n : Nat) [Fact n.Prime] (z : Int)
    (hz : (z : ZMod n) ≠ 0) : Int.gcd z n = 1 := by
  have hnd : ¬ n ∣ z.natAbs := by
    intro hd
    exact hz ((ZMod.intCast_zmod_eq_zero_iff_dvd z n).mpr (Int.natCast_dvd.mpr hd))
  rw [Int.gcd_def, Int.natAbs_ofNat, Nat.gcd_comm]
  exact ((Fact.out : n.Prime).coprime_iff_not_dvd).mpr hnd

theorem emod_eq_val (n : Nat) [Fact n.Prime] (P : Int) (hP : P = n) (v : Int) (q : ZMod n)
    (h : (v : ZMod n) = q) : v % P = (q.val : Int) := by
  subst hP
  rw [← h, ZMod.val_intCast]

/-- The affine conversion of a representative of `q` returns the
coordinates of `q` as integers in `[0, P)`. -/
theorem affineFromProjective_rep (crv : Curve) (n : Nat) [Fact n.Prime] (hP : crv.P = n)
    (pt : point) (q : ZMod n × ZMod n) (h : Rep n pt q) :
    crv.affineFromProjective pt = some ((q.1.val : Int), (q.2.val : Int)) := by
  obtain ⟨hz, hx, hy⟩ := h
  have hZ : pt.Z ≠ 0 := by
    intro h0
    apply hz
    rw [h0]
    exact Int.cast_zero
  have hP0 : crv.P ≠ 0 := by
    rw [hP]
    exact_mod_cast (Fact.out : n.Prime).ne_zero
  have hg : Int.gcd pt.Z crv.P = 1 := by
    rw [hP]
    exact gcd_eq_one_of_cast_ne_zero n pt.Z hz
  obtain ⟨z, hz1, _, _, hz2⟩ := (modInverse_spec pt.Z crv.P).2 hP0 hg
  have hzc : (z : ZMod n) * (pt.Z : ZMod n) = 1 := by
    rw [hP] at hz2
    have := (ZMod.intCast_eq_intCast_iff _ _ n).mpr hz2
    push_cast at this
    exact this
  have ex : (pt.X * z) % crv.P = (q.1.val : Int) := by
    apply emod_eq_val n crv.P hP
    push_cast
    rw [hx]
    linear_combination q.1 * hzc
  have ey : (pt.Y * z) % crv.P = (q.2.val : Int) := by
    apply emod_eq_val n crv.P hP
    push_cast
    rw [hy]
    linear_combination q.2 * hzc
  simp only [Curve.affineFromProjective, if_neg hZ, hz1, ex, ey]

theorem rep_affine (n : Nat) [Fact n.Prime] (x y : Int) :
    Rep n (projectiveFromAffine x y) ((x : ZMod n), (y : ZMod n)) := by
  refine ⟨?_, ?_, ?_⟩
  · simp [projectiveFromAffine]
  · simp [projectiveFromAffine]
  · simp [projectiveFromAffine]

theorem rep_of_val (n : Nat) [Fact n.Prime] (q : ZMod n × ZMod n) :
    Rep n (projectiveFromAffine (q.1.val : Int) (q.2.val : Int)) q := by
  have h := rep_affine n (q.1.val : Int) (q.2.val : Int)
  simp only [Int.cast_natCast, ZMod.natCast_zmod_val] at h
  exact h

/-- `Add` on integers whose residues are `p1` and `p2` returns the sum under
the addition law, as integers in `[0, P)`. -/
theorem Add_eq_val (crv : Curve) (n : Nat) [Fact n.Prime] (hP : crv.P = n)
    (x1 y1 x2 y2 : Int)
    (hp : 1 + (crv.D : ZMod n) * x1 * x2 * y1 * y2 ≠ 0)
    (hm : 1 - (crv.D : ZMod n) * x1 * x2 * y1 * y2 ≠ 0) :
    crv.Add x1 y1 x2 y2 =
      some (((eadd (crv.A : ZMod n) crv.D (x1, y1) (x2, y2)).1.val : Int),
        ((eadd (crv.A : ZMod n) crv.D (x1, y1) (x2, y2)).2.val : Int)) := by
  obtain ⟨q, hq, hrep⟩ := projectiveAdd_rep crv n hP _ _ ((x1 : ZMod n), (y1 : ZMod n))
    ((x2 : ZMod n), (y2 : ZMod n)) (rep_affine n x1 y1) (rep_affine n x2 y2) hp hm
  simp only [Curve.Add, hq, Option.bind]
  exact affineFromProjective_rep crv n hP q _ hrep

theorem IsOnCurve_iff_onCurve (crv : Curve) (n : Nat) [Fact n.Prime] (hP : crv.P = n)
    (x y : Int) :
    crv.IsOnCurve x y = some true ↔
      onCurve (crv.A : ZMod n) (crv.D : ZMod n) ((x : ZMod n), (y : ZMod n)) := by
  have hpos : 0 < crv.P := by
    rw [hP]
    exact_mod_cast (Fact.out : n.Prime).pos
  rw [isOnCurve_eq_decide crv x y hpos, hP]
  simp only [Option.some.injEq, decide_eq_true_eq, onCurve]
  rw [← ZMod.intCast_zmod_eq_zero_iff_dvd]
  push_cast
  constructor
  · intro h
    linear_combination h
  · intro h
    linear_combination h

theorem IsOnCurve_val (crv : Curve) (n : Nat) [Fact n.Prime] (hP : crv.P = n)
    (q : ZMod n × ZMod n) (h : onCurve (crv.A : ZMod n) (crv.D : ZMod n) q) :
    crv.IsOnCurve (q.1.val : Int) (q.2.val : Int) = some true := by
  rw [IsOnCurve_iff_onCurve crv n hP]
  simp only [Int.cast_natCast, ZMod.natCast_zmod_val]
  exact h

theorem two_ne_zero_of_odd_prime (n : Nat) [Fact n.Prime] (hn : n ≠ 2) : (2 : ZMod n) ≠ 0 := by
  intro h
  have h1 : ((2 : Nat) : ZMod n) = 0 := by exact_mod_cast h
  have h3 : n ∣ 2 := (ZMod.natCast_zmod_eq_zero_iff_dvd 2 n).mp h1
  exact hn ((Nat.prime_dvd_prime_iff_eq Fact.out Nat.prime_two).mp h3)

/-! ## The ladder as double-and-add -/

theorem byte_top_bit : ∀ b < 256,
    (b &&& 0x80 = 0x80 → b / 128 = 1) ∧ (¬ b &&& 0x80 = 0x80 → b / 128 = 0) := by
  decide!

theorem byte_bits_split : ∀ cnt < 8, ∀ b < 256,
    (b / 128) * 2 ^ cnt + ((b <<< 1) % 256) / 2 ^ (8 - cnt) = b / 2 ^ (8 - (cnt + 1)) := by
  decide!

/-- One bit of the ladder: from representatives of `m·B` and `(m+1)·B` to
representatives of `(2m+bit)·B` and `(2m+bit+1)·B`. -/
theorem ladderStep_rep (crv : Curve) (n : Nat) [Fact n.Prime] (hP : crv.P = n)
    (h2 : (2 : ZMod n) ≠ 0) (hA : IsSquare (crv.A : ZMod n)) (hD : ¬ IsSquare (crv.D : ZMod n))
    (B : ZMod n × ZMod n) (hB : onCurve (crv.A : ZMod n) (crv.D : ZMod n) B)
    (b : Nat) (hb : b < 256) (m : Nat) (r0 r1 : point)
    (h0 : Rep n r0 (emul (crv.A : ZMod n) crv.D B m))
    (h1 : Rep n r1 (emul (crv.A : ZMod n) crv.D B (m + 1))) :
    ∃ s, crv.ladderStep b r0 r1 = some s ∧
      Rep n s.1 (emul (crv.A : ZMod n) crv.D B (2 * m + b / 128)) ∧
      Rep n s.2 (emul (crv.A : ZMod n) crv.D B (2 * m + b / 128 + 1)) := by
  have c0 := onCurve_emul h2 hA hD hB m
  have c1 := onCurve_emul h2 hA hD hB (m + 1)
  obtain ⟨d01p, d01m⟩ := denominators_ne_zero h2 hA hD c0 c1
  obtain ⟨d00p, d00m⟩ := denominators_ne_zero h2 hA hD c0 c0
  obtain ⟨d11p, d11m⟩ := denominators_ne_zero h2 hA hD c1 c1
  obtain ⟨q01, e01, rep01⟩ := projectiveAdd_rep crv n hP r0 r1 _ _ h0 h1 d01p d01m
  obtain ⟨q00, e00, rep00⟩ := projectiveAdd_rep crv n hP r0 r0 _ _ h0 h0 d00p d00m
  obtain ⟨q11, e11, rep11⟩ := projectiveAdd_rep crv n hP r1 r1 _ _ h1 h1 d11p d11m
  rw [← emul_add h2 hA hD hB] at rep01 rep00 rep11
  by_cases hbit : b &&& 0x80 = 0x80
  · have hv := (byte_top_bit b hb).1 hbit
    refine ⟨(q01, q11), by simp [Curve.ladderStep, hbit, e01, e11], ?_, ?_⟩
    · have e : 2 * m + b / 128 = m + (m + 1) := by omega
      rw [e]
      exact rep01
    · have e : 2 * m + b / 128 + 1 = m + 1 + (m + 1) := by omega
      rw [e]
      exact rep11
  · have hv := (byte_top_bit b hb).2 hbit
    refine ⟨(q00, q01), by simp [Curve.ladderStep, hbit, e01, e00], ?_, ?_⟩
    · have e : 2 * m + b / 128 = m + m := by omega
      rw [e]
      exact rep00
    · have e : 2 * m + b / 128 + 1 = m + (m + 1) := by omega
      rw [e]
      exact rep01

/-- The inner loop: `cnt` bits of the byte `b` shift into the multiplier. -/
theorem ladderByte_rep (crv : Curve) (n : Nat) [Fact n.Prime] (hP : crv.P = n)
    (h2 : (2 : ZMod n) ≠ 0) (hA : IsSquare (crv.A : ZMod n)) (hD : ¬ IsSquare (crv.D : ZMod n))
    (B : ZMod n × ZMod n) (hB : onCurve (crv.A : ZMod n) (crv.D : ZMod n) B) :
    ∀ (cnt : Nat), cnt ≤ 8 → ∀ (b : Nat), b < 256 → ∀ (m : Nat) (r0 r1 : point),
      Rep n r0 (emul (crv.A : ZMod n) crv.D B m) →
      Rep n r1 (emul (crv.A : ZMod n) crv.D B (m + 1)) →
      ∃ s, crv.ladderByte cnt b r0 r1 = some s ∧
        Rep n s.1 (emul (crv.A : ZMod n) crv.D B (m * 2 ^ cnt + b / 2 ^ (8 - cnt))) ∧
        Rep n s.2 (emul (crv.A : ZMod n) crv.D B (m * 2 ^ cnt + b / 2 ^ (8 - cnt) + 1)) := by
  intro cnt
  induction cnt with
  | zero =>
    intro _ b hb m r0 r1 h0 h1
    have e : m * 2 ^ 0 + b / 2 ^ (8 - 0) = m := by
      have : b / 256 = 0 := Nat.div_eq_of_lt hb
      simp [this]
    refine ⟨(r0, r1), rfl, ?_, ?_⟩
    · rw [e]
      exact h0
    · rw [e]
      exact h1
  | succ cnt ih =>
    intro hc b hb m r0 r1 h0 h1
    obtain ⟨s, hs, s0, s1⟩ := ladderStep_rep crv n hP h2 hA hD B hB b hb m r0 r1 h0 h1
    have hb2 : (b <<< 1) % 256 < 256 := Nat.mod_lt _ (by decide)
    obtain ⟨t, ht, t0, t1⟩ := ih (by omega) ((b <<< 1) % 256) hb2 (2 * m + b / 128) s.1 s.2 s0 s1
    have e : (2 * m + b / 128) * 2 ^ cnt + (b <<< 1) % 256 / 2 ^ (8 - cnt) =
        m * 2 ^ (cnt + 1) + b / 2 ^ (8 - (cnt + 1)) := by
      have := byte_bits_split cnt (by omega) b hb
      rw [← this, pow_succ]
      ring
    rw [e] at t0 t1
    exact ⟨t, by simp [Curve.ladderByte, hs, ht], t0, t1⟩

/-- The outer loop: the bytes of `k` shift into the multiplier. -/
theorem ladder_rep (crv : Curve) (n : Nat) [Fact n.Prime] (hP : crv.P = n)
    (h2 : (2 : ZMod n) ≠ 0) (hA : IsSquare (crv.A : ZMod n)) (hD : ¬ IsSquare (crv.D : ZMod n))
    (B : ZMod n × ZMod n) (hB : onCurve (crv.A : ZMod n) (crv.D : ZMod n) B) :
    ∀ (k : List Nat), (∀ b ∈ k, b < 256) → ∀ (m : Nat) (r0 r1 : point),
      Rep n r0 (emul (crv.A : ZMod n) crv.D B m) →
      Rep n r1 (emul (crv.A : ZMod n) crv.D B (m + 1)) →
      ∃ s, crv.ladder k r0 r1 = some s ∧
        Rep n s.1 (emul (crv.A : ZMod n) crv.D B (k.foldl (fun acc b => acc * 256 + b) m)) := by
  intro k
  induction k with
  | nil =>
    intro _ m r0 r1 h0 _
    exact ⟨(r0, r1), rfl, h0⟩
  | cons b k ih =>
    intro hk m r0 r1 h0 h1
    have hb : b < 256 := hk b (List.mem_cons_self b k)
    obtain ⟨s, hs, s0, s1⟩ :=
      ladderByte_rep crv n hP h2 hA hD B hB 8 (le_refl 8) b hb m r0 r1 h0 h1
    have e : m * 2 ^ 8 + b / 2 ^ (8 - 8) = m * 256 + b := by simp
    rw [e] at s0 s1
    obtain ⟨t, ht, t0⟩ := ih (fun c hc => hk c (List.mem_cons_of_mem b hc)) (m * 256 + b)
      s.1 s.2 s0 s1
    exact ⟨t, by simp [Curve.ladder, hs, ht], t0⟩

/-- The `n`-fold sum under `Curve.Add` is the multiple `n·B` of the addition
law, as integers in `[0, P)`. -/
theorem nfold_eq_val (crv : Curve) (n : Nat) [Fact n.Prime] (hP : crv.P = n)
    (h2 : (2 : ZMod n) ≠ 0) (hA : IsSquare (crv.A : ZMod n)) (hD : ¬ IsSquare (crv.D : ZMod n))
    (Bx By : Int) (hB : onCurve (crv.A : ZMod n) (crv.D : ZMod n) ((Bx : ZMod n), (By : ZMod n)))
    (m : Nat) :
    crv.nfold Bx By m =
      some (((emul (crv.A : ZMod n) crv.D ((Bx : ZMod n), (By : ZMod n)) m).1.val : Int),
        ((emul (crv.A : ZMod n) crv.D ((Bx : ZMod n), (By : ZMod n)) m).2.val : Int)) := by
  haveI : Fact (1 < n) := ⟨(Fact.out : n.Prime).one_lt⟩
  induction m with
  | zero => simp [Curve.nfold, emul, ZMod.val_one]
  | succ m ih =>
    have c0 := onCurve_emul h2 hA hD hB m
    obtain ⟨dp, dm⟩ := denominators_ne_zero h2 hA hD c0 hB
    obtain ⟨q, hq, hrep⟩ := projectiveAdd_rep crv n hP _ _ _ _
      (rep_of_val n (emul (crv.A : ZMod n) crv.D ((Bx : ZMod n), (By : ZMod n)) m))
      (rep_affine n Bx By) dp dm
    have ha := affineFromProjective_rep crv n hP q _ hrep
    simp only [Curve.nfold, ih, Option.bind, Curve.Add, hq]
    exact ha

/-- `ScalarMult` returns the multiple `k·B` of the addition law, as integers
in `[0, P)`. -/
theorem ScalarMult_eq_val (crv : Curve) (n : Nat) [Fact n.Prime] (hP : crv.P = n)
    (h2 : (2 : ZMod n) ≠ 0) (hA : IsSquare (crv.A : ZMod n)) (hD : ¬ IsSquare (crv.D : ZMod n))
    (Bx By : Int) (hB : onCurve (crv.A : ZMod n) (crv.D : ZMod n) ((Bx : ZMod n), (By : ZMod n)))
    (k : List Nat) (hk : ∀ b ∈ k, b < 256) :
    crv.ScalarMult Bx By k =
      some (((emul (crv.A : ZMod n) crv.D ((Bx : ZMod n), (By : ZMod n)) (beValue k)).1.val : Int),
        ((emul (crv.A : ZMod n) crv.D ((Bx : ZMod n), (By : ZMod n)) (beValue k)).2.val : Int)) := by
  have r0 : Rep n (projectiveFromAffine 0 1)
      (emul (crv.A : ZMod n) crv.D ((Bx : ZMod n), (By : ZMod n)) 0) := by
    have := rep_affine n 0 1
    simpa [emul] using this
  have r1 : Rep n (projectiveFromAffine Bx By)
      (emul (crv.A : ZMod n) crv.D ((Bx : ZMod n), (By : ZMod n)) (0 + 1)) := by
    have := rep_affine n Bx By
    simpa [emul, eadd_neutral_left] using this
  obtain ⟨s, hs, hrep⟩ := ladder_rep crv n hP h2 hA hD _ hB k hk 0 _ _ r0 r1
  have ha := affineFromProjective_rep crv n hP s.1 _ hrep
  simp only [Curve.ScalarMult, hs, Option.bind]
  exact ha

/-! ## Scalar multiplication and the addition formula -/

/-- C1: on a curve bundle whose `P` is an odd prime, whose `A` is a square and
whose `D` is a non-square modulo `P`, for every point that passes
`IsOnCurve` and every byte sequence `k`, `ScalarMult` returns a point, and it
is the `n`-fold sum of the point under `Add` from `(0, 1)`, where `n` is `k`
read as a big-endian number. -/
theorem ScalarMult_eq_nfold (crv : Curve) (p : Nat) (hp : p.Prime) (hp2 : p ≠ 2)
    (hP : crv.P = p) (hA : IsSquare (crv.A : ZMod p)) (hD : ¬ IsSquare (crv.D : ZMod p))
    (Bx By : Int) (hB : crv.IsOnCurve Bx By = some true)
    (k : List Nat) (hk : ∀ b ∈ k, b < 256) :
    ∃ x y, crv.ScalarMult Bx By k = some (x, y) ∧
      crv.nfold Bx By (beValue k) = some (x, y) := by
  haveI : Fact p.Prime := ⟨hp⟩
  have h2 := two_ne_zero_of_odd_prime p hp2
  have hB2 := (IsOnCurve_iff_onCurve crv p hP Bx By).mp hB
  exact ⟨_, _, ScalarMult_eq_val crv p hP h2 hA hD Bx By hB2 k hk,
    nfold_eq_val crv p hP h2 hA hD Bx By hB2 (beValue k)⟩

/-- C1, on the toy curve for the point `(4, 9)` and the scalar `[0x02, 0x01]`. -/
theorem ScalarMult_eq_nfold_witness :
    toyCurve.IsOnCurve 4 9 = some true ∧ (∀ b ∈ [2, 1], b < 256) ∧
    ∃ x y, toyCurve.ScalarMult 4 9 [2, 1] = some (x, y) ∧
      toyCurve.nfold 4 9 (beValue [2, 1]) = some (x, y) :=
  ⟨by decide, by decide,
    ScalarMult_eq_nfold toyCurve 13 (by norm_num) (by decide) rfl ⟨1, by decide⟩ (by decide)
      4 9 (by decide) [2, 1] (by decide)⟩

/-- C2: for a prime modulus and a pair of points at which neither
denominator `1 + t`, `1 - t` of the addition law vanishes modulo `P`
(`t = D*x1*x2*y1*y2`), `Add` returns
`((x1*y2 + y1*x2) * (1+t)^-1 mod P, (y1*y2 - A*x1*x2) * (1-t)^-1 mod P)`, the
inverses being integers `i`, `j` with `(1+t)*i` and `(1-t)*j` congruent to one;
the second point may be the first (doubling). -/
theorem Add_formula (crv : Curve) (p : Nat) (hp : p.Prime) (hP : crv.P = p)
    (x1 y1 x2 y2 : Int)
    (ht : ¬ crv.P ∣ (1 + crv.D * x1 * x2 * y1 * y2) * (1 - crv.D * x1 * x2 * y1 * y2)) :
    ∃ i j : Int, ((1 + crv.D * x1 * x2 * y1 * y2) * i) % crv.P = 1 ∧
      ((1 - crv.D * x1 * x2 * y1 * y2) * j) % crv.P = 1 ∧
      crv.Add x1 y1 x2 y2 =
        some (((x1 * y2 + y1 * x2) * i) % crv.P, ((y1 * y2 - crv.A * x1 * x2) * j) % crv.P) := by
  haveI : Fact p.Prime := ⟨hp⟩
  haveI : Fact (1 < p) := ⟨hp.one_lt⟩
  have hne : (1 + (crv.D : ZMod p) * x1 * x2 * y1 * y2) *
      (1 - (crv.D : ZMod p) * x1 * x2 * y1 * y2) ≠ 0 := by
    intro h
    apply ht
    rw [hP, ← ZMod.intCast_zmod_eq_zero_iff_dvd]
    push_cast
    exact h
  have dp := left_ne_zero_of_mul hne
  have dm := right_ne_zero_of_mul hne
  have hadd := Add_eq_val crv p hP x1 y1 x2 y2 dp dm
  have one_val : (((1 : ZMod p).val : Nat) : Int) = 1 := by
    rw [ZMod.val_one]
    rfl
  refine ⟨(((1 + (crv.D : ZMod p) * x1 * x2 * y1 * y2)⁻¹).val : Int),
    (((1 - (crv.D : ZMod p) * x1 * x2 * y1 * y2)⁻¹).val : Int), ?_, ?_, ?_⟩
  · rw [emod_eq_val p crv.P hP _ 1 ?_, one_val]
    push_cast
    rw [ZMod.natCast_zmod_val]
    exact mul_inv_cancel₀ dp
  · rw [emod_eq_val p crv.P hP _ 1 ?_, one_val]
    push_cast
    rw [ZMod.natCast_zmod_val]
    exact mul_inv_cancel₀ dm
  · rw [hadd]
    congr 2
    · symm
      apply emod_eq_val p crv.P hP
      push_cast
      rw [ZMod.natCast_zmod_val]
      simp only [eadd]
      rw [div_eq_mul_inv]
    · symm
      apply emod_eq_val p crv.P hP
      push_cast
      rw [ZMod.natCast_zmod_val]
      simp only [eadd]
      rw [div_eq_mul_inv]

/-- C2, on the toy curve for the points `(4, 9)` and `(4, 4)`. -/
theorem Add_formula_witness :
    (¬ toyCurve.P ∣ (1 + toyCurve.D * 4 * 4 * 9 * 4) * (1 - toyCurve.D * 4 * 4 * 9 * 4)) ∧
    ∃ i j : Int, ((1 + toyCurve.D * 4 * 4 * 9 * 4) * i) % toyCurve.P = 1 ∧
      ((1 - toyCurve.D * 4 * 4 * 9 * 4) * j) % toyCurve.P = 1 ∧
      toyCurve.Add 4 9 4 4 =
        some (((4 * 4 + 9 * 4) * i) % toyCurve.P, ((9 * 4 - toyCurve.A * 4 * 4) * j) % toyCurve.P) :=
  ⟨by decide, Add_formula toyCurve 13 (by norm_num) rfl 4 9 4 4 (by decide)⟩

/-! ## The registered curves -/

/-- C3: on each of the six registered curves `ScalarBaseMult` of the
big-endian bytes of the order `N` is the neutral element `(0, 1)`. -/
theorem base_point_order :
    E222.ScalarBaseMult (bigBytes E222.N) = some (0, 1) ∧
    E382.ScalarBaseMult (bigBytes E382.N) = some (0, 1) ∧
    Ed448Goldilocks.ScalarBaseMult (bigBytes Ed448Goldilocks.N) = some (0, 1) ∧
    E521.ScalarBaseMult (bigBytes E521.N) = some (0, 1) ∧
    Curve1174.ScalarBaseMult (bigBytes Curve1174.N) = some (0, 1) ∧
    Curve41417.ScalarBaseMult (bigBytes Curve41417.N) = some (0, 1) := by
  decide!

/-- C4: on each of the six registered curves the generator passes
`IsOnCurve`. -/
theorem generators_on_curve :
    E222.IsOnCurve E222.Gx E222.Gy = some true ∧
    E382.IsOnCurve E382.Gx E382.Gy = some true ∧
    Ed448Goldilocks.IsOnCurve Ed448Goldilocks.Gx Ed448Goldilocks.Gy = some true ∧
    E521.IsOnCurve E521.Gx E521.Gy = some true ∧
    Curve1174.IsOnCurve Curve1174.Gx Curve1174.Gy = some true ∧
    Curve41417.IsOnCurve Curve41417.Gx Curve41417.Gy = some true := by
  decide!

/-! ## Key generation -/

/-- C5 (defect in the code): with the non-negative remainder the mask on E222
would be `0x3F`, but `0xFF >> uint((8-crv.BitSize)%8)` is `0x00` there:
`(8-222)%8` is `-6` in Go, which converts to the shift count `2^64 - 6`.  A
draw of 28 bytes `0xFF` therefore yields a private key whose first byte is
`0x00`, and the mask is zero as well on E382, E521, Curve1174 and
Curve41417. -/
theorem keyMask_E222_zero :
    0xFF >>> ((8 - E222.BitSize) % 8).toNat = 0x3F ∧
    E222.keyMask = 0 ∧
    E222.maskPriv (List.replicate 28 0xFF) = some (0 :: List.replicate 27 0xFF) ∧
    (E222.GenerateKey [fun _ => (Except.ok (List.replicate 28 0xFF) : Except Unit (List Nat))] =
      some (KeyResult.key (0 :: List.replicate 27 0xFF)
        2937321135184225970649580012448014692203295042217923558729785567662
        4552941104271065846686786937778655168839623416052553984496301435358)) ∧
    E382.keyMask = 0 ∧ E521.keyMask = 0 ∧ Curve1174.keyMask = 0 ∧ Curve41417.keyMask = 0 := by
  decide!

/-- C6 (defect in the code): on the toy curve the draw `[0x02]` gives the
point `(0, 12)`, which is not the neutral element, yet `GenerateKey` discards
it and returns the next draw `[0x01]` with its point `(1, 0)`: the loop
retries whenever `x = 0` or `y = 1`. -/
theorem GenerateKey_discards_order_two :
    toyCurve.maskPriv [2] = some [2] ∧
    toyCurve.ScalarBaseMult [2] = some (0, 12) ∧
    toyCurve.GenerateKey
      [fun _ => (Except.ok [2] : Except Unit (List Nat)), fun _ => Except.ok [1]] =
      some (KeyResult.key [1] 1 0) := by
  decide!

/-! ## Closure and curve membership -/

/-- C7: on a curve bundle whose `P` is an odd prime, whose `A` is a square and
whose `D` is a non-square modulo `P`, `Add` of two points that pass
`IsOnCurve` returns a point that passes `IsOnCurve`; it is not `(0, 0)`. -/
theorem Add_closed (crv : Curve) (p : Nat) (hp : p.Prime) (hp2 : p ≠ 2)
    (hP : crv.P = p) (hA : IsSquare (crv.A : ZMod p)) (hD : ¬ IsSquare (crv.D : ZMod p))
    (x1 y1 x2 y2 : Int) (h1 : crv.IsOnCurve x1 y1 = some true)
    (h2 : crv.IsOnCurve x2 y2 = some true) :
    ∃ x y, crv.Add x1 y1 x2 y2 = some (x, y) ∧ crv.IsOnCurve x y = some true ∧
      (x, y) ≠ (0, 0) := by
  haveI : Fact p.Prime := ⟨hp⟩
  have h20 := two_ne_zero_of_odd_prime p hp2
  have c1 := (IsOnCurve_iff_onCurve crv p hP x1 y1).mp h1
  have c2 := (IsOnCurve_iff_onCurve crv p hP x2 y2).mp h2
  obtain ⟨dp, dm⟩ := denominators_ne_zero h20 hA hD c1 c2
  have hadd := Add_eq_val crv p hP x1 y1 x2 y2 dp dm
  have hon := IsOnCurve_val crv p hP _ (onCurve_eadd h20 hA hD c1 c2)
  refine ⟨_, _, hadd, hon, ?_⟩
  intro h00
  obtain ⟨hx0, hy0⟩ := Prod.mk.inj h00
  rw [hx0, hy0] at hon
  have := (IsOnCurve_iff_onCurve crv p hP 0 0).mp hon
  simp [onCurve] at this

/-- C7, on the toy curve for the points `(4, 9)` and `(1, 0)`. -/
theorem Add_closed_witness :
    toyCurve.IsOnCurve 4 9 = some true ∧ toyCurve.IsOnCurve 1 0 = some true ∧
    ∃ x y, toyCurve.Add 4 9 1 0 = some (x, y) ∧ toyCurve.IsOnCurve x y = some true ∧
      (x, y) ≠ (0, 0) :=
  ⟨by decide, by decide,
    Add_closed toyCurve 13 (by norm_num) (by decide) rfl ⟨1, by decide⟩ (by decide)
      4 9 1 0 (by decide) (by decide)⟩

/-- C8: for a positive modulus and arbitrary integers `x`, `y` (and arbitrary
coefficients), `IsOnCurve` returns a Boolean, and it is `true` exactly when
`P` divides `A*x^2 + y^2 - 1 - D*x^2*y^2`. -/
theorem IsOnCurve_iff_dvd (crv : Curve) (x y : Int) (hP : 0 < crv.P) :
    crv.IsOnCurve x y =
      some (decide (crv.P ∣ crv.A * x ^ 2 + y ^ 2 - 1 - crv.D * x ^ 2 * y ^ 2)) :=
  isOnCurve_eq_decide crv x y hP

/-- C8, on the toy curve at the point `(4, 9)`. -/
theorem IsOnCurve_iff_dvd_witness :
    0 < toyCurve.P ∧ toyCurve.IsOnCurve 4 9 =
      some (decide (toyCurve.P ∣
        toyCurve.A * 4 ^ 2 + 9 ^ 2 - 1 - toyCurve.D * 4 ^ 2 * 9 ^ 2)) :=
  ⟨by decide, IsOnCurve_iff_dvd toyCurve 4 9 (by decide)⟩

/-! ## Scalars zero and one -/

/-- C9: with a modulus above one, `ScalarMult` of any point by a scalar made
of `n` zero bytes (`n = 0` included) is the neutral element `(0, 1)`; the
empty scalar and the scalar `[0x00]` give the same result. -/
theorem ScalarMult_zero_bytes (crv : Curve) (Bx By : Int) (n : Nat) (hP : 1 < crv.P) :
    crv.ScalarMult Bx By (List.replicate n 0) = some (0, 1) ∧
    crv.ScalarMult Bx By [] = crv.ScalarMult Bx By [0] := by
  have key : ∀ m : Nat, crv.ScalarMult Bx By (List.replicate m 0) = some (0, 1) := by
    intro m
    obtain ⟨q, hq⟩ := ladder_zero crv hP m (projectiveFromAffine Bx By)
    have h1 := affineFromProjective_affine crv hP 0 1 ⟨le_refl 0, by omega⟩ ⟨by omega, hP⟩
    simp [Curve.ScalarMult, hq, h1]
  refine ⟨key n, ?_⟩
  have h0 := key 0
  have h1 := key 1
  simp only [List.replicate] at h0 h1
  rw [h0, h1]

/-- C9, on the toy curve for three zero bytes and the point `(4, 9)`. -/
theorem ScalarMult_zero_bytes_witness :
    1 < toyCurve.P ∧
    (toyCurve.ScalarMult 4 9 (List.replicate 3 0) = some (0, 1) ∧
      toyCurve.ScalarMult 4 9 [] = toyCurve.ScalarMult 4 9 [0]) :=
  ⟨by decide, ScalarMult_zero_bytes toyCurve 4 9 3 (by decide)⟩

/-- C10: with a modulus above one, `ScalarMult` of a point with coordinates
in `[0, P)` by the scalar `[0x01]` returns the point itself, and so does the
two-byte scalar `[0x00, 0x01]` of the test; the point need not be on the
curve for this. -/
theorem ScalarMult_one (crv : Curve) (x y : Int) (hP : 1 < crv.P)
    (hx : 0 ≤ x ∧ x < crv.P) (hy : 0 ≤ y ∧ y < crv.P) :
    crv.ScalarMult x y [1] = some (x, y) ∧ crv.ScalarMult x y [0, 1] = some (x, y) := by
  obtain ⟨q, hq⟩ := ladderByte_one crv hP x y hx hy
  have ha := affineFromProjective_affine crv hP x y hx hy
  have hl := projectiveAdd_neutral_left crv hP x y hx hy
  have hn := projectiveAdd_neutral crv hP
  have hz : crv.ladderByte 8 0 (projectiveFromAffine 0 1) (projectiveFromAffine x y) =
      some (projectiveFromAffine 0 1, projectiveFromAffine x y) := by
    simp [Curve.ladderByte, Curve.ladderStep, hl, hn]
  constructor
  · simp [Curve.ScalarMult, Curve.ladder, hq, ha]
  · simp [Curve.ScalarMult, Curve.ladder, hz, hq, ha]

/-- C10, on the toy curve at the point `(4, 9)`. -/
theorem ScalarMult_one_witness :
    1 < toyCurve.P ∧ (0 ≤ (4 : Int) ∧ 4 < toyCurve.P) ∧ (0 ≤ (9 : Int) ∧ 9 < toyCurve.P) ∧
    (toyCurve.ScalarMult 4 9 [1] = some (4, 9) ∧ toyCurve.ScalarMult 4 9 [0, 1] = some (4, 9)) :=
  ⟨by decide, by decide, by decide, ScalarMult_one toyCurve 4 9 (by decide) (by decide) (by decide)⟩

/-! ## Residues are all that `projectiveAdd` reads -/

theorem cast_emod_natAbs (P v : Int) : ((v % P : Int) : ZMod P.natAbs) = v := by
  have h : ((v % (P.natAbs : Int) : Int) : ZMod P.natAbs) = v := ZMod.intCast_mod v P.natAbs
  rwa [Int.natCast_natAbs, Int.emod_abs] at h

theorem emod_eq_of_cast_eq (P a b : Int)
    (h : (a : ZMod P.natAbs) = (b : ZMod P.natAbs)) : a % P = b % P := by
  have h2 := (ZMod.intCast_eq_intCast_iff' a b P.natAbs).mp h
  rwa [Int.natCast_natAbs, Int.emod_abs, Int.emod_abs] at h2

/-- `projectiveAdd` is symmetric in its two arguments. -/
theorem projectiveAdd_comm (crv : Curve) (l r : point) :
    crv.projectiveAdd l r = crv.projectiveAdd r l := by
  simp only [Curve.projectiveAdd, mul_comm l.Z r.Z, mul_comm l.X r.X, mul_comm l.Y r.Y,
    mul_comm ((l.X + l.Y) % crv.P) ((r.X + r.Y) % crv.P)]

/-- `projectiveAdd` depends on its arguments through their residues only. -/
theorem projectiveAdd_congr (crv : Curve) (l l2 r r2 : point)
    (hl : l.X % crv.P = l2.X % crv.P ∧ l.Y % crv.P = l2.Y % crv.P ∧ l.Z % crv.P = l2.Z % crv.P)
    (hr : r.X % crv.P = r2.X % crv.P ∧ r.Y % crv.P = r2.Y % crv.P ∧ r.Z % crv.P = r2.Z % crv.P) :
    crv.projectiveAdd l r = crv.projectiveAdd l2 r2 := by
  obtain ⟨lx, ly, lz⟩ := hl
  obtain ⟨rx, ry, rz⟩ := hr
  have ha : (l.Z * r.Z) % crv.P = (l2.Z * r2.Z) % crv.P := Int.ModEq.mul lz rz
  have hc : (l.X * r.X) % crv.P = (l2.X * r2.X) % crv.P := Int.ModEq.mul lx rx
  have hd : (l.Y * r.Y) % crv.P = (l2.Y * r2.Y) % crv.P := Int.ModEq.mul ly ry
  have h1 : (l.X + l.Y) % crv.P = (l2.X + l2.Y) % crv.P := Int.ModEq.add lx ly
  have h2 : (r.X + r.Y) % crv.P = (r2.X + r2.Y) % crv.P := Int.ModEq.add rx ry
  simp only [Curve.projectiveAdd, ha, hc, hd, h1, h2]

/-- Adding the neutral element reduces the coordinates, on any non-zero
modulus. -/
theorem projectiveAdd_neutral_left_emod (crv : Curve) (hP : crv.P ≠ 0) (x y : Int) :
    crv.projectiveAdd (projectiveFromAffine 0 1) (projectiveFromAffine x y) =
      some { X := x % crv.P, Y := y % crv.P, Z := 1 % crv.P } := by
  rw [Curve.projectiveAdd, if_neg hP]
  simp only [projectiveFromAffine, Option.some.injEq, point.mk.injEq]
  refine ⟨?_, ?_, ?_⟩
  · apply emod_eq_of_cast_eq
    simp only [Int.cast_mul, Int.cast_add, Int.cast_sub, cast_emod_natAbs, Int.cast_zero,
      Int.cast_one]
    ring
  · apply emod_eq_of_cast_eq
    simp only [Int.cast_mul, Int.cast_add, Int.cast_sub, cast_emod_natAbs, Int.cast_zero,
      Int.cast_one]
    ring
  · apply emod_eq_of_cast_eq
    simp only [Int.cast_mul, Int.cast_add, Int.cast_sub, cast_emod_natAbs, Int.cast_zero,
      Int.cast_one]
    ring

theorem Add_comm_all (crv : Curve) (x1 y1 x2 y2 : Int) :
    crv.Add x1 y1 x2 y2 = crv.Add x2 y2 x1 y1 := by
  simp only [Curve.Add]
  rw [projectiveAdd_comm]

theorem Add_neutral_left (crv : Curve) (hP : 1 < crv.P) (x y : Int)
    (hx : 0 ≤ x ∧ x < crv.P) (hy : 0 ≤ y ∧ y < crv.P) :
    crv.Add 0 1 x y = some (x, y) := by
  simp only [Curve.Add, projectiveAdd_neutral_left crv hP x y hx hy, Option.bind]
  exact affineFromProjective_affine crv hP x y hx hy

/-- The ladder on the scalar `[0x02]`, on any non-zero modulus: the result
accumulator is the projective double of the base point. -/
theorem ladder_two (crv : Curve) (hP : crv.P ≠ 0) (x y : Int) :
    ∃ q1 q2, crv.projectiveAdd (projectiveFromAffine x y) (projectiveFromAffine x y) = some q1 ∧
      crv.ladder [2] (projectiveFromAffine 0 1) (projectiveFromAffine x y) = some (q1, q2) := by
  have e1 : (1 % crv.P) % crv.P = (1 : Int) % crv.P := Int.emod_emod_of_dvd 1 (dvd_refl _)
  have e0 : (0 : Int) % crv.P = (0 : Int) % crv.P := rfl
  have ex : (x % crv.P) % crv.P = x % crv.P := Int.emod_emod_of_dvd x (dvd_refl _)
  have ey : (y % crv.P) % crv.P = y % crv.P := Int.emod_emod_of_dvd y (dvd_refl _)
  have hOO := projectiveAdd_neutral_left_emod crv hP 0 1
  rw [Int.zero_emod] at hOO
  have hOB := projectiveAdd_neutral_left_emod crv hP x y
  have hOO2 : crv.projectiveAdd { X := 0, Y := 1 % crv.P, Z := 1 % crv.P }
      { X := 0, Y := 1 % crv.P, Z := 1 % crv.P } =
      some { X := 0, Y := 1 % crv.P, Z := 1 % crv.P } := by
    rw [← hOO]
    exact projectiveAdd_congr crv _ _ _ _ ⟨e0, e1, e1⟩ ⟨e0, e1, e1⟩
  have hOB2 : crv.projectiveAdd { X := 0, Y := 1 % crv.P, Z := 1 % crv.P }
      { X := x % crv.P, Y := y % crv.P, Z := 1 % crv.P } =
      some { X := x % crv.P, Y := y % crv.P, Z := 1 % crv.P } := by
    rw [← hOB]
    exact projectiveAdd_congr crv _ _ _ _ ⟨e0, e1, e1⟩ ⟨ex, ey, e1⟩
  obtain ⟨q1, hq1⟩ := projectiveAdd_some crv hP (projectiveFromAffine x y)
    (projectiveFromAffine x y)
  have hBB2 : crv.projectiveAdd { X := x % crv.P, Y := y % crv.P, Z := 1 % crv.P }
      { X := x % crv.P, Y := y % crv.P, Z := 1 % crv.P } = some q1 := by
    rw [← hq1]
    exact projectiveAdd_congr crv _ _ _ _ ⟨ex, ey, e1⟩ ⟨ex, ey, e1⟩
  obtain ⟨q2, hq2⟩ := projectiveAdd_some crv hP
    { X := x % crv.P, Y := y % crv.P, Z := 1 % crv.P } q1
  have b2 : (2 : Nat) &&& 128 ≠ 128 := by decide
  have b4 : (4 : Nat) &&& 128 ≠ 128 := by decide
  have b8 : (8 : Nat) &&& 128 ≠ 128 := by decide
  have b16 : (16 : Nat) &&& 128 ≠ 128 := by decide
  have b32 : (32 : Nat) &&& 128 ≠ 128 := by decide
  have b64 : (64 : Nat) &&& 128 ≠ 128 := by decide
  have b128 : (128 : Nat) &&& 128 = 128 := by decide
  have b0 : (0 : Nat) &&& 128 ≠ 128 := by decide
  refine ⟨q1, q2, hq1, ?_⟩
  simp [Curve.ladder, Curve.ladderByte, Curve.ladderStep, hOO, hOB, hOO2, hOB2, hBB2, hq2,
    b2, b4, b8, b16, b32, b64, b128, b0]

theorem ScalarMult_two_eq_Add (crv : Curve) (x y : Int) :
    crv.ScalarMult x y [2] = crv.Add x y x y := by
  by_cases hP : crv.P = 0
  · simp [Curve.ScalarMult, Curve.Add, Curve.ladder, Curve.ladderByte, Curve.ladderStep,
      Curve.projectiveAdd, hP]
  · obtain ⟨q1, q2, h1, h2⟩ := ladder_two crv hP x y
    simp only [Curve.ScalarMult, Curve.Add, h1, h2, Option.bind]

theorem ladderStep_congr (crv : Curve) (b : Nat) (r0 r1 r2 : point)
    (h : r1.X % crv.P = r2.X % crv.P ∧ r1.Y % crv.P = r2.Y % crv.P ∧
      r1.Z % crv.P = r2.Z % crv.P) :
    crv.ladderStep b r0 r1 = crv.ladderStep b r0 r2 := by
  have h01 := projectiveAdd_congr crv r0 r0 r1 r2 ⟨rfl, rfl, rfl⟩ h
  have h11 := projectiveAdd_congr crv r1 r2 r1 r2 h h
  simp only [Curve.ladderStep, h01, h11]

/-- A zero byte in front leaves the result accumulator neutral and reduces
the base accumulator. -/
theorem ladderByte_zero_reduce (crv : Curve) (hP : 1 < crv.P) (x y : Int) :
    crv.ladderByte 8 0 (projectiveFromAffine 0 1) (projectiveFromAffine x y) =
      some (projectiveFromAffine 0 1, projectiveFromAffine (x % crv.P) (y % crv.P)) := by
  have h0 : crv.P ≠ 0 := by omega
  have hOO := projectiveAdd_neutral crv hP
  have hOB := projectiveAdd_neutral_left_emod crv h0 x y
  rw [one_emod hP] at hOB
  have hOB2 := projectiveAdd_neutral_left crv hP (x % crv.P) (y % crv.P)
    ⟨Int.emod_nonneg x h0, Int.emod_lt_of_pos x (by omega)⟩
    ⟨Int.emod_nonneg y h0, Int.emod_lt_of_pos y (by omega)⟩
  have hB : ({ X := x % crv.P, Y := y % crv.P, Z := 1 } : point) =
      projectiveFromAffine (x % crv.P) (y % crv.P) := rfl
  rw [hB] at hOB
  simp [Curve.ladderByte, Curve.ladderStep, hOO, hOB, hOB2]

theorem ladder_cons (crv : Curve) (b : Nat) (k : List Nat) (r0 r1 : point) :
    crv.ladder (b :: k) r0 r1 =
      (crv.ladderByte 8 b r0 r1).bind fun s => crv.ladder k s.1 s.2 :=
  rfl

theorem ladderByte_succ (crv : Curve) (cnt b : Nat) (r0 r1 : point) :
    crv.ladderByte (cnt + 1) b r0 r1 =
      (crv.ladderStep b r0 r1).bind fun s => crv.ladderByte cnt ((b <<< 1) % 256) s.1 s.2 :=
  rfl

theorem ScalarMult_cons_zero (crv : Curve) (hP : 1 < crv.P) (Bx By : Int) (k : List Nat) :
    crv.ScalarMult Bx By (0 :: k) = crv.ScalarMult Bx By k := by
  have hz := ladderByte_zero_reduce crv hP Bx By
  have hc : (projectiveFromAffine (Bx % crv.P) (By % crv.P)).X % crv.P =
        (projectiveFromAffine Bx By).X % crv.P ∧
      (projectiveFromAffine (Bx % crv.P) (By % crv.P)).Y % crv.P =
        (projectiveFromAffine Bx By).Y % crv.P ∧
      (projectiveFromAffine (Bx % crv.P) (By % crv.P)).Z % crv.P =
        (projectiveFromAffine Bx By).Z % crv.P :=
    ⟨Int.emod_emod_of_dvd Bx (dvd_refl _), Int.emod_emod_of_dvd By (dvd_refl _), rfl⟩
  cases k with
  | nil => simp [Curve.ScalarMult, Curve.ladder, hz]
  | cons b k =>
    have hs := ladderStep_congr crv b (projectiveFromAffine 0 1) _ _ hc
    have e1 : crv.ladder (0 :: b :: k) (projectiveFromAffine 0 1) (projectiveFromAffine Bx By) =
        crv.ladder (b :: k) (projectiveFromAffine 0 1)
          (projectiveFromAffine (Bx % crv.P) (By % crv.P)) := by
      rw [ladder_cons, hz]
      rfl
    have e2 : crv.ladder (b :: k) (projectiveFromAffine 0 1)
          (projectiveFromAffine (Bx % crv.P) (By % crv.P)) =
        crv.ladder (b :: k) (projectiveFromAffine 0 1) (projectiveFromAffine Bx By) := by
      rw [ladder_cons, ladder_cons, ladderByte_succ, ladderByte_succ, hs]
    simp only [Curve.ScalarMult, e1, e2]

/-- The opposite point: `(x, y) + (-x, y)` is the neutral element on a
complete curve. -/
theorem eadd_neg {F : Type} [Field F] {a d : F} (h2 : (2 : F) ≠ 0)
    (ha : IsSquare a) (hd : ¬ IsSquare d) (x y : F) (hp : onCurve a d (x, y)) :
    eadd a d (x, y) (-x, y) = (0, 1) := by
  have hq : onCurve a d (-x, y) := by
    simp only [onCurve] at hp ⊢
    linear_combination hp
  obtain ⟨n1, n2⟩ := denominators_ne_zero h2 ha hd hp hq
  simp only [onCurve] at hp
  simp only [eadd] at n1 n2 ⊢
  refine Prod.ext ?_ ?_
  · show (x * y + y * -x) / (1 + d * x * -x * y * y) = 0
    rw [div_eq_zero_iff]
    left
    ring
  · show (y * y - a * x * -x) / (1 - d * x * -x * y * y) = 1
    rw [div_eq_one_iff_eq n2]
    linear_combination hp

theorem Add_neg_eq (crv : Curve) (n : Nat) [Fact n.Prime] (hP : crv.P = n)
    (h2 : (2 : ZMod n) ≠ 0) (hA : IsSquare (crv.A : ZMod n)) (hD : ¬ IsSquare (crv.D : ZMod n))
    (x y x2 : Int) (hB : onCurve (crv.A : ZMod n) (crv.D : ZMod n) ((x : ZMod n), (y : ZMod n)))
    (hx2 : (x2 : ZMod n) = -(x : ZMod n)) :
    crv.Add x y x2 y = some (0, 1) := by
  haveI : Fact (1 < n) := ⟨(Fact.out : n.Prime).one_lt⟩
  have hq : onCurve (crv.A : ZMod n) (crv.D : ZMod n) ((x2 : ZMod n), (y : ZMod n)) := by
    rw [hx2]
    simp only [onCurve] at hB ⊢
    linear_combination hB
  obtain ⟨n1, n2⟩ := denominators_ne_zero h2 hA hD hB hq
  rw [Add_eq_val crv n hP x y x2 y n1 n2, hx2, eadd_neg h2 hA hD _ _ hB]
  simp [ZMod.val_one]

theorem closure_projective {R : Type*} [CommRing R] (a d X1 Y1 Z1 X2 Y2 Z2 : R)
    (h1 : a * X1 ^ 2 * Z1 ^ 2 + Y1 ^ 2 * Z1 ^ 2 = Z1 ^ 4 + d * X1 ^ 2 * Y1 ^ 2)
    (h2 : a * X2 ^ 2 * Z2 ^ 2 + Y2 ^ 2 * Z2 ^ 2 = Z2 ^ 4 + d * X2 ^ 2 * Y2 ^ 2) :
    a * (Z1 * Z2) ^ 2 * (X1 * Y2 + Y1 * X2) ^ 2 * ((Z1 * Z2) ^ 2 - d * X1 * X2 * Y1 * Y2) ^ 2 +
      (Z1 * Z2) ^ 2 * (Y1 * Y2 - a * X1 * X2) ^ 2 * ((Z1 * Z2) ^ 2 + d * X1 * X2 * Y1 * Y2) ^ 2 =
    ((Z1 * Z2) ^ 2 - d * X1 * X2 * Y1 * Y2) ^ 2 * ((Z1 * Z2) ^ 2 + d * X1 * X2 * Y1 * Y2) ^ 2 +
      d * (Z1 * Z2) ^ 4 * (X1 * Y2 + Y1 * X2) ^ 2 * (Y1 * Y2 - a * X1 * X2) ^ 2 := by
  linear_combination
    (a^2*X2^4*Z1^4*Z2^4 - a*d*X1^2*X2^2*Y2^2*Z1^2*Z2^4 - a*d*X2^4*Y2^2*Z1^4*Z2^2 +
      2*a*X2^2*Y2^2*Z1^4*Z2^4 + d^3*X1^2*Y1^2*X2^4*Y2^4 - d*Y1^2*X2^2*Y2^2*Z1^2*Z2^4 -
      d*X2^2*Y2^4*Z1^4*Z2^2 - d*X2^2*Y2^2*Z1^4*Z2^4 + Y2^4*Z1^4*Z2^4) * h1 +
    (-a^2*X1^2*X2^2*Z1^6*Z2^2 + a*d^2*X1^4*Y1^2*X2^2*Y2^2*Z1^2 - a*X1^2*Y2^2*Z1^6*Z2^2 -
      a*Y1^2*X2^2*Z1^6*Z2^2 + a*X2^2*Z1^8*Z2^2 + d^2*X1^2*Y1^4*X2^2*Y2^2*Z1^2 -
      d^2*X1^2*Y1^2*X2^2*Y2^2*Z1^4 - Y1^2*Y2^2*Z1^6*Z2^2 + Y2^2*Z1^8*Z2^2 + Z1^8*Z2^4) * h2

/-! ## The curve equation along the ladder, on any positive modulus -/

theorem IsOnCurve_iff_cast (crv : Curve) (n : Nat) (hn : n ≠ 0) (hP : crv.P = n) (x y : Int) :
    crv.IsOnCurve x y = some true ↔
      (crv.A : ZMod n) * (x : ZMod n) ^ 2 + (y : ZMod n) ^ 2 =
        1 + (crv.D : ZMod n) * (x : ZMod n) ^ 2 * (y : ZMod n) ^ 2 := by
  have hpos : 0 < crv.P := by
    rw [hP]
    exact_mod_cast Nat.pos_of_ne_zero hn
  rw [isOnCurve_eq_decide crv x y hpos, hP]
  simp only [Option.some.injEq, decide_eq_true_eq]
  rw [← ZMod.intCast_zmod_eq_zero_iff_dvd]
  push_cast
  constructor
  · intro h
    linear_combination h
  · intro h
    linear_combination h

theorem projOn_affine (crv : Curve) (n : Nat) (hn : n ≠ 0) (hP : crv.P = n) (x y : Int)
    (h : crv.IsOnCurve x y = some true) : projOn n crv (projectiveFromAffine x y) := by
  have h2 := (IsOnCurve_iff_cast crv n hn hP x y).mp h
  simp only [projOn, projectiveFromAffine, Int.cast_one]
  linear_combination h2

theorem projOn_neutral (crv : Curve) (n : Nat) : projOn n crv (projectiveFromAffine 0 1) := by
  simp [projOn, projectiveFromAffine]

/-- `projectiveAdd` keeps the homogeneous curve equation, on any positive
modulus. -/
theorem projectiveAdd_projOn (crv : Curve) (n : Nat) (hn : n ≠ 0) (hP : crv.P = n)
    (l r q : point) (hl : projOn n crv l) (hr : projOn n crv r)
    (hq : crv.projectiveAdd l r = some q) : projOn n crv q := by
  obtain ⟨q2, hq2, hX, hY, hZ⟩ := projectiveAdd_cast crv n hn hP l r
  rw [hq] at hq2
  obtain rfl := Option.some.inj hq2
  have key := closure_projective (crv.A : ZMod n) (crv.D : ZMod n) (l.X : ZMod n) (l.Y : ZMod n)
    (l.Z : ZMod n) (r.X : ZMod n) (r.Y : ZMod n) (r.Z : ZMod n) hl hr
  simp only [projOn]
  rw [hX, hY, hZ]
  linear_combination
    (((l.Z : ZMod n) * r.Z) ^ 2 - (crv.D : ZMod n) * l.X * r.X * l.Y * r.Y) ^ 2 *
      (((l.Z : ZMod n) * r.Z) ^ 2 + (crv.D : ZMod n) * l.X * r.X * l.Y * r.Y) ^ 2 * key

theorem ladderStep_projOn (crv : Curve) (n : Nat) (hn : n ≠ 0) (hP : crv.P = n)
    (b : Nat) (r0 r1 : point) (s : point × point) (h0 : projOn n crv r0)
    (h1 : projOn n crv r1) (hs : crv.ladderStep b r0 r1 = some s) :
    projOn n crv s.1 ∧ projOn n crv s.2 := by
  have h0P : crv.P ≠ 0 := by
    rw [hP]
    exact_mod_cast hn
  obtain ⟨q01, e01⟩ := projectiveAdd_some crv h0P r0 r1
  obtain ⟨q00, e00⟩ := projectiveAdd_some crv h0P r0 r0
  obtain ⟨q11, e11⟩ := projectiveAdd_some crv h0P r1 r1
  have p01 := projectiveAdd_projOn crv n hn hP r0 r1 q01 h0 h1 e01
  have p00 := projectiveAdd_projOn crv n hn hP r0 r0 q00 h0 h0 e00
  have p11 := projectiveAdd_projOn crv n hn hP r1 r1 q11 h1 h1 e11
  by_cases hbit : b &&& 0x80 = 0x80
  · simp only [Curve.ladderStep, if_pos hbit, e01, e11, Option.bind, Option.some.injEq] at hs
    rw [← hs]
    exact ⟨p01, p11⟩
  · simp only [Curve.ladderStep, if_neg hbit, e01, e00, Option.bind, Option.some.injEq] at hs
    rw [← hs]
    exact ⟨p00, p01⟩

theorem ladderByte_projOn (crv : Curve) (n : Nat) (hn : n ≠ 0) (hP : crv.P = n) :
    ∀ (cnt b : Nat) (r0 r1 : point) (s : point × point), projOn n crv r0 → projOn n crv r1 →
      crv.ladderByte cnt b r0 r1 = some s → projOn n crv s.1 ∧ projOn n crv s.2 := by
  intro cnt
  induction cnt with
  | zero =>
    intro b r0 r1 s h0 h1 hs
    simp only [Curve.ladderByte, Option.some.injEq] at hs
    rw [← hs]
    exact ⟨h0, h1⟩
  | succ cnt ih =>
    intro b r0 r1 s h0 h1 hs
    rw [ladderByte_succ] at hs
    cases hst : crv.ladderStep b r0 r1 with
    | none => simp [hst] at hs
    | some t =>
      rw [hst] at hs
      obtain ⟨t0, t1⟩ := ladderStep_projOn crv n hn hP b r0 r1 t h0 h1 hst
      exact ih _ t.1 t.2 s t0 t1 hs

theorem ladder_projOn (crv : Curve) (n : Nat) (hn : n ≠ 0) (hP : crv.P = n) :
    ∀ (k : List Nat) (r0 r1 : point) (s : point × point), projOn n crv r0 → projOn n crv r1 →
      crv.ladder k r0 r1 = some s → projOn n crv s.1 ∧ projOn n crv s.2 := by
  intro k
  induction k with
  | nil =>
    intro r0 r1 s h0 h1 hs
    simp only [Curve.ladder, Option.some.injEq] at hs
    rw [← hs]
    exact ⟨h0, h1⟩
  | cons b k ih =>
    intro r0 r1 s h0 h1 hs
    rw [ladder_cons] at hs
    cases hst : crv.ladderByte 8 b r0 r1 with
    | none => simp [hst] at hs
    | some t =>
      rw [hst] at hs
      obtain ⟨t0, t1⟩ := ladderByte_projOn crv n hn hP 8 b r0 r1 t h0 h1 hst
      exact ih t.1 t.2 s t0 t1 hs

/-- The affine conversion of a point on the homogeneous curve is on the
curve, unless it is the sentinel of `Z = 0` (whose `x` is zero). -/
theorem affineFromProjective_onCurve (crv : Curve) (n : Nat) (hn : n ≠ 0) (hP : crv.P = n)
    (pt : point) (x y : Int) (hpt : projOn n crv pt)
    (ha : crv.affineFromProjective pt = some (x, y)) (hx : x ≠ 0) :
    crv.IsOnCurve x y = some true := by
  have h0P : crv.P ≠ 0 := by
    rw [hP]
    exact_mod_cast hn
  by_cases hZ : pt.Z = 0
  · simp only [Curve.affineFromProjective, if_pos hZ, Option.some.injEq, Prod.mk.injEq] at ha
    exact absurd ha.1.symm hx
  · by_cases hg : Int.gcd pt.Z crv.P = 1
    · obtain ⟨z, hz1, _, _, hz2⟩ := (modInverse_spec pt.Z crv.P).2 h0P hg
      simp only [Curve.affineFromProjective, if_neg hZ, hz1, Option.some.injEq,
        Prod.mk.injEq] at ha
      obtain ⟨hx2, hy2⟩ := ha
      have hzc : (z : ZMod n) * (pt.Z : ZMod n) = 1 := by
        rw [hP] at hz2
        have := (ZMod.intCast_eq_intCast_iff _ _ n).mpr hz2
        push_cast at this
        exact this
      rw [IsOnCurve_iff_cast crv n hn hP, ← hx2, ← hy2, cast_emod n crv.P hP,
        cast_emod n crv.P hP]
      push_cast
      simp only [projOn] at hpt
      linear_combination (z : ZMod n) ^ 4 * hpt +
        ((1 + (z : ZMod n) * pt.Z) * (1 + (z : ZMod n) ^ 2 * (pt.Z : ZMod n) ^ 2) -
          (1 + (z : ZMod n) * pt.Z) *
            ((crv.A : ZMod n) * (pt.X : ZMod n) ^ 2 * (z : ZMod n) ^ 2 +
              (pt.Y : ZMod n) ^ 2 * (z : ZMod n) ^ 2)) * hzc
    · have hnone := (modInverse_spec pt.Z crv.P).1 (Or.inr hg)
      simp [Curve.affineFromProjective, hZ, hnone] at ha

theorem ScalarMult_onCurve (crv : Curve) (hP : 0 < crv.P) (Bx By : Int)
    (hB : crv.IsOnCurve Bx By = some true) (k : List Nat) (x y : Int)
    (h : crv.ScalarMult Bx By k = some (x, y)) (hx : x ≠ 0) :
    crv.IsOnCurve x y = some true := by
  have hPn : crv.P = (crv.P.toNat : Int) := (Int.toNat_of_nonneg hP.le).symm
  have hn : crv.P.toNat ≠ 0 := by omega
  simp only [Curve.ScalarMult] at h
  cases hl : crv.ladder k (projectiveFromAffine 0 1) (projectiveFromAffine Bx By) with
  | none => simp [hl] at h
  | some s =>
    rw [hl] at h
    obtain ⟨s0, _⟩ := ladder_projOn crv _ hn hPn k _ _ s (projOn_neutral crv _)
      (projOn_affine crv _ hn hPn Bx By hB) hl
    exact affineFromProjective_onCurve crv _ hn hPn s.1 x y s0 h hx

theorem keyLoop_key {ε : Type} (crv : Curve) (n : Nat) :
    ∀ (rand : List (Draw ε)) (priv : List Nat) (x y : Int),
      crv.keyLoop n rand = some (KeyResult.key priv x y) →
      crv.ScalarBaseMult priv = some (x, y) ∧ x ≠ 0 ∧ y ≠ 1 := by
  intro rand
  induction rand with
  | nil =>
    intro priv x y h
    simp [Curve.keyLoop] at h
  | cons d rest ih =>
    intro priv x y h
    simp only [Curve.keyLoop] at h
    cases hd : d n with
    | error e => simp [hd] at h
    | ok buf =>
      simp only [hd] at h
      cases hm : crv.maskPriv buf with
      | none => simp [hm] at h
      | some pr =>
        simp only [hm] at h
        cases hs : crv.ScalarBaseMult pr with
        | none => simp [hs] at h
        | some pt =>
          obtain ⟨px, py⟩ := pt
          simp only [hs] at h
          by_cases hc : px ≠ 0 ∧ py ≠ 1
          · simp only [if_pos hc, Option.some.injEq, KeyResult.key.injEq] at h
            obtain ⟨rfl, rfl, rfl⟩ := h
            exact ⟨hs, hc⟩
          · simp only [if_neg hc] at h
            exact ih priv x y h

/-- A key returned by `GenerateKey` is on the curve and not neutral, whenever
the modulus is positive and the generator is on the curve. -/
theorem GenerateKey_valid_of_generator {ε : Type} (crv : Curve) (hP : 0 < crv.P)
    (hG : crv.IsOnCurve crv.Gx crv.Gy = some true) (rand : List (Draw ε))
    (priv : List Nat) (x y : Int) (h : crv.GenerateKey rand = some (KeyResult.key priv x y)) :
    crv.IsOnCurve x y = some true ∧ (x, y) ≠ (0, 1) := by
  have hk : crv.keyLoop crv.keyLen.toNat rand = some (KeyResult.key priv x y) := by
    unfold Curve.GenerateKey Curve.GenerateKeyWith at h
    split at h
    · simp at h
    · exact h
  obtain ⟨hs, hx, _⟩ := keyLoop_key crv _ rand priv x y hk
  refine ⟨ScalarMult_onCurve crv hP crv.Gx crv.Gy hG priv x y hs hx, ?_⟩
  intro he
  exact hx (Prod.mk.inj he).1

theorem registered_generators : ∀ crv ∈ registered,
    0 < crv.P ∧ crv.IsOnCurve crv.Gx crv.Gy = some true := by
  decide!

/-! ## Errors of the random source -/

theorem int_shiftRight_three (v : Int) : v >>> (3 : Int) = v / 8 := by
  cases v with
  | ofNat m =>
    have h := Int.shiftRight_coe_nat m 3
    rw [Nat.cast_ofNat] at h
    show (m : Int) >>> (3 : Int) = (m : Int) / 8
    rw [h, Nat.shiftRight_eq_div_pow]
    norm_num
  | negSucc m =>
    have h := Int.shiftRight_negSucc m 3
    rw [Nat.cast_ofNat] at h
    rw [h, Nat.shiftRight_eq_div_pow, Int.negSucc_ediv m (by norm_num : (0 : Int) < 8)]
    simp only [Int.negSucc_eq]
    norm_num
    rfl

theorem keyLen_eq_ceil (crv : Curve) (hB : -2 ^ 63 ≤ crv.BitSize ∧ crv.BitSize < 2 ^ 63)
    (hpos : 0 < crv.keyLen) : crv.keyLen = ⌈(crv.BitSize : ℚ) / 8⌉ := by
  obtain ⟨h1, h2⟩ := hB
  simp only [Curve.keyLen, int_shiftRight_three] at hpos ⊢
  have hw : wrapInt64 (crv.BitSize + 7) = crv.BitSize + 7 := by
    simp only [wrapInt64] at hpos ⊢
    by_cases hc : crv.BitSize + 7 < 2 ^ 63
    · have : (crv.BitSize + 7 + 2 ^ 63) % 2 ^ 64 = crv.BitSize + 7 + 2 ^ 63 :=
        Int.emod_eq_of_lt (by omega) (by omega)
      omega
    · exfalso
      have : (crv.BitSize + 7 + 2 ^ 63) % 2 ^ 64 = crv.BitSize + 7 + 2 ^ 63 - 2 ^ 64 := by
        rw [Int.emod_eq_sub_self_emod]
        exact Int.emod_eq_of_lt (by omega) (by omega)
      omega
  rw [hw]
  symm
  rw [Int.ceil_eq_iff]
  have hq : ((crv.BitSize + 7) / 8 * 8 : Int) ≤ crv.BitSize + 7 ∧
      crv.BitSize ≤ (crv.BitSize + 7) / 8 * 8 := by omega
  obtain ⟨q1, q2⟩ := hq
  have q1' : (((crv.BitSize + 7) / 8 : Int) : ℚ) * 8 ≤ (crv.BitSize : ℚ) + 7 := by
    exact_mod_cast q1
  have q2' : (crv.BitSize : ℚ) ≤ (((crv.BitSize + 7) / 8 : Int) : ℚ) * 8 := by
    exact_mod_cast q2
  constructor
  · linarith
  · linarith

/-- The loop ends with the error `e` exactly when a draw fails with `e` after
every earlier draw was read, processed without an abort, and discarded. -/
theorem keyLoop_failed_iff {ε : Type} (crv : Curve) (n : Nat) (e : ε) :
    ∀ rand : List (Draw ε),
      (crv.keyLoop n rand = some (KeyResult.failed e) ↔
        ∃ pre d post, rand = pre ++ d :: post ∧ d n = Except.error e ∧
          ∀ c ∈ pre, ∃ buf priv x y, c n = Except.ok buf ∧ crv.maskPriv buf = some priv ∧
            crv.ScalarBaseMult priv = some (x, y) ∧ ¬ (x ≠ 0 ∧ y ≠ 1)) := by
  intro rand
  induction rand with
  | nil =>
    constructor
    · intro h
      simp [Curve.keyLoop] at h
    · rintro ⟨pre, d, post, h, _⟩
      simp at h
  | cons c rest ih =>
    constructor
    · intro h
      simp only [Curve.keyLoop] at h
      cases hd : c n with
      | error e2 =>
        simp only [hd, Option.some.injEq, KeyResult.failed.injEq] at h
        exact ⟨[], c, rest, rfl, by rw [hd, h], by simp⟩
      | ok buf =>
        simp only [hd] at h
        cases hm : crv.maskPriv buf with
        | none => simp [hm] at h
        | some pr =>
          simp only [hm] at h
          cases hs : crv.ScalarBaseMult pr with
          | none => simp [hs] at h
          | some pt =>
            obtain ⟨px, py⟩ := pt
            simp only [hs] at h
            by_cases hc : px ≠ 0 ∧ py ≠ 1
            · simp [if_pos hc] at h
            · simp only [if_neg hc] at h
              obtain ⟨pre, d, post, hr, hde, hpre⟩ := ih.mp h
              refine ⟨c :: pre, d, post, by rw [hr]; rfl, hde, ?_⟩
              intro c2 hc2
              rcases List.mem_cons.mp hc2 with rfl | hin
              · exact ⟨buf, pr, px, py, hd, hm, hs, hc⟩
              · exact hpre c2 hin
    · rintro ⟨pre, d, post, hr, hde, hpre⟩
      cases pre with
      | nil =>
        simp only [List.nil_append, List.cons.injEq] at hr
        obtain ⟨rfl, rfl⟩ := hr
        simp [Curve.keyLoop, hde]
      | cons c2 pre2 =>
        simp only [List.cons_append, List.cons.injEq] at hr
        obtain ⟨rfl, hr2⟩ := hr
        obtain ⟨buf, pr, px, py, hd, hm, hs, hc⟩ := hpre c (List.mem_cons_self _ _)
        have hrest := ih.mpr ⟨pre2, d, post, hr2, hde,
          fun c3 h3 => hpre c3 (List.mem_cons_of_mem _ h3)⟩
        simp only [Curve.keyLoop, hd, hm, hs, if_neg hc]
        exact hrest

/-- The loop consults each draw with the buffer length only. -/
theorem keyLoop_map {ε : Type} (crv : Curve) (n : Nat) :
    ∀ rand : List (Draw ε),
      crv.keyLoop n rand = crv.keyLoop n (rand.map fun d _ => d n) := by
  intro rand
  induction rand with
  | nil => rfl
  | cons c rest ih =>
    simp only [List.map, Curve.keyLoop]
    rw [ih]

theorem GenerateKeyWith_failed_iff {ε : Type} (crv : Curve) (avail : Nat)
    (rand : List (Draw ε)) (e : ε) :
    crv.GenerateKeyWith avail rand = some (KeyResult.failed e) ↔
      (0 < crv.keyLen ∧ crv.keyLen ≤ maxAlloc ∧ crv.keyLen ≤ avail) ∧
        ∃ pre d post, rand = pre ++ d :: post ∧
        d crv.keyLen.toNat = Except.error e ∧
        ∀ c ∈ pre, ∃ buf priv x y, c crv.keyLen.toNat = Except.ok buf ∧
          crv.maskPriv buf = some priv ∧ crv.ScalarBaseMult priv = some (x, y) ∧
          ¬ (x ≠ 0 ∧ y ≠ 1) := by
  by_cases hl : crv.keyLen ≤ 0 ∨ (maxAlloc : Int) < crv.keyLen ∨ (avail : Int) < crv.keyLen
  · constructor
    · intro h
      simp [Curve.GenerateKeyWith, if_pos hl] at h
    · rintro ⟨⟨hpos, hmax, hav⟩, _⟩
      omega
  · have hpos : 0 < crv.keyLen ∧ crv.keyLen ≤ maxAlloc ∧ crv.keyLen ≤ avail := by omega
    simp only [Curve.GenerateKeyWith, if_neg hl, hpos, and_self, true_and]
    exact keyLoop_failed_iff crv _ e rand

/-! ## The operation pattern of the ladder -/

theorem ladderStep_some (crv : Curve) (hP : crv.P ≠ 0) (b : Nat) (r0 r1 : point) :
    ∃ q, crv.ladderStep b r0 r1 = some q := by
  obtain ⟨q01, e01⟩ := projectiveAdd_some crv hP r0 r1
  obtain ⟨q00, e00⟩ := projectiveAdd_some crv hP r0 r0
  obtain ⟨q11, e11⟩ := projectiveAdd_some crv hP r1 r1
  by_cases hbit : b &&& 0x80 = 0x80
  · exact ⟨(q01, q11), by simp [Curve.ladderStep, hbit, e01, e11]⟩
  · exact ⟨(q00, q01), by simp [Curve.ladderStep, hbit, e01, e00]⟩

theorem ladderByte_some (crv : Curve) (hP : crv.P ≠ 0) : ∀ (cnt b : Nat) (r0 r1 : point),
    ∃ q, crv.ladderByte cnt b r0 r1 = some q := by
  intro cnt
  induction cnt with
  | zero => intro b r0 r1; exact ⟨(r0, r1), rfl⟩
  | succ cnt ih =>
    intro b r0 r1
    obtain ⟨q, hq⟩ := ladderStep_some crv hP b r0 r1
    obtain ⟨q2, hq2⟩ := ih ((b <<< 1) % 256) q.1 q.2
    exact ⟨q2, by rw [ladderByte_succ, hq]; exact hq2⟩

theorem ladderStepTrace_snd (crv : Curve) (b : Nat) (r0 r1 : point) :
    (crv.ladderStepTrace b r0 r1).2 = crv.ladderStep b r0 r1 := by
  by_cases hbit : b &&& 0x80 = 0x80
  · simp only [Curve.ladderStepTrace, Curve.ladderStep, if_pos hbit]
    cases crv.projectiveAdd r0 r1 with
    | none => rfl
    | some q =>
      cases crv.projectiveAdd r1 r1 with
      | none => rfl
      | some q2 => rfl
  · simp only [Curve.ladderStepTrace, Curve.ladderStep, if_neg hbit]
    cases crv.projectiveAdd r0 r1 with
    | none => rfl
    | some q =>
      cases crv.projectiveAdd r0 r0 with
      | none => rfl
      | some q2 => rfl

theorem ladderStepTrace_fst (crv : Curve) (hP : crv.P ≠ 0) (b : Nat) (r0 r1 : point) :
    (crv.ladderStepTrace b r0 r1).1 =
      { bit := decide (b &&& 0x80 = 0x80), ops := [LadderOp.mixed, LadderOp.self] } := by
  obtain ⟨q01, e01⟩ := projectiveAdd_some crv hP r0 r1
  obtain ⟨q00, e00⟩ := projectiveAdd_some crv hP r0 r0
  obtain ⟨q11, e11⟩ := projectiveAdd_some crv hP r1 r1
  by_cases hbit : b &&& 0x80 = 0x80
  · simp [Curve.ladderStepTrace, hbit, e01, e11]
  · simp [Curve.ladderStepTrace, hbit, e01, e00]

theorem ladderByteTrace_snd (crv : Curve) : ∀ (cnt b : Nat) (r0 r1 : point),
    (crv.ladderByteTrace cnt b r0 r1).2 = crv.ladderByte cnt b r0 r1 := by
  intro cnt
  induction cnt with
  | zero => intro b r0 r1; rfl
  | succ cnt ih =>
    intro b r0 r1
    rw [ladderByte_succ, ← ladderStepTrace_snd]
    simp only [Curve.ladderByteTrace]
    cases hst : crv.ladderStepTrace b r0 r1 with
    | mk st res =>
      cases res with
      | none => rfl
      | some s => exact ih _ s.1 s.2

theorem ladderByteTrace_fst (crv : Curve) (hP : crv.P ≠ 0) : ∀ (cnt b : Nat) (r0 r1 : point),
    (crv.ladderByteTrace cnt b r0 r1).1 =
      (testedBits cnt b).map fun bit => { bit := bit, ops := [LadderOp.mixed, LadderOp.self] } := by
  intro cnt
  induction cnt with
  | zero => intro b r0 r1; rfl
  | succ cnt ih =>
    intro b r0 r1
    have h1 := ladderStepTrace_fst crv hP b r0 r1
    simp only [Curve.ladderByteTrace, testedBits, List.map]
    cases hst : crv.ladderStepTrace b r0 r1 with
    | mk st res =>
      rw [hst] at h1
      simp only at h1
      cases res with
      | none =>
        exfalso
        have h2 := ladderStepTrace_snd crv b r0 r1
        rw [hst] at h2
        obtain ⟨q, hq⟩ := ladderStep_some crv hP b r0 r1
        rw [hq] at h2
        exact Option.noConfusion h2
      | some s =>
        simp only
        rw [h1, ih]

theorem testedBits_byte : ∀ b < 256, testedBits 8 b =
    [b.testBit 7, b.testBit 6, b.testBit 5, b.testBit 4, b.testBit 3, b.testBit 2,
      b.testBit 1, b.testBit 0] := by
  decide!

theorem ladderTrace_snd (crv : Curve) : ∀ (k : List Nat) (r0 r1 : point),
    (crv.ladderTrace k r0 r1).2 = crv.ladder k r0 r1 := by
  intro k
  induction k with
  | nil => intro r0 r1; rfl
  | cons b k ih =>
    intro r0 r1
    rw [ladder_cons, ← ladderByteTrace_snd]
    simp only [Curve.ladderTrace]
    cases hst : crv.ladderByteTrace 8 b r0 r1 with
    | mk t res =>
      cases res with
      | none => rfl
      | some s => exact ih s.1 s.2

theorem ladderTrace_fst (crv : Curve) (hP : crv.P ≠ 0) : ∀ (k : List Nat),
    (∀ b ∈ k, b < 256) → ∀ (r0 r1 : point),
    (crv.ladderTrace k r0 r1).1 =
      (bitsMSB k).map fun bit => { bit := bit, ops := [LadderOp.mixed, LadderOp.self] } := by
  intro k
  induction k with
  | nil => intro _ r0 r1; rfl
  | cons b k ih =>
    intro hk r0 r1
    have hb : b < 256 := hk b (List.mem_cons_self b k)
    have h1 := ladderByteTrace_fst crv hP 8 b r0 r1
    rw [testedBits_byte b hb] at h1
    have h2 := ladderByteTrace_snd crv 8 b r0 r1
    simp only [Curve.ladderTrace, bitsMSB, List.map_append]
    cases hst : crv.ladderByteTrace 8 b r0 r1 with
    | mk t res =>
      rw [hst] at h1 h2
      simp only at h1 h2
      cases res with
      | none =>
        exfalso
        obtain ⟨q, hq⟩ := ladderByte_some crv hP 8 b r0 r1
        rw [hq] at h2
        exact Option.noConfusion h2
      | some s =>
        simp only
        rw [h1, ih (fun c hc => hk c (List.mem_cons_of_mem b hc))]

theorem bitsMSB_length : ∀ k : List Nat, (bitsMSB k).length = 8 * k.length := by
  intro k
  induction k with
  | nil => rfl
  | cons b k ih =>
    simp only [bitsMSB, List.length_append, List.length_cons, List.length_nil, ih]
    omega

/-! ## Doubling, commutativity, neutral element and inverse -/

/-- C11: for every curve bundle and every pair of integers `(x, y)`,
`ScalarMult(x, y, [0x02])` and `Add(x, y, x, y)` have the same outcome: the
affine conversion of the projective double of `(x, y, 1)` (on a zero modulus
both abort in their first `projectiveAdd`). -/
theorem ScalarMult_two_eq_double (crv : Curve) (x y : Int) :
    crv.ScalarMult x y [2] = crv.Add x y x y :=
  ScalarMult_two_eq_Add crv x y

/-- C12: for every curve bundle and all integers `x1, y1, x2, y2`,
`Add(x1, y1, x2, y2)` and `Add(x2, y2, x1, y1)` have the same outcome. -/
theorem Add_commutative (crv : Curve) (x1 y1 x2 y2 : Int) :
    crv.Add x1 y1 x2 y2 = crv.Add x2 y2 x1 y1 :=
  Add_comm_all crv x1 y1 x2 y2

/-- C13: with a modulus above one, `(0, 1)` is neutral for `Add` on points
with coordinates in `[0, P)`, on either side; in particular
`Add(0, 1, 0, 1) = (0, 1)`. -/
theorem Add_neutral (crv : Curve) (x y : Int) (hP : 1 < crv.P)
    (hx : 0 ≤ x ∧ x < crv.P) (hy : 0 ≤ y ∧ y < crv.P) :
    crv.Add x y 0 1 = some (x, y) ∧ crv.Add 0 1 x y = some (x, y) ∧
      crv.Add 0 1 0 1 = some (0, 1) := by
  refine ⟨?_, Add_neutral_left crv hP x y hx hy, ?_⟩
  · rw [Add_comm_all]
    exact Add_neutral_left crv hP x y hx hy
  · exact Add_neutral_left crv hP 0 1 ⟨le_refl 0, by omega⟩ ⟨by omega, hP⟩

/-- C13, on the toy curve at the point `(4, 9)`. -/
theorem Add_neutral_witness :
    1 < toyCurve.P ∧ (0 ≤ (4 : Int) ∧ 4 < toyCurve.P) ∧ (0 ≤ (9 : Int) ∧ 9 < toyCurve.P) ∧
    (toyCurve.Add 4 9 0 1 = some (4, 9) ∧ toyCurve.Add 0 1 4 9 = some (4, 9) ∧
      toyCurve.Add 0 1 0 1 = some (0, 1)) :=
  ⟨by decide, by decide, by decide, Add_neutral toyCurve 4 9 (by decide) (by decide) (by decide)⟩

/-- C14: on a curve bundle whose `P` is an odd prime, whose `A` is a square and
whose `D` is a non-square modulo `P`, for every point `(x, y)` that passes
`IsOnCurve`, `Add((x, y), (-x mod P, y))` is the neutral element `(0, 1)`, and
so is `Add((x, y), (-x, y))` with the negative integer passed as it is. -/
theorem Add_inverse (crv : Curve) (p : Nat) (hp : p.Prime) (hp2 : p ≠ 2)
    (hP : crv.P = p) (hA : IsSquare (crv.A : ZMod p)) (hD : ¬ IsSquare (crv.D : ZMod p))
    (x y : Int) (hB : crv.IsOnCurve x y = some true) :
    crv.Add x y ((-x) % crv.P) y = some (0, 1) ∧ crv.Add x y (-x) y = some (0, 1) := by
  haveI : Fact p.Prime := ⟨hp⟩
  have h2 := two_ne_zero_of_odd_prime p hp2
  have hB2 := (IsOnCurve_iff_onCurve crv p hP x y).mp hB
  constructor
  · apply Add_neg_eq crv p hP h2 hA hD x y _ hB2
    rw [cast_emod p crv.P hP]
    push_cast
    rfl
  · apply Add_neg_eq crv p hP h2 hA hD x y _ hB2
    push_cast
    rfl

/-- C14, on the toy curve at the point `(4, 9)`. -/
theorem Add_inverse_witness :
    toyCurve.IsOnCurve 4 9 = some true ∧
    (toyCurve.Add 4 9 ((-4) % toyCurve.P) 9 = some (0, 1) ∧
      toyCurve.Add 4 9 (-4) 9 = some (0, 1)) :=
  ⟨by decide,
    Add_inverse toyCurve 13 (by norm_num) (by decide) rfl ⟨1, by decide⟩ (by decide)
      4 9 (by decide)⟩

/-! ## Leading zero bytes -/

/-- C20: with a modulus above one, for all integers `Bx, By` and every byte
sequence `k`, a zero byte in front of `k` does not change the outcome of
`ScalarMult`. -/
theorem ScalarMult_leading_zero (crv : Curve) (Bx By : Int) (k : List Nat) (hP : 1 < crv.P) :
    crv.ScalarMult Bx By ([0] ++ k) = crv.ScalarMult Bx By k :=
  ScalarMult_cons_zero crv hP Bx By k

/-- C20, on the toy curve for the unreduced point `(17, -4)` and the scalar
`[0x03]`. -/
theorem ScalarMult_leading_zero_witness :
    1 < toyCurve.P ∧ toyCurve.ScalarMult 17 (-4) ([0] ++ [3]) = toyCurve.ScalarMult 17 (-4) [3] :=
  ⟨by decide, ScalarMult_leading_zero toyCurve 17 (-4) [3] (by decide)⟩

/-! ## Generated keys -/

/-- C17: on each registered curve, whatever the random source, a key that
`GenerateKey` returns has a public point that passes `IsOnCurve` and is not
the neutral element `(0, 1)`. -/
theorem GenerateKey_valid {ε : Type} (crv : Curve) (hreg : crv ∈ registered)
    (rand : List (Draw ε)) (priv : List Nat) (x y : Int)
    (h : crv.GenerateKey rand = some (KeyResult.key priv x y)) :
    crv.IsOnCurve x y = some true ∧ (x, y) ≠ (0, 1) :=
  GenerateKey_valid_of_generator crv (registered_generators crv hreg).1
    (registered_generators crv hreg).2 rand priv x y h

/-- C17, on E222 for a draw of 28 bytes `0xFF`. -/
theorem GenerateKey_valid_witness :
    E222.IsOnCurve 2937321135184225970649580012448014692203295042217923558729785567662
        4552941104271065846686786937778655168839623416052553984496301435358 = some true ∧
      ((2937321135184225970649580012448014692203295042217923558729785567662 : Int),
        (4552941104271065846686786937778655168839623416052553984496301435358 : Int)) ≠ (0, 1) :=
  GenerateKey_valid E222 (List.mem_cons_self _ _)
    [fun _ => (Except.ok (List.replicate 28 0xFF) : Except Unit (List Nat))]
    (0 :: List.replicate 27 0xFF) _ _ (by decide!)

/-- C18 (as stated, refuted): on a bundle with a zero modulus the first draw
`[0x02]` is read and `ScalarBaseMult` aborts in its first `projectiveAdd`
(`Mod` by zero); the second read of the source fails with nothing accepted
before it, and the call returns no error. -/
theorem GenerateKey_no_error_on_zero_modulus :
    ({ toyCurve with P := 0 } : Curve).GenerateKey
        [fun _ => (Except.ok [2] : Except Unit (List Nat)), fun _ => Except.error ()] =
      some KeyResult.aborted ∧
    ({ toyCurve with P := 0 } : Curve).GenerateKey
        [fun _ => (Except.ok [2] : Except Unit (List Nat)), fun _ => Except.error ()] ≠
      some (KeyResult.failed ()) := by
  decide

/-- C18 (amended): on a machine that can supply a buffer of at most `avail`
bytes, every draw is asked for `(BitSize+7)>>3` bytes, which is
`ceil(BitSize/8)` when a draw is made at all; `GenerateKey` returns the error
`e` exactly when that length is positive, `make` succeeds on it (it is at
most `maxAlloc` and at most `avail`), and some draw fails with `e` after every
earlier draw was read in full, processed without a run-time abort and
discarded; the draws after the failing one are not consulted. -/
theorem GenerateKey_error_iff {ε : Type} (crv : Curve) (avail : Nat) (rand : List (Draw ε))
    (e : ε) (hB : -2 ^ 63 ≤ crv.BitSize ∧ crv.BitSize < 2 ^ 63) :
    (0 < crv.keyLen → crv.keyLen = ⌈(crv.BitSize : ℚ) / 8⌉) ∧
    crv.GenerateKeyWith avail rand =
      crv.GenerateKeyWith avail (rand.map fun d _ => d crv.keyLen.toNat) ∧
    (crv.GenerateKeyWith avail rand = some (KeyResult.failed e) ↔
      (0 < crv.keyLen ∧ crv.keyLen ≤ maxAlloc ∧ crv.keyLen ≤ avail) ∧
        ∃ pre d post, rand = pre ++ d :: post ∧
        d crv.keyLen.toNat = Except.error e ∧
        ∀ c ∈ pre, ∃ buf priv x y, c crv.keyLen.toNat = Except.ok buf ∧
          crv.maskPriv buf = some priv ∧ crv.ScalarBaseMult priv = some (x, y) ∧
          ¬ (x ≠ 0 ∧ y ≠ 1)) := by
  refine ⟨keyLen_eq_ceil crv hB, ?_, GenerateKeyWith_failed_iff crv avail rand e⟩
  simp only [Curve.GenerateKeyWith]
  by_cases hl : crv.keyLen ≤ 0 ∨ (maxAlloc : Int) < crv.keyLen ∨ (avail : Int) < crv.keyLen
  · simp only [if_pos hl]
  · simp only [if_neg hl]
    exact keyLoop_map crv _ rand

/-- C18 (amended), on the toy curve with memory for 16 bytes: the draw
`[0x02]` is discarded and the second read fails; with no memory for the one
byte of the buffer the call aborts instead. -/
theorem GenerateKey_error_iff_witness :
    (-2 ^ 63 ≤ toyCurve.BitSize ∧ toyCurve.BitSize < 2 ^ 63) ∧
    toyCurve.GenerateKeyWith 16
      [fun _ => (Except.ok [2] : Except Unit (List Nat)), fun _ => Except.error ()] =
      some (KeyResult.failed ()) ∧
    toyCurve.GenerateKeyWith 0
      [fun _ => (Except.ok [2] : Except Unit (List Nat)), fun _ => Except.error ()] =
      some KeyResult.aborted ∧
    (0 < toyCurve.keyLen → toyCurve.keyLen = ⌈(toyCurve.BitSize : ℚ) / 8⌉) :=
  ⟨by decide, by decide, by decide,
    (GenerateKey_error_iff toyCurve 16
      [fun _ => (Except.ok [2] : Except Unit (List Nat)), fun _ => Except.error ()] ()
      (by decide)).1⟩

/-! ## The operation pattern -/

/-- C19 (as stated, refuted): on a zero modulus the first `projectiveAdd`
aborts, so `ScalarMult` on the one-byte scalar `[0x00]` begins one bit-step
with one group operation, not eight with sixteen. -/
theorem ScalarMult_trace_zero_modulus :
    ({ toyCurve with P := 0 } : Curve).ScalarMultTrace 0 1 [0] =
      ([{ bit := false, ops := [LadderOp.mixed] }], none) := by
  decide

/-- C19 (amended): on a non-zero modulus, for every point and all byte
sequences `k`, `k2` of the same length, `ScalarMult` runs `8 * len(k)`
bit-steps, which test the bits of `k` most-significant byte and bit first;
every step makes two calls of `projectiveAdd`, `r0` with `r1` and then one
accumulator with itself, `16 * len(k)` in all, and the sequence of calls is
the same for `k` and `k2`.  The logged run returns what `ScalarMult`
returns. -/
theorem ScalarMult_fixed_pattern (crv : Curve) (x y : Int) (k k2 : List Nat)
    (hP : crv.P ≠ 0) (hk : ∀ b ∈ k, b < 256) (hk2 : ∀ b ∈ k2, b < 256)
    (hlen : k2.length = k.length) :
    (crv.ScalarMultTrace x y k).2 = crv.ScalarMult x y k ∧
    (crv.ScalarMultTrace x y k).1.map BitStep.bit = bitsMSB k ∧
    (∀ s ∈ (crv.ScalarMultTrace x y k).1, s.ops = [LadderOp.mixed, LadderOp.self]) ∧
    (crv.ScalarMultTrace x y k).1.length = 8 * k.length ∧
    ((crv.ScalarMultTrace x y k).1.map fun s => s.ops.length).sum = 16 * k.length ∧
    (crv.ScalarMultTrace x y k2).1.map BitStep.ops =
      (crv.ScalarMultTrace x y k).1.map BitStep.ops := by
  have t1 := ladderTrace_fst crv hP k hk (projectiveFromAffine 0 1) (projectiveFromAffine x y)
  have t2 := ladderTrace_fst crv hP k2 hk2 (projectiveFromAffine 0 1) (projectiveFromAffine x y)
  have l1 := bitsMSB_length k
  have l2 := bitsMSB_length k2
  refine ⟨?_, ?_, ?_, ?_, ?_, ?_⟩
  · simp only [Curve.ScalarMultTrace, Curve.ScalarMult, ladderTrace_snd]
  · simp only [Curve.ScalarMultTrace, t1, List.map_map]
    exact List.map_id _
  · intro s hs
    simp only [Curve.ScalarMultTrace, t1, List.mem_map] at hs
    obtain ⟨bit, _, rfl⟩ := hs
    rfl
  · simp only [Curve.ScalarMultTrace, t1, List.length_map, l1]
  · simp only [Curve.ScalarMultTrace, t1, List.map_map]
    have : ((fun s : BitStep => s.ops.length) ∘
        fun bit => ({ bit := bit, ops := [LadderOp.mixed, LadderOp.self] } : BitStep)) =
        fun _ => 2 := rfl
    rw [this, List.map_const', List.sum_replicate, l1]
    simp only [smul_eq_mul]
    omega
  · simp only [Curve.ScalarMultTrace, t1, t2, List.map_map]
    have e : (BitStep.ops ∘
        fun bit => ({ bit := bit, ops := [LadderOp.mixed, LadderOp.self] } : BitStep)) =
        fun _ => [LadderOp.mixed, LadderOp.self] := rfl
    rw [e, List.map_const', List.map_const', l1, l2, hlen]

/-- C19 (amended), on the toy curve for the scalars `[0x00, 0x01]` and
`[0xFF, 0x80]`. -/
theorem ScalarMult_fixed_pattern_witness :
    toyCurve.P ≠ 0 ∧
    (toyCurve.ScalarMultTrace 4 9 [0, 1]).1.length = 8 * [0, 1].length ∧
    ((toyCurve.ScalarMultTrace 4 9 [0, 1]).1.map fun s => s.ops.length).sum =
      16 * [0, 1].length ∧
    (toyCurve.ScalarMultTrace 4 9 [255, 128]).1.map BitStep.ops =
      (toyCurve.ScalarMultTrace 4 9 [0, 1]).1.map BitStep.ops :=
  ⟨by decide,
    (ScalarMult_fixed_pattern toyCurve 4 9 [0, 1] [255, 128] (by decide) (by decide)
      (by decide) rfl).2.2.2.1,
    (ScalarMult_fixed_pattern toyCurve 4 9 [0, 1] [255, 128] (by decide) (by decide)
      (by decide) rfl).2.2.2.2.1,
    (ScalarMult_fixed_pattern toyCurve 4 9 [0, 1] [255, 128] (by decide) (by decide)
      (by decide) rfl).2.2.2.2.2⟩

/-! ## Points of small order -/

theorem small_order_E222 :
    E222.ScalarMult 0 (E222.P - 1) [2] = some (0, 1) ∧ E222.ScalarMult 1 0 [4] = some (0, 1) ∧
      E222.ScalarMult (E222.P - 1) 0 [4] = some (0, 1) ∧ E222.ScalarMult 0 (-1) [2] = some (0, 1) ∧
      E222.ScalarMult (-1) 0 [4] = some (0, 1) := by
  decide!

theorem small_order_E382 :
    E382.ScalarMult 0 (E382.P - 1) [2] = some (0, 1) ∧ E382.ScalarMult 1 0 [4] = some (0, 1) ∧
      E382.ScalarMult (E382.P - 1) 0 [4] = some (0, 1) ∧ E382.ScalarMult 0 (-1) [2] = some (0, 1) ∧
      E382.ScalarMult (-1) 0 [4] = some (0, 1) := by
  decide!

theorem small_order_Ed448Goldilocks :
    Ed448Goldilocks.ScalarMult 0 (Ed448Goldilocks.P - 1) [2] = some (0, 1) ∧ Ed448Goldilocks.ScalarMult 1 0 [4] = some (0, 1) ∧
      Ed448Goldilocks.ScalarMult (Ed448Goldilocks.P - 1) 0 [4] = some (0, 1) ∧ Ed448Goldilocks.ScalarMult 0 (-1) [2] = some (0, 1) ∧
      Ed448Goldilocks.ScalarMult (-1) 0 [4] = some (0, 1) := by
  decide!

theorem small_order_E521 :
    E521.ScalarMult 0 (E521.P - 1) [2] = some (0, 1) ∧ E521.ScalarMult 1 0 [4] = some (0, 1) ∧
      E521.ScalarMult (E521.P - 1) 0 [4] = some (0, 1) ∧ E521.ScalarMult 0 (-1) [2] = some (0, 1) ∧
      E521.ScalarMult (-1) 0 [4] = some (0, 1) := by
  decide!

theorem small_order_Curve1174 :
    Curve1174.ScalarMult 0 (Curve1174.P - 1) [2] = some (0, 1) ∧ Curve1174.ScalarMult 1 0 [4] = some (0, 1) ∧
      Curve1174.ScalarMult (Curve1174.P - 1) 0 [4] = some (0, 1) ∧ Curve1174.ScalarMult 0 (-1) [2] = some (0, 1) ∧
      Curve1174.ScalarMult (-1) 0 [4] = some (0, 1) := by
  decide!

theorem small_order_Curve41417 :
    Curve41417.ScalarMult 0 (Curve41417.P - 1) [2] = some (0, 1) ∧ Curve41417.ScalarMult 1 0 [4] = some (0, 1) ∧
      Curve41417.ScalarMult (Curve41417.P - 1) 0 [4] = some (0, 1) ∧ Curve41417.ScalarMult 0 (-1) [2] = some (0, 1) ∧
      Curve41417.ScalarMult (-1) 0 [4] = some (0, 1) := by
  decide!

/-- C16: on each of the six registered curves `ScalarMult((0, P-1), [0x02])`,
`ScalarMult((1, 0), [0x04])` and `ScalarMult((P-1, 0), [0x04])` are the neutral
element `(0, 1)`, and so are the calls of the test, which pass `-1` for
`P-1`. -/
theorem known_small_order_points :
    (E222.ScalarMult 0 (E222.P - 1) [2] = some (0, 1) ∧ E222.ScalarMult 1 0 [4] = some (0, 1) ∧
      E222.ScalarMult (E222.P - 1) 0 [4] = some (0, 1) ∧ E222.ScalarMult 0 (-1) [2] = some (0, 1) ∧
      E222.ScalarMult (-1) 0 [4] = some (0, 1)) ∧
    (E382.ScalarMult 0 (E382.P - 1) [2] = some (0, 1) ∧ E382.ScalarMult 1 0 [4] = some (0, 1) ∧
      E382.ScalarMult (E382.P - 1) 0 [4] = some (0, 1) ∧ E382.ScalarMult 0 (-1) [2] = some (0, 1) ∧
      E382.ScalarMult (-1) 0 [4] = some (0, 1)) ∧
    (Ed448Goldilocks.ScalarMult 0 (Ed448Goldilocks.P - 1) [2] = some (0, 1) ∧ Ed448Goldilocks.ScalarMult 1 0 [4] = some (0, 1) ∧
      Ed448Goldilocks.ScalarMult (Ed448Goldilocks.P - 1) 0 [4] = some (0, 1) ∧ Ed448Goldilocks.ScalarMult 0 (-1) [2] = some (0, 1) ∧
      Ed448Goldilocks.ScalarMult (-1) 0 [4] = some (0, 1)) ∧
    (E521.ScalarMult 0 (E521.P - 1) [2] = some (0, 1) ∧ E521.ScalarMult 1 0 [4] = some (0, 1) ∧
      E521.ScalarMult (E521.P - 1) 0 [4] = some (0, 1) ∧ E521.ScalarMult 0 (-1) [2] = some (0, 1) ∧
      E521.ScalarMult (-1) 0 [4] = some (0, 1)) ∧
    (Curve1174.ScalarMult 0 (Curve1174.P - 1) [2] = some (0, 1) ∧ Curve1174.ScalarMult 1 0 [4] = some (0, 1) ∧
      Curve1174.ScalarMult (Curve1174.P - 1) 0 [4] = some (0, 1) ∧ Curve1174.ScalarMult 0 (-1) [2] = some (0, 1) ∧
      Curve1174.ScalarMult (-1) 0 [4] = some (0, 1)) ∧
    (Curve41417.ScalarMult 0 (Curve41417.P - 1) [2] = some (0, 1) ∧ Curve41417.ScalarMult 1 0 [4] = some (0, 1) ∧
      Curve41417.ScalarMult (Curve41417.P - 1) 0 [4] = some (0, 1) ∧ Curve41417.ScalarMult 0 (-1) [2] = some (0, 1) ∧
      Curve41417.ScalarMult (-1) 0 [4] = some (0, 1)) :=
  ⟨small_order_E222, small_order_E382, small_order_Ed448Goldilocks, small_order_E521,
    small_order_Curve1174, small_order_Curve41417⟩

/-! ## Soundness of the primality certificates -/

theorem natCast_mod_of_dvd (l n m : Nat) (h : l ∣ n) : ((m % n : Nat) : ZMod l) = (m : ZMod l) := by
  have hn : (n : ZMod l) = 0 := (ZMod.natCast_zmod_eq_zero_iff_dvd n l).2 h
  conv_rhs => rw [← Nat.mod_add_div m n]
  push_cast
  rw [hn]
  ring

theorem powModAux_eq (n : Nat) : ∀ (fuel a e : Nat), e < 2 ^ fuel →
    powModAux n fuel a e = a ^ e % n := by
  intro fuel
  induction fuel with
  | zero =>
    intro a e he
    have : e = 0 := by simpa using he
    subst this
    simp [powModAux]
  | succ f ih =>
    intro a e he
    unfold powModAux
    by_cases h0 : e = 0
    · simp [h0]
    · have hlt : e / 2 < 2 ^ f := by
        rw [pow_succ] at he
        omega
      have hrec := ih (a * a % n) (e / 2) hlt
      have hsq : (a * a % n) ^ (e / 2) % n = (a * a) ^ (e / 2) % n := by
        rw [Nat.pow_mod, Nat.mod_mod, ← Nat.pow_mod]
      rw [if_neg h0, hrec, hsq]
      by_cases h1 : e % 2 = 1
      · rw [if_pos h1]
        have he2 : e = 2 * (e / 2) + 1 := by omega
        have : a ^ e = a * (a * a) ^ (e / 2) := by
          conv_lhs => rw [he2]
          rw [pow_succ, pow_mul, sq]
          ring
        rw [this]
        exact (Nat.mul_mod_mod a ((a * a) ^ (e / 2)) n)
      · rw [if_neg h1]
        have he2 : e = 2 * (e / 2) := by omega
        have : a ^ e = (a * a) ^ (e / 2) := by
          conv_lhs => rw [he2]
          rw [pow_mul, sq]
        rw [this]

theorem powMod_eq (a e n : Nat) : powMod a e n = a ^ e % n :=
  powModAux_eq n e a e (Nat.lt_two_pow e)

theorem powMod_cast (l n a e : Nat) (h : l ∣ n) :
    ((powMod a e n : Nat) : ZMod l) = (a : ZMod l) ^ e := by
  rw [powMod_eq, natCast_mod_of_dvd l n _ h]
  push_cast
  rfl

theorem QExt.ofNat_qmul (l d n : Nat) (h : l ∣ n) (p q : Nat × Nat) :
    QExt.ofNat l d (qmul n d p q) = QExt.ofNat l d p * QExt.ofNat l d q := by
  apply QExt.ext
  · show (((p.1 * q.1 + d * (p.2 * q.2)) % n : Nat) : ZMod l) =
      (p.1 : ZMod l) * (q.1 : ZMod l) + (d : ZMod l) * ((p.2 : ZMod l) * (q.2 : ZMod l))
    rw [natCast_mod_of_dvd l n _ h]
    push_cast
    rfl
  · show (((p.1 * q.2 + p.2 * q.1) % n : Nat) : ZMod l) =
      (p.1 : ZMod l) * (q.2 : ZMod l) + (p.2 : ZMod l) * (q.1 : ZMod l)
    rw [natCast_mod_of_dvd l n _ h]
    push_cast
    rfl

theorem QExt.ofNat_one (l d n : Nat) (h : l ∣ n) : QExt.ofNat l d (1 % n, 0) = 1 := by
  apply QExt.ext
  · show ((1 % n : Nat) : ZMod l) = 1
    rw [natCast_mod_of_dvd l n _ h]
    simp
  · show ((0 : Nat) : ZMod l) = 0
    simp

theorem qpowAux_eq (l d n : Nat) (h : l ∣ n) : ∀ (fuel : Nat) (w : Nat × Nat) (e : Nat),
    e < 2 ^ fuel → QExt.ofNat l d (qpowAux n d fuel w e) = QExt.ofNat l d w ^ e := by
  intro fuel
  induction fuel with
  | zero =>
    intro w e he
    have : e = 0 := by simpa using he
    subst this
    simp [qpowAux, QExt.ofNat_one l d n h]
  | succ f ih =>
    intro w e he
    unfold qpowAux
    by_cases h0 : e = 0
    · simp [h0, QExt.ofNat_one l d n h]
    · have hlt : e / 2 < 2 ^ f := by
        rw [pow_succ] at he
        omega
      have hrec := ih (qmul n d w w) (e / 2) hlt
      rw [QExt.ofNat_qmul l d n h] at hrec
      rw [if_neg h0]
      by_cases h1 : e % 2 = 1
      · rw [if_pos h1, QExt.ofNat_qmul l d n h, hrec]
        have he2 : e = 2 * (e / 2) + 1 := by omega
        conv_rhs => rw [he2]
        rw [pow_succ', pow_mul, sq]
      · rw [if_neg h1, hrec]
        have he2 : e = 2 * (e / 2) := by omega
        conv_rhs => rw [he2]
        rw [pow_mul, sq]

theorem qpow_eq (l d n : Nat) (h : l ∣ n) (w : Nat × Nat) (e : Nat) :
    QExt.ofNat l d (qpow n d w e) = QExt.ofNat l d w ^ e :=
  qpowAux_eq l d n h e w e (Nat.lt_two_pow e)

theorem prime_dvd_factorProd (qs : List (Nat × Nat)) (hq : ∀ qe ∈ qs, qe.1.Prime)
    (p : Nat) (hp : p.Prime) (h : p ∣ factorProd qs) : ∃ qe ∈ qs, qe.1 = p := by
  induction qs with
  | nil =>
    simp only [factorProd, List.map_nil, List.prod_nil, Nat.dvd_one] at h
    exact absurd h hp.ne_one
  | cons qe qs ih =>
    simp only [factorProd, List.map_cons, List.prod_cons] at h
    rcases (Nat.Prime.dvd_mul hp).1 h with h1 | h1
    · have h2 := hp.dvd_of_dvd_pow h1
      have h3 := (Nat.prime_dvd_prime_iff_eq hp (hq qe (List.mem_cons_self _ _))).1 h2
      exact ⟨qe, List.mem_cons_self _ _, h3.symm⟩
    · obtain ⟨r, hr, hr2⟩ := ih (fun x hx => hq x (List.mem_cons_of_mem _ hx)) h1
      exact ⟨r, List.mem_cons_of_mem _ hr, hr2⟩

theorem QExt.card (l d : Nat) [NeZero l] [Fintype (QExt l d)] : Fintype.card (QExt l d) = l * l := by
  rw [Fintype.card_congr (QExt.equivProd l d), Fintype.card_prod, ZMod.card]

/-- A number with a certificate `(a, qs)` that passes `linearCheck` is a
prime, when the `q` of `qs` are primes. -/
theorem linearCheck_prime (n a : Nat) (qs : List (Nat × Nat))
    (hc : linearCheck n a qs = true) (hq : ∀ qe ∈ qs, qe.1.Prime) : n.Prime := by
  simp only [linearCheck, Bool.and_eq_true, decide_eq_true_eq, List.all_eq_true] at hc
  obtain ⟨⟨⟨h1, hF⟩, hpow⟩, hall⟩ := hc
  by_contra hnp
  have hl : (n.minFac).Prime := Nat.minFac_prime (by omega)
  have hdvd : n.minFac ∣ n := Nat.minFac_dvd n
  have hsq : n.minFac ^ 2 ≤ n := Nat.minFac_sq_le_self (by omega) hnp
  haveI : Fact (n.minFac).Prime := ⟨hl⟩
  have hF0 : 0 < factorProd qs := by
    rcases Nat.eq_zero_or_pos (factorProd qs) with h0 | h0
    · rw [h0] at hF
      omega
    · exact h0
  have hx : ((a : ZMod n.minFac)) ^ factorProd qs = 1 := by
    rw [← powMod_cast n.minFac n a _ hdvd, hpow]
    simp
  have hord : orderOf (a : ZMod n.minFac) = factorProd qs := by
    apply orderOf_eq_of_pow_and_pow_div_prime hF0 hx
    intro p hp hpd heq
    obtain ⟨qe, hqe, rfl⟩ := prime_dvd_factorProd qs hq p hp hpd
    have hg := hall qe hqe
    rw [← powMod_cast n.minFac n a _ hdvd] at heq
    have hd1 : n.minFac ∣ powMod a (factorProd qs / qe.1) n + n - 1 := by
      rw [← ZMod.natCast_zmod_eq_zero_iff_dvd]
      have : 1 ≤ powMod a (factorProd qs / qe.1) n + n := by omega
      rw [Nat.cast_sub this]
      push_cast
      rw [heq, (ZMod.natCast_zmod_eq_zero_iff_dvd n _).2 hdvd]
      ring
    have := Nat.dvd_gcd hd1 hdvd
    rw [hg] at this
    exact hl.one_lt.ne (Nat.dvd_one.1 this).symm
  have hle : orderOf (a : ZMod n.minFac) ≤ Fintype.card (ZMod n.minFac) := orderOf_le_card_univ
  rw [hord, ZMod.card] at hle
  have : factorProd qs * factorProd qs ≤ n.minFac ^ 2 := by
    rw [sq]
    exact Nat.mul_le_mul hle hle
  omega

/-- A number with a certificate `(d, w, qs)` that passes `quadraticCheck` is
a prime, when the `q` of `qs` are primes. -/
theorem quadraticCheck_prime (n d : Nat) (w : Nat × Nat) (qs : List (Nat × Nat))
    (hc : quadraticCheck n d w qs = true) (hq : ∀ qe ∈ qs, qe.1.Prime) : n.Prime := by
  simp only [quadraticCheck, Bool.and_eq_true, decide_eq_true_eq, List.all_eq_true] at hc
  obtain ⟨⟨⟨h1, hF⟩, hpow⟩, hall⟩ := hc
  by_contra hnp
  have hl : (n.minFac).Prime := Nat.minFac_prime (by omega)
  have hdvd : n.minFac ∣ n := Nat.minFac_dvd n
  have hsq : n.minFac ^ 2 ≤ n := Nat.minFac_sq_le_self (by omega) hnp
  haveI : Fact (n.minFac).Prime := ⟨hl⟩
  haveI : NeZero n.minFac := ⟨hl.ne_zero⟩
  haveI : Fintype (QExt n.minFac d) := Fintype.ofEquiv _ (QExt.equivProd n.minFac d).symm
  have hF0 : 0 < factorProd qs := by omega
  have hx : QExt.ofNat n.minFac d w ^ factorProd qs = 1 := by
    rw [← qpow_eq n.minFac d n hdvd, hpow]
    apply QExt.ext
    · show ((1 : Nat) : ZMod n.minFac) = 1
      simp
    · show ((0 : Nat) : ZMod n.minFac) = 0
      simp
  have hord : orderOf (QExt.ofNat n.minFac d w) = factorProd qs := by
    apply orderOf_eq_of_pow_and_pow_div_prime hF0 hx
    intro p hp hpd heq
    obtain ⟨qe, hqe, rfl⟩ := prime_dvd_factorProd qs hq p hp hpd
    have hg := hall qe hqe
    rw [← qpow_eq n.minFac d n hdvd] at heq
    have hre : (((qpow n d w (factorProd qs / qe.1)).1 : Nat) : ZMod n.minFac) = 1 :=
      congrArg QExt.re heq
    have him : (((qpow n d w (factorProd qs / qe.1)).2 : Nat) : ZMod n.minFac) = 0 :=
      congrArg QExt.im heq
    have hd1 : n.minFac ∣ (qpow n d w (factorProd qs / qe.1)).1 + n - 1 := by
      rw [← ZMod.natCast_zmod_eq_zero_iff_dvd]
      have : 1 ≤ (qpow n d w (factorProd qs / qe.1)).1 + n := by omega
      rw [Nat.cast_sub this]
      push_cast
      rw [hre, (ZMod.natCast_zmod_eq_zero_iff_dvd n _).2 hdvd]
      ring
    have hd2 : n.minFac ∣ (qpow n d w (factorProd qs / qe.1)).2 :=
      (ZMod.natCast_zmod_eq_zero_iff_dvd _ _).1 him
    have := Nat.dvd_gcd (Nat.dvd_gcd hd1 hd2) hdvd
    rw [hg] at this
    exact hl.one_lt.ne (Nat.dvd_one.1 this).symm
  have hle : orderOf (QExt.ofNat n.minFac d w) ≤ Fintype.card (QExt n.minFac d) :=
    orderOf_le_card_univ
  rw [hord, QExt.card] at hle
  rw [sq] at hsq
  omega

theorem primes_nil : ∀ qe ∈ ([] : List (Nat × Nat)), qe.1.Prime :=
  fun _ h => absurd h (List.not_mem_nil _)

theorem primes_cons (q e : Nat) (qs : List (Nat × Nat)) (h : q.Prime)
    (hs : ∀ qe ∈ qs, qe.1.Prime) : ∀ qe ∈ (q, e) :: qs, qe.1.Prime := by
  intro qe hqe
  rcases List.mem_cons.1 hqe with rfl | h2
  · exact h
  · exact hs qe h2

/-! ## Multiples of multiples -/

theorem emul_mul {F : Type} [Field F] {a d : F} (h2 : (2 : F) ≠ 0)
    (ha : IsSquare a) (hd : ¬ IsSquare d) {p : F × F} (hp : onCurve a d p) (m n : Nat) :
    emul a d (emul a d p m) n = emul a d p (m * n) := by
  induction n with
  | zero => rfl
  | succ n ih =>
    show eadd a d (emul a d (emul a d p m) n) (emul a d p m) = emul a d p (m * (n + 1))
    rw [ih, Nat.mul_succ, emul_add h2 ha hd hp]

/-- On a complete curve over a prime modulus the two ways of combining two
scalars with a point on the curve return the same pair, and every call
returns. -/
theorem ScalarMult_exchange (crv : Curve) (n : Nat) [Fact n.Prime] (hP : crv.P = n)
    (h2 : (2 : ZMod n) ≠ 0) (hA : IsSquare (crv.A : ZMod n)) (hD : ¬ IsSquare (crv.D : ZMod n))
    (Gx Gy : Int) (hG : onCurve (crv.A : ZMod n) (crv.D : ZMod n) ((Gx : ZMod n), (Gy : ZMod n)))
    (k1 k2 : List Nat) (hk1 : ∀ b ∈ k1, b < 256) (hk2 : ∀ b ∈ k2, b < 256) :
    ∃ x1 y1 x2 y2 r, crv.ScalarMult Gx Gy k1 = some (x1, y1) ∧
      crv.ScalarMult Gx Gy k2 = some (x2, y2) ∧
      crv.ScalarMult x2 y2 k1 = some r ∧ crv.ScalarMult x1 y1 k2 = some r := by
  have e1 := ScalarMult_eq_val crv n hP h2 hA hD Gx Gy hG k1 hk1
  have e2 := ScalarMult_eq_val crv n hP h2 hA hD Gx Gy hG k2 hk2
  have c1 := onCurve_emul h2 hA hD hG (beValue k1)
  have c2 := onCurve_emul h2 hA hD hG (beValue k2)
  have back : ∀ q : ZMod n × ZMod n,
      ((((q.1.val : Nat) : Int) : ZMod n), (((q.2.val : Nat) : Int) : ZMod n)) = q := by
    intro q
    simp only [Int.cast_natCast, ZMod.natCast_zmod_val]
  have f1 := ScalarMult_eq_val crv n hP h2 hA hD _ _ (by rw [back]; exact c2) k1 hk1
  have f2 := ScalarMult_eq_val crv n hP h2 hA hD _ _ (by rw [back]; exact c1) k2 hk2
  rw [back, emul_mul h2 hA hD hG] at f1 f2
  rw [Nat.mul_comm] at f1
  exact ⟨_, _, _, _, _, e1, e2, f1, f2⟩

/-! ## The registered curves are complete -/

theorem nonsquare_of_powMod (p : Nat) [Fact p.Prime] (hp : 2 < p) (D : Int)
    (h : powMod (D % p).toNat (p / 2) p = p - 1) : ¬ IsSquare (D : ZMod p) := by
  have hp0 : (0 : Int) < p := by exact_mod_cast (by omega : 0 < p)
  have hcast : (((D % p).toNat : Nat) : ZMod p) = (D : ZMod p) := by
    have h1 : (((D % p).toNat : Nat) : Int) = D % p :=
      Int.toNat_of_nonneg (Int.emod_nonneg _ (ne_of_gt hp0))
    have h2 : ((((D % p).toNat : Nat) : Int) : ZMod p) = ((D % p : Int) : ZMod p) := by rw [h1]
    rw [Int.cast_natCast] at h2
    rw [h2, cast_emod p p rfl]
  have hpow : (D : ZMod p) ^ (p / 2) = -1 := by
    rw [← hcast, ← powMod_cast p p _ _ (dvd_refl p), h]
    rw [Nat.cast_sub (by omega)]
    simp
  have hne : (-1 : ZMod p) ≠ 1 := by
    intro h1
    have : (2 : ZMod p) = 0 := by
      have : (1 : ZMod p) + 1 = 0 := by
        nth_rewrite 1 [← h1]
        ring
      rw [← this]
      norm_num
    have h3 : ((2 : Nat) : ZMod p) = 0 := by exact_mod_cast this
    rw [ZMod.natCast_zmod_eq_zero_iff_dvd] at h3
    have := Nat.le_of_dvd (by norm_num) h3
    omega
  have hD0 : (D : ZMod p) ≠ 0 := by
    intro h0
    rw [h0, zero_pow (by omega)] at hpow
    exact hne (by rw [← hpow]; simp at hpow)
  intro hsq
  rw [ZMod.euler_criterion p hD0] at hsq
  rw [hsq] at hpow
  exact hne hpow.symm

/-! ## The moduli of the registered curves are primes

Every prime below is certified from primes certified before it: an element
of exact order `F` modulo each prime factor, `F` a product of known primes. -/

theorem prime_2 : Nat.Prime 2 := by
  norm_num

theorem prime_3 : Nat.Prime 3 := by
  norm_num

theorem prime_5 : Nat.Prime 5 := by
  norm_num

theorem prime_7 : Nat.Prime 7 := by
  norm_num

theorem prime_11 : Nat.Prime 11 := by
  norm_num

theorem prime_13 : Nat.Prime 13 := by
  norm_num

theorem prime_17 : Nat.Prime 17 := by
  norm_num

theorem prime_19 : Nat.Prime 19 := by
  norm_num

theorem prime_23 : Nat.Prime 23 := by
  norm_num

theorem prime_29 : Nat.Prime 29 := by
  norm_num

theorem prime_31 : Nat.Prime 31 := by
  norm_num

theorem prime_37 : Nat.Prime 37 := by
  norm_num

theorem prime_41 : Nat.Prime 41 := by
  norm_num

theorem prime_43 : Nat.Prime 43 := by
  norm_num

theorem prime_47 : Nat.Prime 47 := by
  norm_num

theorem prime_59 : Nat.Prime 59 := by
  norm_num

theorem prime_67 : Nat.Prime 67 := by
  norm_num

theorem prime_71 : Nat.Prime 71 := by
  norm_num

theorem prime_83 : Nat.Prime 83 := by
  norm_num

theorem prime_97 : Nat.Prime 97 := by
  norm_num

theorem prime_103 : Nat.Prime 103 := by
  norm_num

theorem prime_113 : Nat.Prime 113 := by
  norm_num

theorem prime_127 : Nat.Prime 127 := by
  norm_num

theorem prime_131 : Nat.Prime 131 := by
  norm_num

theorem prime_137 : Nat.Prime 137 := by
  norm_num

theorem prime_139 : Nat.Prime 139 := by
  norm_num

theorem prime_163 : Nat.Prime 163 := by
  norm_num

theorem prime_257 : Nat.Prime 257 := by
  norm_num

theorem prime_269 : Nat.Prime 269 := by
  norm_num

theorem prime_277 : Nat.Prime 277 := by
  norm_num

theorem prime_313 : Nat.Prime 313 := by
  norm_num

theorem prime_331 : Nat.Prime 331 := by
  norm_num

theorem prime_401 : Nat.Prime 401 := by
  norm_num

theorem prime_431 : Nat.Prime 431 := by
  norm_num

theorem prime_449 : Nat.Prime 449 := by
  norm_num

theorem prime_467 : Nat.Prime 467 := by
  norm_num

theorem prime_499 : Nat.Prime 499 := by
  norm_num

theorem prime_761 : Nat.Prime 761 := by
  norm_num

theorem prime_1063 : Nat.Prime 1063 := by
  norm_num

theorem prime_1777 : Nat.Prime 1777 := by
  norm_num

theorem prime_1877 : Nat.Prime 1877 := by
  norm_num

theorem prime_2113 : Nat.Prime 2113 := by
  norm_num

theorem prime_2539 : Nat.Prime 2539 := by
  norm_num

theorem prime_2689 : Nat.Prime 2689 := by
  norm_num

theorem prime_2971 : Nat.Prime 2971 := by
  norm_num

theorem prime_3109 : Nat.Prime 3109 := by
  norm_num

theorem prime_3491 : Nat.Prime 3491 := by
  norm_num

theorem prime_4159 : Nat.Prime 4159 := by
  norm_num

theorem prime_4241 : Nat.Prime 4241 := by
  norm_num

theorem prime_4457 : Nat.Prime 4457 := by
  norm_num

theorem prime_5153 : Nat.Prime 5153 := by
  norm_num

theorem prime_5693 : Nat.Prime 5693 := by
  norm_num

theorem prime_8167 : Nat.Prime 8167 := by
  norm_num

theorem prime_11783 : Nat.Prime 11783 := by
  norm_num

theorem prime_12511 : Nat.Prime 12511 := by
  norm_num

theorem prime_13367 : Nat.Prime 13367 := by
  norm_num

theorem prime_14731 : Nat.Prime 14731 := by
  norm_num

theorem prime_25583 : Nat.Prime 25583 := by
  norm_num

theorem prime_42853 : Nat.Prime 42853 := by
  norm_num

theorem prime_61681 : Nat.Prime 61681 := by
  norm_num

theorem prime_65537 : Nat.Prime 65537 := by
  norm_num

theorem prime_135899 : Nat.Prime 135899 := by
  norm_num

theorem prime_179549 : Nat.Prime 179549 := by
  norm_num

theorem prime_208147 : Nat.Prime 208147 := by
  norm_num

theorem prime_252283 : Nat.Prime 252283 := by
  norm_num

theorem prime_294887 : Nat.Prime 294887 := by
  norm_num

theorem prime_395509 : Nat.Prime 395509 := by
  norm_num

theorem prime_317591083 : Nat.Prime (317591083) :=
  quadraticCheck_prime (317591083) 2 (174128424, 166183745) [(3, 2), (23, 1), (41, 1), (269, 1),
    (313, 1)] (by decide!) (primes_cons 3 2 _ prime_3 (primes_cons 23 1 _ prime_23 (primes_cons 41
    1 _ prime_41 (primes_cons 269 1 _ prime_269 (primes_cons 313 1 _ prime_313 (primes_nil))))))

theorem prime_349359301741 : Nat.Prime (349359301741) :=
  quadraticCheck_prime (349359301741) 2 (143500587412, 91291793010) [(2, 3), (3, 1), (5, 1), (11,
    1), (97, 1), (1777, 1), (2971, 1)] (by decide!) (primes_cons 2 3 _ prime_2 (primes_cons 3 1 _
    prime_3 (primes_cons 5 1 _ prime_5 (primes_cons 11 1 _ prime_11 (primes_cons 97 1 _ prime_97
    (primes_cons 1777 1 _ prime_1777 (primes_cons 2971 1 _ prime_2971 (primes_nil))))))))

theorem prime_9056623 : Nat.Prime (9056623) :=
  quadraticCheck_prime (9056623) 3 (2433619, 1471847) [(2, 5), (127, 1), (4457, 1)] (by decide!)
    (primes_cons 2 5 _ prime_2 (primes_cons 127 1 _ prime_127 (primes_cons 4457 1 _ prime_4457
    (primes_nil))))

theorem prime_127936273239734303 : Nat.Prime (127936273239734303) :=
  quadraticCheck_prime (127936273239734303) 5 (76215022860584949, 98163325511328596) [(499, 1),
    (12511, 1), (294887, 1), (9056623, 1)] (by decide!) (primes_cons 499 1 _ prime_499
    (primes_cons 12511 1 _ prime_12511 (primes_cons 294887 1 _ prime_294887 (primes_cons 9056623 1
    _ prime_9056623 (primes_nil)))))

theorem prime_123513195593586463868249598285337146648031981 : Nat.Prime (123513195593586463868249598285337146648031981) :=
  quadraticCheck_prime (123513195593586463868249598285337146648031981) 2
    (82702596991964050963358527232672895784341965, 18855505177968082417076011200212417662892664)
    [(5, 1), (11, 1), (395509, 1), (317591083, 1), (349359301741, 1), (127936273239734303, 1)] (by
    decide!) (primes_cons 5 1 _ prime_5 (primes_cons 11 1 _ prime_11 (primes_cons 395509 1 _
    prime_395509 (primes_cons 317591083 1 _ prime_317591083 (primes_cons 349359301741 1 _
    prime_349359301741 (primes_cons 127936273239734303 1 _ prime_127936273239734303
    (primes_nil)))))))

theorem prime_E222 : Nat.Prime (2 ^ 222 - 117) :=
  linearCheck_prime (2 ^ 222 - 117)
    3684855820504144349110163561753049550411353570460994066703228181088
    [(123513195593586463868249598285337146648031981, 1)] (by decide!) (primes_cons
    123513195593586463868249598285337146648031981 1 _
    prime_123513195593586463868249598285337146648031981 (primes_nil))

theorem prime_1283159 : Nat.Prime (1283159) :=
  quadraticCheck_prime (1283159) 11 (3475, 628981) [(2, 4), (3, 1), (5, 1), (17, 2), (37, 1)] (by
    decide!) (primes_cons 2 4 _ prime_2 (primes_cons 3 1 _ prime_3 (primes_cons 5 1 _ prime_5
    (primes_cons 17 2 _ prime_17 (primes_cons 37 1 _ prime_37 (primes_nil))))))

theorem prime_3233359 : Nat.Prime (3233359) :=
  quadraticCheck_prime (3233359) 3 (1265628, 2900831) [(3, 5), (13, 1), (3109, 1)] (by decide!)
    (primes_cons 3 5 _ prime_3 (primes_cons 13 1 _ prime_13 (primes_cons 3109 1 _ prime_3109
    (primes_nil))))

theorem prime_14583691 : Nat.Prime (14583691) :=
  linearCheck_prime (14583691) 8621853 [(14731, 1)] (by decide!) (primes_cons 14731 1 _
    prime_14731 (primes_nil))

theorem prime_3500085839 : Nat.Prime (3500085839) :=
  quadraticCheck_prime (3500085839) 17 (2280084804, 1131620035) [(2, 5), (3, 1), (5, 1),
    (14583691, 1)] (by decide!) (primes_cons 2 5 _ prime_2 (primes_cons 3 1 _ prime_3 (primes_cons
    5 1 _ prime_5 (primes_cons 14583691 1 _ prime_14583691 (primes_nil)))))

theorem prime_121870811 : Nat.Prime (121870811) :=
  linearCheck_prime (121870811) 1024 [(3491, 2)] (by decide!) (primes_cons 3491 2 _ prime_3491
    (primes_nil))

theorem prime_3560897 : Nat.Prime (3560897) :=
  quadraticCheck_prime (3560897) 3 (2481734, 1930330) [(2, 7), (163, 1), (331, 1)] (by decide!)
    (primes_cons 2 7 _ prime_2 (primes_cons 163 1 _ prime_163 (primes_cons 331 1 _ prime_331
    (primes_nil))))

theorem prime_6245251 : Nat.Prime (6245251) :=
  linearCheck_prime (6245251) 3936850 [(3, 1), (5, 3), (11, 1)] (by decide!) (primes_cons 3 1 _
    prime_3 (primes_cons 5 3 _ prime_5 (primes_cons 11 1 _ prime_11 (primes_nil))))

theorem prime_182298876689 : Nat.Prime (182298876689) :=
  quadraticCheck_prime (182298876689) 3 (120382606746, 75460338926) [(7, 1), (47, 1), (139, 1),
    (6245251, 1)] (by decide!) (primes_cons 7 1 _ prime_7 (primes_cons 47 1 _ prime_47
    (primes_cons 139 1 _ prime_139 (primes_cons 6245251 1 _ prime_6245251 (primes_nil)))))

theorem prime_62437353695123009 : Nat.Prime (62437353695123009) :=
  linearCheck_prime (62437353695123009) 52872905655090144 [(2, 6), (17, 1), (19, 1), (29, 1),
    (1877, 1)] (by decide!) (primes_cons 2 6 _ prime_2 (primes_cons 17 1 _ prime_17 (primes_cons
    19 1 _ prime_19 (primes_cons 29 1 _ prime_29 (primes_cons 1877 1 _ prime_1877
    (primes_nil))))))

theorem prime_2621869708476026882674361033952290578509427 : Nat.Prime (2621869708476026882674361033952290578509427) :=
  quadraticCheck_prime (2621869708476026882674361033952290578509427) 2
    (1285949602244659750921779863437587330888582, 1512795793721097669255716010316828016617395)
    [(8167, 1), (135899, 1), (3560897, 1), (182298876689, 1), (62437353695123009, 1)] (by decide!)
    (primes_cons 8167 1 _ prime_8167 (primes_cons 135899 1 _ prime_135899 (primes_cons 3560897 1 _
    prime_3560897 (primes_cons 182298876689 1 _ prime_182298876689 (primes_cons 62437353695123009
    1 _ prime_62437353695123009 (primes_nil))))))

theorem prime_698575703735456133599723797762201889328894814259077172352301391 : Nat.Prime (698575703735456133599723797762201889328894814259077172352301391) :=
  quadraticCheck_prime (698575703735456133599723797762201889328894814259077172352301391) 7
    (601683589371228793076996467663472225005521244701084906827536984,
    322823537732604254459792173783013146877806334092488179019995582) [(3, 1), (5, 1), (7, 1), (13,
    3), (103, 1), (431, 1), (467, 1), (121870811, 1),
    (2621869708476026882674361033952290578509427, 1)] (by decide!) (primes_cons 3 1 _ prime_3
    (primes_cons 5 1 _ prime_5 (primes_cons 7 1 _ prime_7 (primes_cons 13 3 _ prime_13
    (primes_cons 103 1 _ prime_103 (primes_cons 431 1 _ prime_431 (primes_cons 467 1 _ prime_467
    (primes_cons 121870811 1 _ prime_121870811 (primes_cons
    2621869708476026882674361033952290578509427 1 _
    prime_2621869708476026882674361033952290578509427 (primes_nil))))))))))

theorem prime_73772877462174271275190544236719752617642791980199852706432606976654958697962983688247 : Nat.Prime (73772877462174271275190544236719752617642791980199852706432606976654958697962983688247) :=
  linearCheck_prime
    (73772877462174271275190544236719752617642791980199852706432606976654958697962983688247)
    8288536841008172163114074665773638929339035595781769369021900680018391635454880427579
    [(698575703735456133599723797762201889328894814259077172352301391, 1)] (by decide!)
    (primes_cons 698575703735456133599723797762201889328894814259077172352301391 1 _
    prime_698575703735456133599723797762201889328894814259077172352301391 (primes_nil))

theorem prime_E382 : Nat.Prime (2 ^ 382 - 105) :=
  quadraticCheck_prime (2 ^ 382 - 105) 3
    (8680200815065160933606042958663648859759568763029055527791372312766412027817893729814294805304210576622607359579050,
    3664831697155821603253346873007878783101491493060923423802382517449361832438974243287367078874747065126827827111719)
    [(4159, 1), (179549, 1), (1283159, 1), (3233359, 1), (3500085839, 1),
    (73772877462174271275190544236719752617642791980199852706432606976654958697962983688247, 1)]
    (by decide!) (primes_cons 4159 1 _ prime_4159 (primes_cons 179549 1 _ prime_179549
    (primes_cons 1283159 1 _ prime_1283159 (primes_cons 3233359 1 _ prime_3233359 (primes_cons
    3500085839 1 _ prime_3500085839 (primes_cons
    73772877462174271275190544236719752617642791980199852706432606976654958697962983688247 1 _
    prime_73772877462174271275190544236719752617642791980199852706432606976654958697962983688247
    (primes_nil)))))))

theorem prime_15790321 : Nat.Prime (15790321) :=
  linearCheck_prime (15790321) 5286731 [(2, 4), (3, 2), (5, 1), (7, 1)] (by decide!) (primes_cons
    2 4 _ prime_2 (primes_cons 3 2 _ prime_3 (primes_cons 5 1 _ prime_5 (primes_cons 7 1 _ prime_7
    (primes_nil)))))

theorem prime_183076097 : Nat.Prime (183076097) :=
  linearCheck_prime (183076097) 159576426 [(2, 8), (19, 2)] (by decide!) (primes_cons 2 8 _
    prime_2 (primes_cons 19 2 _ prime_19 (primes_nil)))

theorem prime_242906129 : Nat.Prime (242906129) :=
  quadraticCheck_prime (242906129) 3 (198186047, 160781243) [(5, 1), (23, 1), (1063, 1), (2539,
    1)] (by decide!) (primes_cons 5 1 _ prime_5 (primes_cons 23 1 _ prime_23 (primes_cons 1063 1 _
    prime_1063 (primes_cons 2539 1 _ prime_2539 (primes_nil)))))

theorem prime_54410972897 : Nat.Prime (54410972897) :=
  linearCheck_prime (54410972897) 33130311057 [(242906129, 1)] (by decide!) (primes_cons 242906129
    1 _ prime_242906129 (primes_nil))

theorem prime_358429848460993 : Nat.Prime (358429848460993) :=
  linearCheck_prime (358429848460993) 292717374724586 [(3, 2), (7, 1), (11, 1), (19, 1), (5693,
    1)] (by decide!) (primes_cons 3 2 _ prime_3 (primes_cons 7 1 _ prime_7 (primes_cons 11 1 _
    prime_11 (primes_cons 19 1 _ prime_19 (primes_cons 5693 1 _ prime_5693 (primes_nil))))))

theorem prime_Ed448Goldilocks : Nat.Prime (2 ^ 448 - 2 ^ 224 - 1) :=
  quadraticCheck_prime (2 ^ 448 - 2 ^ 224 - 1) 7
    (208736174440722500468581507473516750905872922856183018464171294596666763319267490418657194519495051398005901462214483044447227186599418,
    215733453068673106380992556312308669235074563694143067315772957351758598198074914635797138311784928619287757412491584317315498213991935)
    [(2, 224), (3, 1), (5, 1), (17, 1), (29, 1), (43, 1), (113, 1), (127, 1), (257, 1), (449, 1),
    (2689, 1), (5153, 1), (65537, 1), (15790321, 1), (183076097, 1), (54410972897, 1),
    (358429848460993, 1)] (by decide!) (primes_cons 2 224 _ prime_2 (primes_cons 3 1 _ prime_3
    (primes_cons 5 1 _ prime_5 (primes_cons 17 1 _ prime_17 (primes_cons 29 1 _ prime_29
    (primes_cons 43 1 _ prime_43 (primes_cons 113 1 _ prime_113 (primes_cons 127 1 _ prime_127
    (primes_cons 257 1 _ prime_257 (primes_cons 449 1 _ prime_449 (primes_cons 2689 1 _ prime_2689
    (primes_cons 5153 1 _ prime_5153 (primes_cons 65537 1 _ prime_65537 (primes_cons 15790321 1 _
    prime_15790321 (primes_cons 183076097 1 _ prime_183076097 (primes_cons 54410972897 1 _
    prime_54410972897 (primes_cons 358429848460993 1 _ prime_358429848460993
    (primes_nil))))))))))))))))))

theorem prime_E521 : Nat.Prime (2 ^ 521 - 1) :=
  quadraticCheck_prime (2 ^ 521 - 1) 3
    (2046936204441432542800941170987445336945593692763233153106782941861275677676853943194300462498646330819453731994273503125452983535504382192730598349226464342,
    6760602163188367690282104187695921378199658172345747189457166875594251977175834508737935528277906579867757538210168823636558400462710671280257406546959455087)
    [(2, 521)] (by decide!) (primes_cons 2 521 _ prime_2 (primes_nil))

theorem prime_20387630040577 : Nat.Prime (20387630040577) :=
  linearCheck_prime (20387630040577) 8619263327336 [(2, 9), (3, 1), (17, 1), (401, 1)] (by
    decide!) (primes_cons 2 9 _ prime_2 (primes_cons 3 1 _ prime_3 (primes_cons 17 1 _ prime_17
    (primes_cons 401 1 _ prime_401 (primes_nil)))))

theorem prime_2151858718037429125511251 : Nat.Prime (2151858718037429125511251) :=
  linearCheck_prime (2151858718037429125511251) 1609459712269279077779376 [(20387630040577, 1)]
    (by decide!) (primes_cons 20387630040577 1 _ prime_20387630040577 (primes_nil))

theorem prime_30510656070643106182115999270826633842178510774222732476374386585332681 : Nat.Prime (30510656070643106182115999270826633842178510774222732476374386585332681) :=
  linearCheck_prime (30510656070643106182115999270826633842178510774222732476374386585332681)
    16711753770083309256638698805856345797797527432599351417495813502003715 [(2, 3), (31, 1),
    (11783, 1), (42853, 1), (2151858718037429125511251, 1)] (by decide!) (primes_cons 2 3 _
    prime_2 (primes_cons 31 1 _ prime_31 (primes_cons 11783 1 _ prime_11783 (primes_cons 42853 1 _
    prime_42853 (primes_cons 2151858718037429125511251 1 _ prime_2151858718037429125511251
    (primes_nil))))))

theorem prime_Curve1174 : Nat.Prime (2 ^ 251 - 9) :=
  linearCheck_prime (2 ^ 251 - 9)
    1639461676564274761763607307819652651272174857542143314632849506546575238301
    [(30510656070643106182115999270826633842178510774222732476374386585332681, 1)] (by decide!)
    (primes_cons 30510656070643106182115999270826633842178510774222732476374386585332681 1 _
    prime_30510656070643106182115999270826633842178510774222732476374386585332681 (primes_nil))

theorem prime_164511353 : Nat.Prime (164511353) :=
  linearCheck_prime (164511353) 7723091 [(2, 3), (41, 1), (59, 1)] (by decide!) (primes_cons 2 3 _
    prime_2 (primes_cons 41 1 _ prime_41 (primes_cons 59 1 _ prime_59 (primes_nil))))

theorem prime_4994337311 : Nat.Prime (4994337311) :=
  quadraticCheck_prime (4994337311) 13 (381992800, 1122907666) [(2, 6), (3, 3), (29, 1), (47, 1),
    (4241, 1)] (by decide!) (primes_cons 2 6 _ prime_2 (primes_cons 3 3 _ prime_3 (primes_cons 29
    1 _ prime_29 (primes_cons 47 1 _ prime_47 (primes_cons 4241 1 _ prime_4241 (primes_nil))))))

theorem prime_8831418697 : Nat.Prime (8831418697) :=
  quadraticCheck_prime (8831418697) 5 (824017561, 5220361072) [(23, 1), (41, 1), (761, 1),
    (252283, 1)] (by decide!) (primes_cons 23 1 _ prime_23 (primes_cons 41 1 _ prime_41
    (primes_cons 761 1 _ prime_761 (primes_cons 252283 1 _ prime_252283 (primes_nil)))))

theorem prime_30406113761 : Nat.Prime (30406113761) :=
  linearCheck_prime (30406113761) 18750718584 [(208147, 1)] (by decide!) (primes_cons 208147 1 _
    prime_208147 (primes_nil))

theorem prime_2108773 : Nat.Prime (2108773) :=
  quadraticCheck_prime (2108773) 2 (287842, 1202887) [(19, 1), (499, 1), (2113, 1)] (by decide!)
    (primes_cons 19 1 _ prime_19 (primes_cons 499 1 _ prime_499 (primes_cons 2113 1 _ prime_2113
    (primes_nil))))

theorem prime_4214173 : Nat.Prime (4214173) :=
  linearCheck_prime (4214173) 1890374 [(8167, 1)] (by decide!) (primes_cons 8167 1 _ prime_8167
    (primes_nil))

theorem prime_9839339 : Nat.Prime (9839339) :=
  quadraticCheck_prime (9839339) 2 (6311298, 1298319) [(3, 3), (7, 1), (19, 1), (31, 1), (137, 1)]
    (by decide!) (primes_cons 3 3 _ prime_3 (primes_cons 7 1 _ prime_7 (primes_cons 19 1 _
    prime_19 (primes_cons 31 1 _ prime_31 (primes_cons 137 1 _ prime_137 (primes_nil))))))

theorem prime_2249645791783395932842367 : Nat.Prime (2249645791783395932842367) :=
  quadraticCheck_prime (2249645791783395932842367) 5 (1040611981486281357187703,
    328788180623778744479399) [(3, 1), (11, 1), (17, 1), (67, 1), (2108773, 1), (4214173, 1),
    (9839339, 1)] (by decide!) (primes_cons 3 1 _ prime_3 (primes_cons 11 1 _ prime_11
    (primes_cons 17 1 _ prime_17 (primes_cons 67 1 _ prime_67 (primes_cons 2108773 1 _
    prime_2108773 (primes_cons 4214173 1 _ prime_4214173 (primes_cons 9839339 1 _ prime_9839339
    (primes_nil))))))))

theorem prime_320552943358651 : Nat.Prime (320552943358651) :=
  linearCheck_prime (320552943358651) 63820093055890 [(5, 2), (71, 1), (277, 1), (401, 1)] (by
    decide!) (primes_cons 5 2 _ prime_5 (primes_cons 71 1 _ prime_71 (primes_cons 277 1 _
    prime_277 (primes_cons 401 1 _ prime_401 (primes_nil)))))

theorem prime_2125820563389437533390243893834597846757304863651 : Nat.Prime (2125820563389437533390243893834597846757304863651) :=
  linearCheck_prime (2125820563389437533390243893834597846757304863651)
    1330106585769803687275341772649263012376086063678 [(31, 1), (41, 1), (131, 1), (61681, 1),
    (320552943358651, 1)] (by decide!) (primes_cons 31 1 _ prime_31 (primes_cons 41 1 _ prime_41
    (primes_cons 131 1 _ prime_131 (primes_cons 61681 1 _ prime_61681 (primes_cons 320552943358651
    1 _ prime_320552943358651 (primes_nil))))))

theorem prime_Curve41417 : Nat.Prime (2 ^ 414 - 17) :=
  quadraticCheck_prime (2 ^ 414 - 17) 5
    (7695723834426485089942489699500140616085721655894685243756158671583656775841125335650943035855027816362184299945594163706860,
    32769366338266063161860723831131337922394094275294098827173954186076820109315478949998530532459661275498048679001330829132151)
    [(31, 1), (83, 1), (431, 1), (13367, 1), (25583, 1), (164511353, 1), (4994337311, 1),
    (8831418697, 1), (30406113761, 1), (2249645791783395932842367, 1),
    (2125820563389437533390243893834597846757304863651, 1)] (by decide!) (primes_cons 31 1 _
    prime_31 (primes_cons 83 1 _ prime_83 (primes_cons 431 1 _ prime_431 (primes_cons 13367 1 _
    prime_13367 (primes_cons 25583 1 _ prime_25583 (primes_cons 164511353 1 _ prime_164511353
    (primes_cons 4994337311 1 _ prime_4994337311 (primes_cons 8831418697 1 _ prime_8831418697
    (primes_cons 30406113761 1 _ prime_30406113761 (primes_cons 2249645791783395932842367 1 _
    prime_2249645791783395932842367 (primes_cons 2125820563389437533390243893834597846757304863651
    1 _ prime_2125820563389437533390243893834597846757304863651 (primes_nil))))))))))))

/-! ## Scalar multiplication across key pairs -/

theorem exchange_of_prime (crv : Curve) (hreg : crv ∈ registered) (n : Nat) (hn : n.Prime)
    (hP : crv.P = n) (h2 : 2 < n) (hA : crv.A = 1)
    (hD : powMod (crv.D % n).toNat (n / 2) n = n - 1)
    (k1 k2 : List Nat) (hk1 : ∀ b ∈ k1, b < 256) (hk2 : ∀ b ∈ k2, b < 256) :
    ∃ x1 y1 x2 y2 r, crv.ScalarBaseMult k1 = some (x1, y1) ∧
      crv.ScalarBaseMult k2 = some (x2, y2) ∧
      crv.ScalarMult x2 y2 k1 = some r ∧ crv.ScalarMult x1 y1 k2 = some r := by
  haveI : Fact n.Prime := ⟨hn⟩
  have hG := (IsOnCurve_iff_onCurve crv n hP _ _).mp (registered_generators crv hreg).2
  have hsqA : IsSquare (crv.A : ZMod n) := ⟨1, by rw [hA]; simp⟩
  exact ScalarMult_exchange crv n hP (two_ne_zero_of_odd_prime n (by omega)) hsqA
    (nonsquare_of_powMod n h2 crv.D hD) crv.Gx crv.Gy hG k1 k2 hk1 hk2

theorem E222_modulus : E222.P = ((2 ^ 222 - 117 : Nat) : Int) := by
  decide!

/-- The criterion of Euler: `D` of E222 is not a square modulo `P`. -/
theorem E222_nonsquare :
    powMod (E222.D % ((2 ^ 222 - 117 : Nat) : Int)).toNat ((2 ^ 222 - 117) / 2) (2 ^ 222 - 117) =
      2 ^ 222 - 117 - 1 := by
  decide!

theorem E222_exchange (k1 k2 : List Nat) (hk1 : ∀ b ∈ k1, b < 256)
    (hk2 : ∀ b ∈ k2, b < 256) :
    ∃ x1 y1 x2 y2 r, E222.ScalarBaseMult k1 = some (x1, y1) ∧
      E222.ScalarBaseMult k2 = some (x2, y2) ∧
      E222.ScalarMult x2 y2 k1 = some r ∧ E222.ScalarMult x1 y1 k2 = some r :=
  exchange_of_prime E222 (by simp [registered]) (2 ^ 222 - 117) prime_E222
    E222_modulus (by norm_num) rfl E222_nonsquare k1 k2 hk1 hk2

theorem E382_modulus : E382.P = ((2 ^ 382 - 105 : Nat) : Int) := by
  decide!

/-- The criterion of Euler: `D` of E382 is not a square modulo `P`. -/
theorem E382_nonsquare :
    powMod (E382.D % ((2 ^ 382 - 105 : Nat) : Int)).toNat ((2 ^ 382 - 105) / 2) (2 ^ 382 - 105) =
      2 ^ 382 - 105 - 1 := by
  decide!

theorem E382_exchange (k1 k2 : List Nat) (hk1 : ∀ b ∈ k1, b < 256)
    (hk2 : ∀ b ∈ k2, b < 256) :
    ∃ x1 y1 x2 y2 r, E382.ScalarBaseMult k1 = some (x1, y1) ∧
      E382.ScalarBaseMult k2 = some (x2, y2) ∧
      E382.ScalarMult x2 y2 k1 = some r ∧ E382.ScalarMult x1 y1 k2 = some r :=
  exchange_of_prime E382 (by simp [registered]) (2 ^ 382 - 105) prime_E382
    E382_modulus (by norm_num) rfl E382_nonsquare k1 k2 hk1 hk2

theorem Ed448Goldilocks_modulus : Ed448Goldilocks.P = ((2 ^ 448 - 2 ^ 224 - 1 : Nat) : Int) := by
  decide!

/-- The criterion of Euler: `D` of Ed448Goldilocks is not a square modulo `P`. -/
theorem Ed448Goldilocks_nonsquare :
    powMod (Ed448Goldilocks.D % ((2 ^ 448 - 2 ^ 224 - 1 : Nat) : Int)).toNat ((2 ^ 448 - 2 ^ 224 - 1) / 2) (2 ^ 448 - 2 ^ 224 - 1) =
      2 ^ 448 - 2 ^ 224 - 1 - 1 := by
  decide!

theorem Ed448Goldilocks_exchange (k1 k2 : List Nat) (hk1 : ∀ b ∈ k1, b < 256)
    (hk2 : ∀ b ∈ k2, b < 256) :
    ∃ x1 y1 x2 y2 r, Ed448Goldilocks.ScalarBaseMult k1 = some (x1, y1) ∧
      Ed448Goldilocks.ScalarBaseMult k2 = some (x2, y2) ∧
      Ed448Goldilocks.ScalarMult x2 y2 k1 = some r ∧ Ed448Goldilocks.ScalarMult x1 y1 k2 = some r :=
  exchange_of_prime Ed448Goldilocks (by simp [registered]) (2 ^ 448 - 2 ^ 224 - 1) prime_Ed448Goldilocks
    Ed448Goldilocks_modulus (by norm_num) rfl Ed448Goldilocks_nonsquare k1 k2 hk1 hk2

theorem E521_modulus : E521.P = ((2 ^ 521 - 1 : Nat) : Int) := by
  decide!

/-- The criterion of Euler: `D` of E521 is not a square modulo `P`. -/
theorem E521_nonsquare :
    powMod (E521.D % ((2 ^ 521 - 1 : Nat) : Int)).toNat ((2 ^ 521 - 1) / 2) (2 ^ 521 - 1) =
      2 ^ 521 - 1 - 1 := by
  decide!

theorem E521_exchange (k1 k2 : List Nat) (hk1 : ∀ b ∈ k1, b < 256)
    (hk2 : ∀ b ∈ k2, b < 256) :
    ∃ x1 y1 x2 y2 r, E521.ScalarBaseMult k1 = some (x1, y1) ∧
      E521.ScalarBaseMult k2 = some (x2, y2) ∧
      E521.ScalarMult x2 y2 k1 = some r ∧ E521.ScalarMult x1 y1 k2 = some r :=
  exchange_of_prime E521 (by simp [registered]) (2 ^ 521 - 1) prime_E521
    E521_modulus (by norm_num) rfl E521_nonsquare k1 k2 hk1 hk2

theorem Curve1174_modulus : Curve1174.P = ((2 ^ 251 - 9 : Nat) : Int) := by
  decide!

/-- The criterion of Euler: `D` of Curve1174 is not a square modulo `P`. -/
theorem Curve1174_nonsquare :
    powMod (Curve1174.D % ((2 ^ 251 - 9 : Nat) : Int)).toNat ((2 ^ 251 - 9) / 2) (2 ^ 251 - 9) =
      2 ^ 251 - 9 - 1 := by
  decide!

theorem Curve1174_exchange (k1 k2 : List Nat) (hk1 : ∀ b ∈ k1, b < 256)
    (hk2 : ∀ b ∈ k2, b < 256) :
    ∃ x1 y1 x2 y2 r, Curve1174.ScalarBaseMult k1 = some (x1, y1) ∧
      Curve1174.ScalarBaseMult k2 = some (x2, y2) ∧
      Curve1174.ScalarMult x2 y2 k1 = some r ∧ Curve1174.ScalarMult x1 y1 k2 = some r :=
  exchange_of_prime Curve1174 (by simp [registered]) (2 ^ 251 - 9) prime_Curve1174
    Curve1174_modulus (by norm_num) rfl Curve1174_nonsquare k1 k2 hk1 hk2

theorem Curve41417_modulus : Curve41417.P = ((2 ^ 414 - 17 : Nat) : Int) := by
  decide!

/-- The criterion of Euler: `D` of Curve41417 is not a square modulo `P`. -/
theorem Curve41417_nonsquare :
    powMod (Curve41417.D % ((2 ^ 414 - 17 : Nat) : Int)).toNat ((2 ^ 414 - 17) / 2) (2 ^ 414 - 17) =
      2 ^ 414 - 17 - 1 := by
  decide!

theorem Curve41417_exchange (k1 k2 : List Nat) (hk1 : ∀ b ∈ k1, b < 256)
    (hk2 : ∀ b ∈ k2, b < 256) :
    ∃ x1 y1 x2 y2 r, Curve41417.ScalarBaseMult k1 = some (x1, y1) ∧
      Curve41417.ScalarBaseMult k2 = some (x2, y2) ∧
      Curve41417.ScalarMult x2 y2 k1 = some r ∧ Curve41417.ScalarMult x1 y1 k2 = some r :=
  exchange_of_prime Curve41417 (by simp [registered]) (2 ^ 414 - 17) prime_Curve41417
    Curve41417_modulus (by norm_num) rfl Curve41417_nonsquare k1 k2 hk1 hk2

/-- C15: on each registered curve, for all byte sequences `k1`, `k2`, the
calls `ScalarBaseMult(k1)` and `ScalarBaseMult(k2)` return points `P1`, `P2`,
and `ScalarMult(P2, k1)` and `ScalarMult(P1, k2)` return the same pair. -/
theorem ScalarMult_commutes (crv : Curve) (hreg : crv ∈ registered) (k1 k2 : List Nat)
    (hk1 : ∀ b ∈ k1, b < 256) (hk2 : ∀ b ∈ k2, b < 256) :
    ∃ x1 y1 x2 y2 r, crv.ScalarBaseMult k1 = some (x1, y1) ∧
      crv.ScalarBaseMult k2 = some (x2, y2) ∧
      crv.ScalarMult x2 y2 k1 = some r ∧ crv.ScalarMult x1 y1 k2 = some r := by
  simp only [registered, List.mem_cons, List.mem_singleton, List.not_mem_nil, or_false]
    at hreg
  rcases hreg with rfl | rfl | rfl | rfl | rfl | rfl
  · exact E222_exchange k1 k2 hk1 hk2
  · exact E382_exchange k1 k2 hk1 hk2
  · exact Ed448Goldilocks_exchange k1 k2 hk1 hk2
  · exact E521_exchange k1 k2 hk1 hk2
  · exact Curve1174_exchange k1 k2 hk1 hk2
  · exact Curve41417_exchange k1 k2 hk1 hk2

/-- C15, on Curve1174 for the private keys `[0x03, 0x07]` and `[0x05]`. -/
theorem ScalarMult_commutes_witness :
    Curve1174 ∈ registered ∧ (∀ b ∈ [3, 7], b < 256) ∧ (∀ b ∈ [5], b < 256) ∧
    ∃ x1 y1 x2 y2 r, Curve1174.ScalarBaseMult [3, 7] = some (x1, y1) ∧
      Curve1174.ScalarBaseMult [5] = some (x2, y2) ∧
      Curve1174.ScalarMult x2 y2 [3, 7] = some r ∧ Curve1174.ScalarMult x1 y1 [5] = some r :=
  ⟨by simp [registered], by decide, by decide,
    ScalarMult_commutes Curve1174 (by simp [registered]) [3, 7] [5] (by decide) (by decide)⟩

end Edwards
